import Mathlib

/-! Subrecon: source orchestrator and resolving engine.

A shallow embedding of `pkg/runner/runner.go`, `internal/resolve/resolver.go`,
`pkg/filter/filter.go` and `pkg/config/config.go`.

Conventions of the embedding:

* a Go `string` is a Lean `String`, that is, valid UTF-8 text; Go compares
  strings bytewise, which for valid UTF-8 text is the lexicographic order of
  the code points, so the order used by `sort.Strings` is the lexicographic
  order of `String.data`;
* `strings.TrimSpace` removes the white space of Unicode; `strings.ToLower`
  maps every character through `unicode.ToLower`, whose case table above
  U+007F is a parameter `lower` of the definitions that need it;
* a Go `error` is kept as its message, `none` standing for `nil`;
* a Go `map[string]V` is an association list in insertion order with at most
  one entry per key; a `nil` slice is the empty list;
* the values received on `resultsChan` are a parameter of the aggregating
  part of `Run`: their order is the completion order of the provider tasks.
-/

namespace Subrecon

/-- Go `error`: the message of a non-nil error, `none` for `nil`. -/
abbrev GoError := Option String

/-! ## Go maps keyed by strings -/

/-- The `_, exists := m[k]` test of a Go map. -/
def mapContains {β : Type} (m : List (String × β)) (k : String) : Bool :=
  m.any (fun e => e.1 == k)

/-- The value stored under `k`, if any (`v, ok := m[k]`). -/
def mapLookup {β : Type} (m : List (String × β)) (k : String) : Option β :=
  (m.find? (fun e => e.1 == k)).map Prod.snd

/-- The keys of a Go map, here in insertion order. -/
def mapKeys {β : Type} (m : List (String × β)) : List String :=
  m.map Prod.fst

/-- The guarded store `if _, exists := m[k]; !exists { m[k] = v }`. -/
def insertIfAbsent {β : Type} (m : List (String × β)) (k : String) (v : β) :
    List (String × β) :=
  if mapContains m k then m else m ++ [(k, v)]

/-- Assignment `m[k] = v` of a Go map. -/
def mapStore {β : Type} (m : List (String × β)) (k : String) (v : β) :
    List (String × β) :=
  if mapContains m k then m.map (fun e => if e.1 == k then (k, v) else e)
  else m ++ [(k, v)]

/-! ## Sorting -/

/-- The order of `sort.Strings`: lexicographic on the characters. -/
def strLE (a b : String) : Prop := a.data ≤ b.data

instance strLE.decidable : DecidableRel strLE :=
  fun a b => inferInstanceAs (Decidable (a.data ≤ b.data))

/-- Strict order of Go strings (`a < b`). -/
def strLT (a b : String) : Prop := a.data < b.data

instance strLT.decidable : DecidableRel strLT :=
  fun a b => inferInstanceAs (Decidable (a.data < b.data))

/-- Outcome of `sort.Strings`: the ascending rearrangement of the slice. -/
def sortStrings (l : List String) : List String :=
  l.insertionSort strLE

namespace runner

/-- `Result` of runner.go: what one provider task sends on `resultsChan`. -/
structure Result where
  Source : String
  Subdomains : List String
  Error : GoError
deriving DecidableEq, Repr

/-- `SubdomainResult` of runner.go. `Timestamp` is logical time: the number of
`time.Now()` calls made earlier in the same run. -/
structure SubdomainResult where
  Host : String
  Source : String
  Timestamp : Nat
  IPs : List String
deriving DecidableEq, Repr

/-- An outcome is successful and reports `x`. -/
def Reports (r : Result) (x : String) : Prop := r.Error = none ∧ x ∈ r.Subdomains

/-- The two accumulators of the collection loop of `Run`. -/
structure Collected where
  subdomainMap : List (String × String)
  errors : List String
deriving DecidableEq, Repr

/-- Inner loop of `Run` (lines 138-142): every reported hostname is stored
under the reporting source unless the map already has it. -/
def recordSubdomains (source : String) (subdomains : List String)
    (m : List (String × String)) : List (String × String) :=
  subdomains.foldl (fun acc subdomain => insertIfAbsent acc subdomain source) m

/-- One iteration of `for result := range resultsChan` in `Run`
(lines 132-147): an outcome with an error only extends `errors`. -/
def collectStep (st : Collected) (result : Result) : Collected :=
  match result.Error with
  | some e => { st with errors := st.errors ++ [result.Source ++ ": " ++ e] }
  | none =>
    { st with subdomainMap :=
        recordSubdomains result.Source result.Subdomains st.subdomainMap }

/-- The collection loop of `Run` over the received outcomes. -/
def collect (outcomes : List Result) : Collected :=
  outcomes.foldl collectStep { subdomainMap := [], errors := [] }

/-- Rendering of `[]error` by `%v`. -/
def fmtErrors (errors : List String) : String :=
  "[" ++ " ".intercalate errors ++ "]"

/-- `Runner.Run` (lines 66-69 and 128-161) as a function of the domain and of
the outcomes received on `resultsChan`, in the order of reception. -/
def Run (domain : String) (outcomes : List Result) : List String × GoError :=
  if domain = "" then
    ([], some "domain cannot be empty")
  else
    let st := collect outcomes
    let subdomains := sortStrings (mapKeys st.subdomainMap)
    if subdomains.length = 0 ∧ st.errors.length > 0 then
      ([], some ("all sources failed: " ++ fmtErrors st.errors))
    else
      (subdomains, none)

/-- Accumulators of the collection loop of `RunWithMetadata`. -/
structure CollectedMeta where
  subdomainMap : List (String × SubdomainResult)
  errors : List String
deriving DecidableEq, Repr

/-- Inner loop of `RunWithMetadata` (lines 237-245). `time.Now()` is called
once per stored entry, so its logical value is the size of the map. -/
def recordSubdomainsMeta (source : String) (subdomains : List String)
    (m : List (String × SubdomainResult)) : List (String × SubdomainResult) :=
  subdomains.foldl
    (fun acc subdomain =>
      insertIfAbsent acc subdomain
        { Host := subdomain, Source := source, Timestamp := acc.length, IPs := [] })
    m

/-- One iteration of the collection loop of `RunWithMetadata` (lines 231-250). -/
def collectStepMeta (st : CollectedMeta) (result : Result) : CollectedMeta :=
  match result.Error with
  | some e => { st with errors := st.errors ++ [result.Source ++ ": " ++ e] }
  | none =>
    { st with subdomainMap :=
        recordSubdomainsMeta result.Source result.Subdomains st.subdomainMap }

/-- The collection loop of `RunWithMetadata` over the received outcomes. -/
def collectMeta (outcomes : List Result) : CollectedMeta :=
  outcomes.foldl collectStepMeta { subdomainMap := [], errors := [] }

/-- The `less` function handed to `sort.Slice` (line 260), as `≤` on hosts;
the hosts of the slice are pairwise distinct map keys. -/
def hostLE (a b : SubdomainResult) : Prop := strLE a.Host b.Host

instance hostLE.decidable : DecidableRel hostLE :=
  fun a b => inferInstanceAs (Decidable (strLE a.Host b.Host))

/-- `Runner.RunWithMetadata` (lines 165-168 and 227-268) as a function of the
domain and of the outcomes received on `resultsChan`. -/
def RunWithMetadata (domain : String) (outcomes : List Result) :
    List SubdomainResult × GoError :=
  if domain = "" then
    ([], some "domain cannot be empty")
  else
    let st := collectMeta outcomes
    let results := (st.subdomainMap.map Prod.snd).insertionSort hostLE
    if results.length = 0 ∧ st.errors.length > 0 then
      ([], some ("all sources failed: " ++ fmtErrors st.errors))
    else
      (results, none)

/-! ### Runner, configuration and provider tasks -/

/-- One second as a `time.Duration` (nanoseconds). -/
def second : Int := 1000000000

/-- `Config` of runner.go. -/
structure Config where
  Workers : Int
  Timeout : Int
  Verbose : Bool
  Silent : Bool
deriving DecidableEq, Repr

/-- What a task can observe of a `context.Context`: the duration after which
it is cancelled, `none` for a context without deadline. -/
structure Context where
  deadline : Option Int
deriving DecidableEq, Repr

/-- `context.Background()`. -/
def Context.background : Context := { deadline := none }

/-- `context.WithTimeout(parent, d)`: the earlier of the two deadlines. -/
def Context.withTimeout (parent : Context) (d : Int) : Context :=
  match parent.deadline with
  | none => { deadline := some d }
  | some p => { deadline := some (min p d) }

/-- The `sources.Source` interface: a name, the credential flag and what the
provider answers when run under a context for a domain. -/
structure Source where
  name : String
  needsKey : Bool
  run : Context → String → List String × GoError

/-- `Runner` of runner.go. A limiter is kept as its requests-per-second. -/
structure Runner where
  sources : List Source
  workers : Int
  timeout : Int
  rateLimiters : List (String × Int)
  verbose : Bool
  silent : Bool

/-- `NewRunner` (lines 33-51): only a nil config is replaced by defaults. -/
def NewRunner (srcs : List Source) (config : Option Config) : Runner :=
  let config : Config :=
    match config with
    | none => { Workers := 10, Timeout := 30 * second, Verbose := false, Silent := false }
    | some c => c
  { sources := srcs
    workers := config.Workers
    timeout := config.Timeout
    rateLimiters := []
    verbose := config.Verbose
    silent := config.Silent }

/-- `SetRateLimit` (lines 54-56). -/
def Runner.SetRateLimit (r : Runner) (sourceName : String) (requestsPerSecond : Int) :
    Runner :=
  { r with rateLimiters := mapStore r.rateLimiters sourceName requestsPerSecond }

/-- Capacity requested for the semaphore at line 79,
`make(chan struct{}, r.workers)`. -/
def Runner.semCapacity (r : Runner) : Int := r.workers

/-- Lines 93-94: the error of `limiter.Wait(ctx)` when the source has a
limiter, `waitErr` being what that call returns; `none` without a limiter. -/
def limiterCheck (r : Runner) (waitErr : GoError) (src : Source) : GoError :=
  match mapLookup r.rateLimiters src.name with
  | some _ => waitErr
  | none => none

/-- What one provider task did: how often it called `src.Run` and the values
it sent on `resultsChan`. -/
structure TaskTrace where
  invocations : Nat
  sent : List Result
deriving DecidableEq, Repr

/-- Body of the goroutine of `Run` after the semaphore is acquired
(lines 92-118). -/
def sourceTask (r : Runner) (waitErr : GoError) (ctx : Context) (domain : String)
    (src : Source) : TaskTrace :=
  match limiterCheck r waitErr src with
  | some err =>
    { invocations := 0
      sent := [{ Source := src.name, Subdomains := [],
                 Error := some ("rate limit wait failed: " ++ err) }] }
  | none =>
    let out := src.run ctx domain
    { invocations := 1
      sent := [{ Source := src.name, Subdomains := out.1, Error := out.2 }] }

/-! ### Dispatch of the provider tasks

The goroutines of `Run` (lines 75-126) as a transition system. A schedule is
a list of events; every event is one atomic step of one goroutine. -/

/-- Where the goroutine of one source stands. -/
inductive Phase where
  /-- Launched, blocked at `sem <- struct{}{}` (line 89). -/
  | waiting
  /-- Slot acquired, before the rate limiter and `src.Run` (lines 92-105). -/
  | holding
  /-- Inside `src.Run(ctx, domain)` (line 108). -/
  | running
  /-- Outcome sent on `resultsChan`; the deferred calls are pending. -/
  | sent
  /-- Slot given back (`<-sem`) and `wg.Done()` executed. -/
  | done
deriving DecidableEq, Repr

/-- Whether a goroutine in this phase holds a slot of the semaphore. -/
def Phase.holdsSlot : Phase → Bool
  | .holding => true
  | .running => true
  | .sent => true
  | _ => false

/-- State of one execution of `Run` after the goroutines are launched. -/
structure RunState where
  /-- Phase of the goroutine of each source, in the order of `r.sources`. -/
  phases : List Phase
  /-- Number of values buffered in `sem`. -/
  sem : Nat
  /-- Indices of the sources whose `Run` was called, in call order. -/
  invoked : List Nat
  /-- Values buffered in `resultsChan`, oldest first. -/
  resultsChan : List Result
  /-- Whether `close(resultsChan)` was executed. -/
  closed : Bool
  /-- Values the collection loop has received so far. -/
  received : List Result
deriving DecidableEq, Repr

/-- Atomic steps of the goroutines of `Run`. -/
inductive Event where
  /-- Task `i` completes `sem <- struct{}{}`. -/
  | acquire (i : Nat)
  /-- Task `i`: `limiter.Wait` failed, the abort outcome is sent. -/
  | abort (i : Nat)
  /-- Task `i` calls `src.Run`. -/
  | start (i : Nat)
  /-- Task `i`: `src.Run` returned, its outcome is sent. -/
  | finish (i : Nat)
  /-- Task `i` runs its deferred `<-sem` and `wg.Done()`. -/
  | release (i : Nat)
  /-- The closing goroutine: `wg.Wait()` returned, `close(resultsChan)`. -/
  | close
  /-- The collection loop receives the oldest buffered value. -/
  | receive
deriving DecidableEq, Repr

/-- Number of provider invocations started and not yet returned. -/
def RunState.runningCount (s : RunState) : Nat :=
  s.phases.countP (fun p => p == Phase.running)

/-- Number of goroutines holding a slot of the semaphore. -/
def RunState.holders (s : RunState) : Nat :=
  s.phases.countP Phase.holdsSlot

/-- State right after the launch loop (lines 76-120), or `none` when
`make(chan struct{}, r.workers)` panics on a negative size. -/
def initState (r : Runner) : Option RunState :=
  if r.semCapacity < 0 then none
  else some
    { phases := r.sources.map (fun _ => Phase.waiting)
      sem := 0
      invoked := []
      resultsChan := []
      closed := false
      received := [] }

/-- One step. `waitErr i` is what `limiter.Wait(ctx)` returns in task `i`.
A send on a buffered channel is enabled while the buffer is not full; the
result is `none` when the event is not enabled in the state. -/
def step (r : Runner) (waitErr : Nat → GoError) (ctx : Context) (domain : String)
    (s : RunState) : Event → Option RunState
  | .acquire i =>
    if s.phases[i]? = some Phase.waiting ∧ (s.sem : Int) < r.semCapacity then
      some { s with phases := s.phases.set i Phase.holding, sem := s.sem + 1 }
    else none
  | .abort i =>
    match r.sources[i]? with
    | none => none
    | some src =>
      if s.phases[i]? = some Phase.holding
          ∧ (limiterCheck r (waitErr i) src).isSome
          ∧ s.resultsChan.length < r.sources.length then
        some { s with
          phases := s.phases.set i Phase.sent
          resultsChan := s.resultsChan ++ (sourceTask r (waitErr i) ctx domain src).sent }
      else none
  | .start i =>
    match r.sources[i]? with
    | none => none
    | some src =>
      if s.phases[i]? = some Phase.holding
          ∧ (limiterCheck r (waitErr i) src).isNone then
        some { s with phases := s.phases.set i Phase.running, invoked := s.invoked ++ [i] }
      else none
  | .finish i =>
    match r.sources[i]? with
    | none => none
    | some src =>
      if s.phases[i]? = some Phase.running
          ∧ s.resultsChan.length < r.sources.length then
        some { s with
          phases := s.phases.set i Phase.sent
          resultsChan := s.resultsChan ++ (sourceTask r (waitErr i) ctx domain src).sent }
      else none
  | .release i =>
    if s.phases[i]? = some Phase.sent ∧ 0 < s.sem then
      some { s with phases := s.phases.set i Phase.done, sem := s.sem - 1 }
    else none
  | .close =>
    if s.closed = false ∧ s.phases.all (fun p => p == Phase.done) then
      some { s with closed := true }
    else none
  | .receive =>
    match s.resultsChan with
    | [] => none
    | x :: rest => some { s with resultsChan := rest, received := s.received ++ [x] }

/-- The state reached from `s` by a schedule, if every event is enabled. -/
def execFrom (r : Runner) (waitErr : Nat → GoError) (ctx : Context) (domain : String) :
    RunState → List Event → Option RunState
  | s, [] => some s
  | s, e :: es =>
    match step r waitErr ctx domain s e with
    | none => none
    | some s' => execFrom r waitErr ctx domain s' es

/-- The state reached by a schedule from the launch of the goroutines. -/
def exec (r : Runner) (waitErr : Nat → GoError) (ctx : Context) (domain : String)
    (schedule : List Event) : Option RunState :=
  match initState r with
  | none => none
  | some s => execFrom r waitErr ctx domain s schedule

/-- The collection loop has ended: the channel is closed and drained. -/
def RunState.finished (s : RunState) : Bool :=
  s.closed && s.resultsChan.isEmpty

/-- `Runner.Run` under a schedule of its goroutines: the returned pair, or
`none` when the schedule does not take the run to its return statement. -/
def Runner.Run (r : Runner) (waitErr : Nat → GoError) (parent : Context)
    (domain : String) (schedule : List Event) : Option (List String × GoError) :=
  if domain = "" then some ([], some "domain cannot be empty")
  else
    match exec r waitErr (parent.withTimeout r.timeout) domain schedule with
    | none => none
    | some s => if s.finished then some (runner.Run domain s.received) else none

/-- `Runner.RunWithMetadata` under a schedule of its goroutines. -/
def Runner.RunWithMetadata (r : Runner) (waitErr : Nat → GoError) (parent : Context)
    (domain : String) (schedule : List Event) :
    Option (List SubdomainResult × GoError) :=
  if domain = "" then some ([], some "domain cannot be empty")
  else
    match exec r waitErr (parent.withTimeout r.timeout) domain schedule with
    | none => none
    | some s => if s.finished then some (runner.RunWithMetadata domain s.received) else none

/-- The round-robin schedule that runs the tasks one after the other and
receives each outcome as soon as it is sent. -/
def sequentialSchedule (r : Runner) (waitErr : Nat → GoError) : List Event :=
  ((List.range r.sources.length).zip r.sources).flatMap
      (fun p =>
        if (limiterCheck r (waitErr p.1) p.2).isSome then
          [Event.acquire p.1, Event.abort p.1, Event.release p.1, Event.receive]
        else
          [Event.acquire p.1, Event.start p.1, Event.finish p.1, Event.release p.1,
            Event.receive])
    ++ [Event.close]

/-! ### The mock provider of the test suite -/

/-- `MockSource` of tests/runner_test.go; `delay` is a `time.Duration`. -/
structure MockSource where
  name : String
  subdomains : List String
  err : GoError
  delay : Int

/-- `MockSource.Run`: sleeps for `delay`, never looking at `ctx`, then
returns the configured values. -/
def MockSource.Run (m : MockSource) (_ctx : Context) (_domain : String) :
    List String × GoError :=
  (m.subdomains, m.err)

/-- A `MockSource` seen through the `Source` interface. -/
def MockSource.toSource (m : MockSource) : Source :=
  { name := m.name, needsKey := false, run := m.Run }

end runner

/-! ## Resolving engine (`internal/resolve/resolver.go`) -/

namespace resolve

/-- `Result` of resolver.go. -/
structure Result where
  Host : String
  IPs : List String
  Exists : Bool
  Error : GoError
deriving DecidableEq, Repr

/-- What one call of `resolver.LookupHost` returns: the addresses, or an
error together with whether it is a `net.Error` whose `Temporary()` holds. -/
inductive LookupReply where
  | ok (addrs : List String)
  | fail (msg : String) (temporary : Bool)
deriving DecidableEq, Repr

/-- The network and the context as seen by a resolver. Lookups are numbered
in the order in which the resolver issues them. -/
structure Net where
  /-- Reply to lookup number `n`, issued for the given hostname. -/
  lookupHost : Nat → String → LookupReply
  /-- Whether `ctx.Done()` wins the `select` of the backoff that follows
  lookup number `n`. -/
  ctxDone : Nat → Bool
  /-- The value of `ctx.Err()` once the context is done. -/
  ctxErr : String

/-- `Resolver` of resolver.go with two observation fields: `issued` counts
the `LookupHost` calls made so far and `slept` logs the completed backoff
waits in seconds. -/
structure Resolver where
  servers : List String
  timeout : Int
  cache : List (String × Result)
  wildcards : List (String × List String)
  issued : Nat
  slept : List Nat
deriving DecidableEq, Repr

/-- `Config` of resolver.go. -/
structure Config where
  Servers : List String
  Timeout : Int
deriving DecidableEq, Repr

/-- `NewResolver` (lines 29-43). -/
def NewResolver (config : Option Config) : Resolver :=
  let config : Config :=
    match config with
    | none => { Servers := ["8.8.8.8:53", "1.1.1.1:53"], Timeout := 5 * runner.second }
    | some c => c
  { servers := config.Servers
    timeout := config.Timeout
    cache := []
    wildcards := []
    issued := 0
    slept := [] }

/-- How the retry loop of `Resolve` is left. -/
inductive LoopExit where
  /-- The loop ended by `break` or by exhausting its attempts. -/
  | finished (ips : List String) (lastErr : GoError)
  /-- The `select` of the backoff saw `ctx.Done()`: `return nil, ctx.Err()`. -/
  | cancelled
deriving DecidableEq, Repr

/-- The retry loop of `Resolve` (lines 79-103) from iteration `attempt` on,
with `remaining` iterations left before `attempt < 3` fails. It returns the
exit together with the resolver whose observation fields are advanced. -/
def retryLoop (net : Net) (subdomain : String) :
    (remaining : Nat) → (attempt : Nat) → (lastErr : GoError) → Resolver →
      LoopExit × Resolver
  | 0, _, lastErr, r => (LoopExit.finished [] lastErr, r)
  | remaining + 1, attempt, lastErr, r =>
    let r1 := { r with issued := r.issued + 1 }
    match net.lookupHost r.issued subdomain with
    | LookupReply.ok addrs => (LoopExit.finished addrs lastErr, r1)
    | LookupReply.fail msg temporary =>
      if temporary ∧ attempt < 2 then
        if net.ctxDone r.issued then (LoopExit.cancelled, r1)
        else
          retryLoop net subdomain remaining (attempt + 1) (some msg)
            { r1 with slept := r1.slept ++ [attempt + 1] }
      else (LoopExit.finished [] (some msg), r1)

/-- `Resolve` (lines 54-116): the returned pair and the resolver afterwards. -/
def Resolve (net : Net) (r : Resolver) (subdomain : String) :
    (Option Result × GoError) × Resolver :=
  match mapLookup r.cache subdomain with
  | some cached => ((some cached, none), r)
  | none =>
    match retryLoop net subdomain 3 0 none r with
    | (LoopExit.cancelled, r1) => ((none, some net.ctxErr), r1)
    | (LoopExit.finished ips lastErr, r1) =>
      let result : Result :=
        { Host := subdomain, IPs := ips, Exists := decide (ips.length > 0), Error := lastErr }
      ((some result, none), { r1 with cache := mapStore r1.cache subdomain result })

end resolve

/-! ## `strings.TrimSpace` and `strings.ToLower` -/

/-- `unicode.IsSpace`: in Latin-1 the characters tab, line feed, vertical
tab, form feed, carriage return, space, U+0085 and U+00A0; above Latin-1 the
characters with the property White_Space, which are U+1680, U+2000 to
U+200A, U+2028, U+2029, U+202F, U+205F and U+3000. -/
def isSpace (c : Char) : Bool :=
  (9 ≤ c.toNat && c.toNat ≤ 13) || c.toNat == 0x20 || c.toNat == 0x85 || c.toNat == 0xA0
    || c.toNat == 0x1680 || (0x2000 ≤ c.toNat && c.toNat ≤ 0x200A)
    || c.toNat == 0x2028 || c.toNat == 0x2029 || c.toNat == 0x202F
    || c.toNat == 0x205F || c.toNat == 0x3000

/-- `strings.TrimSpace`: the string without the white space at its two
ends. -/
def trimSpace (s : String) : String :=
  String.mk ((s.data.dropWhile isSpace).reverse.dropWhile isSpace).reverse

/-- `unicode.ToLower` on one character: up to U+007F the letters `A` to `Z`
are moved to `a` to `z` and every other character is kept; above U+007F the
case table of the library decides, which is the parameter `lower`. -/
def toLowerRune (lower : Char → Char) (c : Char) : Char :=
  if c.toNat < 128 then c.toLower else lower c

/-- `strings.ToLower`: every character mapped through `unicode.ToLower`. -/
def toLower (lower : Char → Char) (s : String) : String :=
  String.mk (s.data.map (toLowerRune lower))

/-- The normal form the specification speaks of, lower-cased and trimmed:
`strings.ToLower(strings.TrimSpace(s))`. -/
def normalizeHost (lower : Char → Char) (s : String) : String :=
  toLower lower (trimSpace s)

/-- A hostname is lower-cased and trimmed. -/
def isNormalized (lower : Char → Char) (s : String) : Prop := normalizeHost lower s = s

instance isNormalized.decidable (lower : Char → Char) : DecidablePred (isNormalized lower) :=
  fun s => inferInstanceAs (Decidable (normalizeHost lower s = s))

namespace runner

/-- The source of the first received outcome that carries no error and lists
`host`, if there is one. -/
def firstReporter (outcomes : List Result) (host : String) : Option String :=
  (outcomes.find? (fun r => r.Error.isNone && r.Subdomains.contains host)).map
    (fun r => r.Source)

/-! ### Settings of the test suite -/

/-- The slow provider of `TestRunnerTimeout` (runner_test.go lines 117-121). -/
def slowSource : MockSource :=
  { name := "slow", subdomains := ["api.example.com"], err := none, delay := 5 * second }

/-- The runner of `TestRunnerTimeout` (lines 123-132): one worker and a
timeout of one second. -/
def timeoutTestRunner : Runner :=
  NewRunner [slowSource.toSource]
    (some { Workers := 1, Timeout := 1 * second, Verbose := false, Silent := true })

/-- The outcome a task reports when `limiter.Wait` fails with `err`
(lines 95-98). -/
def abortOutcome (src : Source) (err : String) : Result :=
  { Source := src.name, Subdomains := [], Error := some ("rate limit wait failed: " ++ err) }

/-- The ten providers of `TestRunnerConcurrency` (runner_test.go lines
144-151): `"mock" + string(rune(i))`, each sleeping 100ms. -/
def concurrencySources : List Source :=
  (List.range 10).map (fun i =>
    MockSource.toSource
      { name := "mock" ++ String.singleton (Char.ofNat i)
        subdomains := ["subdomain" ++ String.singleton (Char.ofNat i) ++ ".example.com"]
        err := none
        delay := 100 * 1000000 })

/-- The runner of `TestRunnerConcurrency` (lines 153-160): five workers for
ten providers. -/
def concurrencyTestRunner : Runner :=
  NewRunner concurrencySources
    (some { Workers := 5, Timeout := 10 * second, Verbose := false, Silent := true })

end runner

namespace resolve

/-- The worker count `ResolveMany` uses (lines 191-193):
`if workers <= 0 { workers = 10 }`. -/
def effectiveWorkers (workers : Int) : Int :=
  if workers ≤ 0 then 10 else workers

/-- A resolver whose cache holds one failed resolution. -/
def cachedFailureResolver : Resolver :=
  { NewResolver none with
    cache := [("dead.example.com", ⟨"dead.example.com", [], false, some "no such host"⟩)] }

/-- A network that answers every lookup with one address and never cancels. -/
def answeringNet : Net :=
  { lookupHost := fun _ _ => LookupReply.ok ["10.0.0.1"]
    ctxDone := fun _ => false
    ctxErr := "context canceled" }

end resolve

namespace runner

/-! ### Delivery of the outcomes -/

/-- Whether a goroutine in this phase has sent its outcome. -/
def Phase.hasSent : Phase → Bool
  | .sent => true
  | .done => true
  | _ => false

/-- What each task sends on `resultsChan`, for the sources `srcs` whose first
element has index `i` in `r.sources`. -/
def sentFrom (r : Runner) (waitErr : Nat → GoError) (ctx : Context) (domain : String) :
    Nat → List Source → List (List Result)
  | _, [] => []
  | i, src :: rest =>
    (sourceTask r (waitErr i) ctx domain src).sent
      :: sentFrom r waitErr ctx domain (i + 1) rest

/-- The outcomes of all provider tasks of a run, in the order of `r.sources`. -/
def taskOutcomes (r : Runner) (waitErr : Nat → GoError) (ctx : Context)
    (domain : String) : List Result :=
  (sentFrom r waitErr ctx domain 0 r.sources).flatten

/-- The outcomes of the tasks that have sent, in the order of the sources. -/
def delivered : List Phase → List (List Result) → List Result
  | p :: ps, o :: os => (if p.hasSent then o else []) ++ delivered ps os
  | _, _ => []

/-- Consistency of a state of `Run`: one phase per source, the values
received or still buffered are those of the tasks that have sent, and the
channel is closed only when every task is done. -/
def RunState.consistent (r : Runner) (waitErr : Nat → GoError) (ctx : Context)
    (domain : String) (s : RunState) : Prop :=
  s.phases.length = r.sources.length
    ∧ (s.received ++ s.resultsChan).Perm
        (delivered s.phases (sentFrom r waitErr ctx domain 0 r.sources))
    ∧ (s.closed = true → ∀ p ∈ s.phases, p = Phase.done)

end runner

namespace resolve

/-! ### The cache-miss path of `Resolve` and the cache invariant -/

/-- Lines 60-115 of `Resolve`: what the call does once the cache check has
failed. -/
def resolveMiss (net : Net) (r : Resolver) (subdomain : String) :
    (Option Result × GoError) × Resolver :=
  match retryLoop net subdomain 3 0 none r with
  | (LoopExit.cancelled, r1) => ((none, some net.ctxErr), r1)
  | (LoopExit.finished ips lastErr, r1) =>
    let result : Result :=
      { Host := subdomain, IPs := ips, Exists := decide (ips.length > 0), Error := lastErr }
    ((some result, none), { r1 with cache := mapStore r1.cache subdomain result })

/-- Every cache entry is stored under its own host, as `Resolve` writes it. -/
def Resolver.cacheSound (r : Resolver) : Prop :=
  ∀ e ∈ r.cache, e.2.Host = e.1

/-- The backoff waits, in seconds, that precede the attempts of a call that
makes `n` attempts: 1s after the first failure, 2s after the second. -/
def backoffWaits (n : Nat) : List Nat :=
  (List.range (n - 1)).map (fun k => k + 1)

/-- A network on which every lookup fails with a temporary error and the
context is done at the first backoff. -/
def cancellingNet : Net :=
  { lookupHost := fun _ _ => LookupReply.fail "i/o timeout" true
    ctxDone := fun _ => true
    ctxErr := "context canceled" }

/-- A network whose first two lookups fail temporarily and whose third one
answers with one address; the context is never done. -/
def flakyNet : Net :=
  { lookupHost := fun n _ =>
      if n < 2 then LookupReply.fail "i/o timeout" true else LookupReply.ok ["10.0.0.1"]
    ctxDone := fun _ => false
    ctxErr := "context canceled" }

/-! ### `ResolveMany`: the goroutines as a transition system -/

/-- Where the goroutine of one hostname of `ResolveMany` stands. -/
inductive TaskPhase where
  /-- Launched, blocked at `sem <- struct{}{}` (line 208). -/
  | waiting
  /-- Slot acquired, before the cache check of `Resolve` (line 56). -/
  | holding
  /-- The cache check failed; the lookups of `Resolve` are under way. -/
  | missed
  /-- `Resolve` returned and its result, unless nil, was sent; the deferred
  calls are pending. -/
  | sent
  /-- Slot given back and `wg.Done()` executed. -/
  | done
deriving DecidableEq, Repr

/-- Whether the `Resolve` call of a goroutine in this phase has returned. -/
def TaskPhase.hasReturned : TaskPhase → Bool
  | .sent => true
  | .done => true
  | _ => false

/-- State of one execution of `ResolveMany`. `dropped` is an observation
field: the hostnames whose `Resolve` returned a nil result, which line 212
does not send. -/
structure ManyState where
  resolver : Resolver
  phases : List TaskPhase
  sem : Nat
  resultsChan : List Result
  closed : Bool
  results : List Result
  dropped : List String
deriving DecidableEq, Repr

/-- Atomic steps of the goroutines of `ResolveMany`. -/
inductive ManyEvent where
  /-- Task `i` completes `sem <- struct{}{}`. -/
  | acquire (i : Nat)
  /-- Task `i` runs the cache check of `Resolve`; on a hit the cached result
  is returned and sent. -/
  | load (i : Nat)
  /-- Task `i` finishes the cache-miss path of `Resolve` and sends the result
  unless it is nil. -/
  | complete (i : Nat)
  /-- Task `i` runs its deferred `<-sem` and `wg.Done()`. -/
  | release (i : Nat)
  /-- The closing goroutine: `wg.Wait()` returned, `close(resultsChan)`. -/
  | close
  /-- The collection loop receives the oldest buffered value (line 225). -/
  | receive
deriving DecidableEq, Repr

/-- State right after the launch loop of `ResolveMany` (lines 191-216). -/
def manyInit (r : Resolver) (subdomains : List String) : ManyState :=
  { resolver := r
    phases := subdomains.map (fun _ => TaskPhase.waiting)
    sem := 0
    resultsChan := []
    closed := false
    results := []
    dropped := [] }

/-- One step of `ResolveMany`; `none` when the event is not enabled. Two tasks
may both miss the cache for the same hostname before either stores. -/
def manyStep (net : Net) (subdomains : List String) (workers : Int) (s : ManyState) :
    ManyEvent → Option ManyState
  | .acquire i =>
    if s.phases[i]? = some TaskPhase.waiting ∧ (s.sem : Int) < effectiveWorkers workers then
      some { s with phases := s.phases.set i TaskPhase.holding, sem := s.sem + 1 }
    else none
  | .load i =>
    match subdomains[i]? with
    | none => none
    | some sub =>
      if s.phases[i]? = some TaskPhase.holding then
        match mapLookup s.resolver.cache sub with
        | some cached =>
          if s.resultsChan.length < subdomains.length then
            some { s with
              phases := s.phases.set i TaskPhase.sent
              resultsChan := s.resultsChan ++ [cached] }
          else none
        | none => some { s with phases := s.phases.set i TaskPhase.missed }
      else none
  | .complete i =>
    match subdomains[i]? with
    | none => none
    | some sub =>
      if s.phases[i]? = some TaskPhase.missed then
        match (resolveMiss net s.resolver sub).1.1 with
        | some result =>
          if s.resultsChan.length < subdomains.length then
            some { s with
              resolver := (resolveMiss net s.resolver sub).2
              phases := s.phases.set i TaskPhase.sent
              resultsChan := s.resultsChan ++ [result] }
          else none
        | none =>
          some { s with
            resolver := (resolveMiss net s.resolver sub).2
            phases := s.phases.set i TaskPhase.sent
            dropped := s.dropped ++ [sub] }
      else none
  | .release i =>
    if s.phases[i]? = some TaskPhase.sent ∧ 0 < s.sem then
      some { s with phases := s.phases.set i TaskPhase.done, sem := s.sem - 1 }
    else none
  | .close =>
    if s.closed = false ∧ s.phases.all (fun p => p == TaskPhase.done) then
      some { s with closed := true }
    else none
  | .receive =>
    match s.resultsChan with
    | [] => none
    | x :: rest => some { s with resultsChan := rest, results := s.results ++ [x] }

/-- The state reached from `s` by a schedule, if every event is enabled. -/
def manyExecFrom (net : Net) (subdomains : List String) (workers : Int) :
    ManyState → List ManyEvent → Option ManyState
  | s, [] => some s
  | s, e :: es =>
    match manyStep net subdomains workers s e with
    | none => none
    | some s2 => manyExecFrom net subdomains workers s2 es

/-- The collection loop of `ResolveMany` has ended. -/
def ManyState.finished (s : ManyState) : Bool :=
  s.closed && s.resultsChan.isEmpty

/-- The hostnames of the tasks whose `Resolve` has returned. -/
def hostsReturned : List TaskPhase → List String → List String
  | p :: ps, h :: hs => (if p.hasReturned then [h] else []) ++ hostsReturned ps hs
  | _, _ => []

/-- Consistency of a state of `ResolveMany`: one phase per hostname, the
cache entries carry their own host, the hosts of the results sent so far
together with the dropped hostnames are those of the returned tasks, and the
channel is closed only when every task is done. -/
def ManyState.consistent (subdomains : List String) (s : ManyState) : Prop :=
  s.phases.length = subdomains.length
    ∧ s.resolver.cacheSound
    ∧ ((s.results ++ s.resultsChan).map (fun res => res.Host) ++ s.dropped).Perm
        (hostsReturned s.phases subdomains)
    ∧ (s.closed = true → ∀ p ∈ s.phases, p = TaskPhase.done)

/-- The events of task `i` when it runs alone on resolver `r`: acquire, cache
check, the miss path if needed, release, and the reception of its result if
it sent one. -/
def taskEvents (net : Net) (r : Resolver) (i : Nat) (sub : String) : List ManyEvent :=
  match mapLookup r.cache sub with
  | some _ =>
    [ManyEvent.acquire i, ManyEvent.load i, ManyEvent.release i, ManyEvent.receive]
  | none =>
    match (resolveMiss net r sub).1.1 with
    | some _ =>
      [ManyEvent.acquire i, ManyEvent.load i, ManyEvent.complete i, ManyEvent.release i,
        ManyEvent.receive]
    | none =>
      [ManyEvent.acquire i, ManyEvent.load i, ManyEvent.complete i, ManyEvent.release i]

/-- A schedule for three hostnames in which tasks 0 and 2 both run their
cache check before either of them stores its result. -/
def overlappingSchedule : List ManyEvent :=
  [ManyEvent.acquire 0, ManyEvent.acquire 2, ManyEvent.load 0, ManyEvent.load 2,
    ManyEvent.complete 2, ManyEvent.complete 0, ManyEvent.acquire 1, ManyEvent.load 1,
    ManyEvent.complete 1, ManyEvent.release 0, ManyEvent.release 1, ManyEvent.release 2,
    ManyEvent.close, ManyEvent.receive, ManyEvent.receive, ManyEvent.receive]

/-! ### Wildcard detection -/

/-- The constant `charset` of `generateRandomString` (line 234). -/
def charset : String := "abcdefghijklmnopqrstuvwxyz0123456789"

/-- `generateRandomString` (lines 233-244). `rnd i` is what `rand.Read` left
in `b[i]`, taken modulo 256 as a byte. -/
def generateRandomString (rnd : Nat → Nat) (length : Nat) : String :=
  String.mk
    ((List.range length).map
      (fun i => charset.data.getD ((rnd i % 256) % charset.length) 'a'))

/-- The three probe hostnames of `DetectWildcard` (lines 129-133); `rnd i` is
the random source of the `i`-th call of `generateRandomString`. -/
def probeNames (rnd : Nat → Nat → Nat) (domain : String) : List String :=
  (List.range 3).map (fun i => generateRandomString (rnd i) 16 ++ "." ++ domain)

/-- Whether a pair returned by `Resolve` passes the test
`err == nil && result.Exists` of line 139. -/
def probeResolved (o : Option Result × GoError) : Bool :=
  match o with
  | (some result, none) => result.Exists
  | _ => false

/-- The loop of lines 137-142: every probe is resolved in turn, and the
addresses of those that resolve are appended to `resolvedIPs`. -/
def resolveProbes (net : Net) :
    List String → Resolver → List (List String) → List (List String) × Resolver
  | [], r, resolvedIPs => (resolvedIPs, r)
  | subdomain :: rest, r, resolvedIPs =>
    match (Resolve net r subdomain).1 with
    | (some result, none) =>
      if result.Exists then
        resolveProbes net rest (Resolve net r subdomain).2 (resolvedIPs ++ [result.IPs])
      else resolveProbes net rest (Resolve net r subdomain).2 resolvedIPs
    | _ => resolveProbes net rest (Resolve net r subdomain).2 resolvedIPs

/-- What the successive `Resolve` calls of the probe loop return. -/
def probeOutcomes (net : Net) : List String → Resolver → List (Option Result × GoError)
  | [], _ => []
  | subdomain :: rest, r =>
    (Resolve net r subdomain).1 :: probeOutcomes net rest (Resolve net r subdomain).2

/-- The statement `ipCount[ip]++` of line 254. -/
def incrCount (ipCount : List (String × Nat)) (ip : String) : List (String × Nat) :=
  mapStore ipCount ip ((mapLookup ipCount ip).getD 0 + 1)

/-- The inner loop of `findCommonIPs` (lines 252-257); `seen` holds the
addresses already counted for the current list. -/
def countList : List String → List String → List (String × Nat) → List (String × Nat)
  | [], _, ipCount => ipCount
  | ip :: rest, seen, ipCount =>
    if seen.contains ip then countList rest seen ipCount
    else countList rest (ip :: seen) (incrCount ipCount ip)

/-- The outer loop of `findCommonIPs` (lines 250-258). -/
def countAll (ipLists : List (List String)) : List (String × Nat) :=
  ipLists.foldl (fun ipCount ips => countList ips [] ipCount) []

/-- `findCommonIPs` (lines 247-269). Go visits `ipCount` in an unspecified
order; here the addresses come in the order of their first occurrence. -/
def findCommonIPs (ipLists : List (List String)) : List String :=
  ((countAll ipLists).filter (fun e => decide (e.2 ≥ 2))).map Prod.fst

/-- `DetectWildcard` (lines 119-159): the returned triple and the resolver
afterwards. -/
def DetectWildcard (net : Net) (rnd : Nat → Nat → Nat) (r : Resolver) (domain : String) :
    (Bool × List String × GoError) × Resolver :=
  match mapLookup r.wildcards domain with
  | some ips => ((true, ips, none), r)
  | none =>
    let probed := resolveProbes net (probeNames rnd domain) r []
    if probed.1.length ≥ 2 then
      let commonIPs := findCommonIPs probed.1
      if commonIPs.length > 0 then
        ((true, commonIPs, none),
          { probed.2 with wildcards := mapStore probed.2.wildcards domain commonIPs })
      else ((false, [], none), probed.2)
    else ((false, [], none), probed.2)

/-- The network as seen under `context.Background()`, which is never done. -/
def Net.background (net : Net) : Net :=
  { net with ctxDone := fun _ => false }

/-- `IsWildcard` (lines 162-187): the answer and the resolver afterwards. -/
def IsWildcard (net : Net) (r : Resolver) (subdomain : String) (domain : String) :
    Bool × Resolver :=
  match mapLookup r.wildcards domain with
  | none => (false, r)
  | some wildcardIPs =>
    match (Resolve net.background r subdomain).1 with
    | (some result, none) =>
      if result.Exists then
        (result.IPs.any (fun ip => wildcardIPs.any (fun wildcardIP => ip == wildcardIP)),
          (Resolve net.background r subdomain).2)
      else (false, (Resolve net.background r subdomain).2)
    | _ => (false, (Resolve net.background r subdomain).2)

/-- The filtering loop of `FilterWildcard` (lines 284-289). -/
def filterLoop (net : Net) (domain : String) :
    List String → Resolver → List String → List String × Resolver
  | [], r, filtered => (filtered, r)
  | subdomain :: rest, r, filtered =>
    if (IsWildcard net r subdomain domain).1 then
      filterLoop net domain rest (IsWildcard net r subdomain domain).2 filtered
    else
      filterLoop net domain rest (IsWildcard net r subdomain domain).2
        (filtered ++ [subdomain])

/-- `FilterWildcard` (lines 272-292). -/
def FilterWildcard (net : Net) (rnd : Nat → Nat → Nat) (r : Resolver)
    (subdomains : List String) (domain : String) : (List String × GoError) × Resolver :=
  match (DetectWildcard net rnd r domain).1 with
  | (_, _, some err) => ((subdomains, some err), (DetectWildcard net rnd r domain).2)
  | (false, _, none) => ((subdomains, none), (DetectWildcard net rnd r domain).2)
  | (true, _, none) =>
    let out := filterLoop net domain subdomains (DetectWildcard net rnd r domain).2 []
    ((out.1, none), out.2)

/-- A network whose first three lookups fail for good and whose later
lookups all answer with the same address, as under a wildcard record. -/
def deadThenWildNet : Net :=
  { lookupHost := fun n _ =>
      if n < 3 then LookupReply.fail "no such host" false else LookupReply.ok ["6.6.6.6"]
    ctxDone := fun _ => false
    ctxErr := "context canceled" }

/-- A network on which every lookup fails for good. -/
def deadNet : Net :=
  { lookupHost := fun _ _ => LookupReply.fail "no such host" false
    ctxDone := fun _ => false
    ctxErr := "context canceled" }

/-- A network under a wildcard record: every lookup but the second answers
with the same address, the second fails for good. -/
def wildNet : Net :=
  { lookupHost := fun n _ =>
      if n = 1 then LookupReply.fail "no such host" false else LookupReply.ok ["6.6.6.6"]
    ctxDone := fun _ => false
    ctxErr := "context canceled" }

/-- Random bytes for a first call of `DetectWildcard`: probe `i` draws the
byte `i` sixteen times. -/
def firstDraw : Nat → Nat → Nat := fun i _ => i

/-- Random bytes for a second call of `DetectWildcard`. -/
def secondDraw : Nat → Nat → Nat := fun i _ => i + 3

/-- A resolver that has recorded a wildcard address set for `example.com`. -/
def wildcardResolver : Resolver :=
  (DetectWildcard wildNet firstDraw (NewResolver none) "example.com").2

/-! ### `FilterWildcard` after the detection -/

/-- Lines 275-291 of `FilterWildcard`: what the function does with the triple
`detected.1` that `DetectWildcard` returned, `detected.2` being the resolver
after the detection. -/
def filterAfterDetect (net : Net) (detected : (Bool × List String × GoError) × Resolver)
    (subdomains : List String) (domain : String) : (List String × GoError) × Resolver :=
  match detected.1 with
  | (_, _, some err) => ((subdomains, some err), detected.2)
  | (false, _, none) => ((subdomains, none), detected.2)
  | (true, _, none) =>
    let out := filterLoop net domain subdomains detected.2 []
    ((out.1, none), out.2)

/-- The addresses of a pair returned by `Resolve`, none for a nil result. -/
def addressesOf (o : Option Result × GoError) : List String :=
  match o.1 with
  | some result => result.IPs
  | none => []

/-- Whether some address of `ips` belongs to `wildcardIPs`. -/
def intersects (ips wildcardIPs : List String) : Bool :=
  ips.any (fun ip => wildcardIPs.contains ip)

/-- The filter in the words of the specification: going through the
hostnames in order, each resolved under the background context through the
resolver left by its predecessors, a hostname is removed exactly when it
resolves and its addresses intersect the wildcard address set. -/
def keepNonWildcard (net : Net) (wildcardIPs : List String) :
    List String → Resolver → List String
  | [], _ => []
  | subdomain :: rest, r =>
    (if probeResolved (Resolve net.background r subdomain).1
          && intersects (addressesOf (Resolve net.background r subdomain).1) wildcardIPs
      then [] else [subdomain])
      ++ keepNonWildcard net wildcardIPs rest (Resolve net.background r subdomain).2

/-- A network under a wildcard record on which `www.example.com` has an
address of its own and `gone.example.com` does not resolve; every other
hostname gets the wildcard address, except that the second lookup issued
fails for good. -/
def mixedNet : Net :=
  { lookupHost := fun n host =>
      if n = 1 then LookupReply.fail "no such host" false
      else if host = "www.example.com" then LookupReply.ok ["93.184.216.34"]
      else if host = "gone.example.com" then LookupReply.fail "no such host" false
      else LookupReply.ok ["6.6.6.6"]
    ctxDone := fun _ => false
    ctxErr := "context canceled" }

/-! ### `ValidateDomain` -/

/-- `strings.Split(s, ".")` on the characters of `s`: the pieces between the
dots, one more than there are dots. -/
def splitOnDot : List Char → List (List Char)
  | [] => [[]]
  | c :: rest =>
    if c = '.' then [] :: splitOnDot rest
    else
      match splitOnDot rest with
      | [] => [[c]]
      | p :: ps => (c :: p) :: ps

/-- `ValidateDomain` (lines 295-319); `lower` is the case table of
`unicode.ToLower` above U+007F. -/
def ValidateDomain (lower : Char → Char) (domain : String) : GoError :=
  let domain := trimSpace domain
  let domain := toLower lower domain
  if domain = "" then some "domain cannot be empty"
  else if domain.data.contains ' ' then some "domain cannot contain spaces"
  else if domain.data.head? = some '.' ∨ domain.data.getLast? = some '.' then
    some "domain cannot start or end with a dot"
  else if (splitOnDot domain.data).length < 2 then
    some "domain must have at least two parts"
  else none

end resolve

/-! ## Pattern filter (`pkg/filter/filter.go`) -/

namespace filter

/-- A compiled `*regexp.Regexp`, kept as its `MatchString`. -/
structure Regexp where
  MatchString : String → Bool

/-- `Filter` of filter.go. -/
structure Filter where
  matchPatterns : List Regexp
  excludePatterns : List Regexp

/-- `NewFilter` (lines 18-23). -/
def NewFilter : Filter := { matchPatterns := [], excludePatterns := [] }

/-- The loops of lines 121-126 and 134-139: whether some pattern matches, the
search stopping at the first match. -/
def anyMatch : List Regexp → String → Bool
  | [], _ => false
  | pattern :: rest, subdomain =>
    if pattern.MatchString subdomain then true else anyMatch rest subdomain

/-- The loop of `Apply` over the hostnames (lines 117-145). -/
def applyLoop (f : Filter) : List String → List String → List String
  | [], filtered => filtered
  | subdomain :: rest, filtered =>
    if f.matchPatterns.length > 0 ∧ anyMatch f.matchPatterns subdomain = false then
      applyLoop f rest filtered
    else if anyMatch f.excludePatterns subdomain then applyLoop f rest filtered
    else applyLoop f rest (filtered ++ [subdomain])

/-- `Filter.Apply` (lines 110-148). -/
def Filter.Apply (f : Filter) (subdomains : List String) : List String :=
  if f.matchPatterns.length = 0 ∧ f.excludePatterns.length = 0 then subdomains
  else applyLoop f subdomains []

/-- The rule in words: a hostname is kept when no match pattern is configured
or one of them matches it, and no exclude pattern matches it. -/
def Filter.keeps (f : Filter) (subdomain : String) : Bool :=
  (f.matchPatterns.isEmpty || f.matchPatterns.any (fun p => p.MatchString subdomain))
    && !f.excludePatterns.any (fun p => p.MatchString subdomain)

/-- A pattern matching the hostnames that start with the given characters. -/
def startsWith (pre : String) : Regexp :=
  { MatchString := fun s => pre.data.isPrefixOf s.data }

end filter

/-! ## Environment keys (`pkg/config/config.go`) -/

namespace config

/-- The loop of `toUpperSnakeCase` (lines 190-195); `first` tells whether the
index `i` of the current rune is 0. -/
def snakeLoop : Bool → List Char → List Char
  | _, [] => []
  | first, r :: rest =>
    (if first = false ∧ 65 ≤ r.toNat ∧ r.toNat ≤ 90 then ['_', r] else [r])
      ++ snakeLoop false rest

/-- `toUpperSnakeCase` (lines 188-197). -/
def toUpperSnakeCase (s : String) : String :=
  String.mk (snakeLoop true s.data)

/-- The list `envVars` of `getEnvAPIKey` (lines 172-175). -/
def envVars (sourceName : String) : List String :=
  [toUpperSnakeCase sourceName ++ "_API_KEY",
    "SUBFINDER_" ++ toUpperSnakeCase sourceName ++ "_API_KEY"]

/-- `getEnvAPIKey` (lines 171-185); `getenv` is `os.Getenv`. -/
def getEnvAPIKey (getenv : String → String) (sourceName : String) : String :=
  match (envVars sourceName).find? (fun envVar => getenv envVar != "") with
  | some envVar => getenv envVar
  | none => ""

end config

namespace runner

/-! ### The invocation log and the sequential schedule -/

/-- Whether a goroutine in this phase is past the point where it calls
`src.Run` (line 108), if it calls it at all. -/
def Phase.pastStart : Phase → Bool
  | .running => true
  | .sent => true
  | .done => true
  | _ => false

/-- Consistency of the invocation log: the index of a source occurs in
`invoked` as often as its task calls `src.Run`, once the task is past that
point, and not before. -/
def RunState.invocationsLogged (r : Runner) (waitErr : Nat → GoError) (ctx : Context)
    (domain : String) (s : RunState) : Prop :=
  ∀ i src p, r.sources[i]? = some src → s.phases[i]? = some p →
    s.invoked.count i
      = if p.pastStart then (sourceTask r (waitErr i) ctx domain src).invocations else 0

/-- The events of task `i` when it runs alone, followed by the reception of
its outcome. -/
def taskEvents (r : Runner) (waitErr : Nat → GoError) (i : Nat) (src : Source) :
    List Event :=
  if (limiterCheck r (waitErr i) src).isSome then
    [Event.acquire i, Event.abort i, Event.release i, Event.receive]
  else
    [Event.acquire i, Event.start i, Event.finish i, Event.release i, Event.receive]

/-- The schedule that runs the tasks one after the other, for the sources
`srcs` whose first element has index `i`, and then closes the channel. -/
def sequentialFrom (r : Runner) (waitErr : Nat → GoError) : Nat → List Source → List Event
  | _, [] => [Event.close]
  | i, src :: rest => taskEvents r waitErr i src ++ sequentialFrom r waitErr (i + 1) rest

end runner

namespace resolve

/-- A network on which the three probes of a detection get two addresses
each: the first and the second share 2.2.2.2, the second and the third share
3.3.3.3. -/
def overlapNet : Net :=
  { lookupHost := fun n _ =>
      if n = 0 then LookupReply.ok ["1.1.1.1", "2.2.2.2"]
      else if n = 1 then LookupReply.ok ["2.2.2.2", "3.3.3.3"]
      else LookupReply.ok ["3.3.3.3", "4.4.4.4"]
    ctxDone := fun _ => false
    ctxErr := "context canceled" }

end resolve

namespace resolve

/-! ### Calls of `DetectWildcard` and `FilterWildcard` made from several goroutines

`DetectWildcard` reads the wildcard table under `RLock` (lines 121-126),
releases the lock, resolves its three probes, and only then takes `Lock` for
the write of lines 150-152. Calls made from several goroutines interleave
between these sections; the system below has one step for each of them. A
`Resolve` is one step: it reads and writes the cache only. -/

/-- A call of `Resolve`, `IsWildcard` or `ResolveMany` with what its
environment supplies: the operations that never write the wildcard table. -/
inductive Op where
  | resolve (net : Net) (subdomain : String)
  | isWildcard (net : Net) (subdomain : String) (domain : String)
  | resolveMany (net : Net) (subdomains : List String) (workers : Int)
      (schedule : List ManyEvent)

/-- The resolver after such a call. For `ResolveMany` it is the resolver in
the state the schedule reaches, the call being finished or not. -/
def Op.apply : Op → Resolver → Resolver
  | .resolve net subdomain, r => (Resolve net r subdomain).2
  | .isWildcard net subdomain domain, r => (IsWildcard net r subdomain domain).2
  | .resolveMany net subdomains workers schedule, r =>
    match manyExecFrom net subdomains workers (manyInit r subdomains) schedule with
    | some s => s.resolver
    | none => r

/-- Where a goroutine that called `DetectWildcard`, directly or through
`FilterWildcard`, stands. -/
inductive Pc where
  /-- Before the read of the wildcard table of lines 121-126. -/
  | check
  /-- In the loop of lines 137-142, with the probes still to resolve and the
  value of `resolvedIPs`; with no probe left, before lines 145-158. -/
  | probing (rest : List String) (resolvedIPs : List (List String))
  /-- `DetectWildcard`, called directly, has returned this triple. -/
  | detected (out : Bool × List String × GoError)
  /-- In the loop of `FilterWildcard` (lines 284-289), with the hostnames
  still to test and the value of `filtered`. -/
  | filtering (rest : List String) (filtered : List String)
  /-- `FilterWildcard` has returned this pair. -/
  | filtered (out : List String × GoError)
deriving DecidableEq, Repr

/-- Whether the goroutine has passed the read of the table and not yet
reached the end of `DetectWildcard`. -/
def Pc.inProbeLoop : Pc → Bool
  | .probing _ _ => true
  | _ => false

/-- A goroutine running `DetectWildcard(ctx, domain)` when `filter` is `none`,
and `FilterWildcard(ctx, subdomains, domain)` when it is `some subdomains`;
`net` is the network and the context it sees, `rnd` its random source. -/
structure Goroutine where
  net : Net
  rnd : Nat → Nat → Nat
  domain : String
  filter : Option (List String)
  pc : Pc

/-- Where the goroutine stands once `DetectWildcard` returns `out`: a direct
call has returned; `FilterWildcard` returns its input on a failure or a
negative verdict (lines 273-280) and enters its loop otherwise. -/
def Goroutine.afterDetect (g : Goroutine) (out : Bool × List String × GoError) : Pc :=
  match g.filter with
  | none => Pc.detected out
  | some subdomains =>
    match out with
    | (_, _, some err) => Pc.filtered (subdomains, some err)
    | (false, _, none) => Pc.filtered (subdomains, none)
    | (true, _, none) => Pc.filtering subdomains []

/-- Lines 139-141: the addresses of a probe that resolved are appended to
`resolvedIPs`. -/
def appendResolved (resolvedIPs : List (List String)) (o : Option Result × GoError) :
    List (List String) :=
  match o with
  | (some result, none) => if result.Exists then resolvedIPs ++ [result.IPs] else resolvedIPs
  | _ => resolvedIPs

/-- The resolver shared by the goroutines, and the goroutines. -/
structure Shared where
  resolver : Resolver
  goroutines : List Goroutine

/-- The steps of the system. -/
inductive SharedEvent where
  /-- A new goroutine calls `DetectWildcard` or `FilterWildcard`. -/
  | go (net : Net) (rnd : Nat → Nat → Nat) (domain : String)
      (filter : Option (List String))
  /-- Goroutine `i` runs its next section. -/
  | advance (i : Nat)
  /-- Some other goroutine calls `Resolve`, `IsWildcard` or `ResolveMany`. -/
  | call (op : Op)

/-- One step; `none` when goroutine `i` does not exist or has returned. -/
def sharedStep (s : Shared) : SharedEvent → Option Shared
  | .go net rnd domain filter =>
    some { s with
      goroutines := s.goroutines ++
        [{ net := net, rnd := rnd, domain := domain, filter := filter, pc := Pc.check }] }
  | .call op => some { s with resolver := op.apply s.resolver }
  | .advance i =>
    match s.goroutines[i]? with
    | none => none
    | some g =>
      match g.pc with
      | .check =>
        match mapLookup s.resolver.wildcards g.domain with
        | some ips =>
          some { s with
            goroutines := s.goroutines.set i { g with pc := g.afterDetect (true, ips, none) } }
        | none =>
          some { s with
            goroutines :=
              s.goroutines.set i { g with pc := Pc.probing (probeNames g.rnd g.domain) [] } }
      | .probing (subdomain :: rest) resolvedIPs =>
        some
          { resolver := (Resolve g.net s.resolver subdomain).2
            goroutines :=
              s.goroutines.set i
                { g with
                  pc := Pc.probing rest
                    (appendResolved resolvedIPs (Resolve g.net s.resolver subdomain).1) } }
      | .probing [] resolvedIPs =>
        if resolvedIPs.length ≥ 2 then
          if (findCommonIPs resolvedIPs).length > 0 then
            some
              { resolver :=
                  { s.resolver with
                    wildcards :=
                      mapStore s.resolver.wildcards g.domain (findCommonIPs resolvedIPs) }
                goroutines :=
                  s.goroutines.set i
                    { g with pc := g.afterDetect (true, findCommonIPs resolvedIPs, none) } }
          else
            some { s with
              goroutines := s.goroutines.set i { g with pc := g.afterDetect (false, [], none) } }
        else
          some { s with
            goroutines := s.goroutines.set i { g with pc := g.afterDetect (false, [], none) } }
      | .filtering (subdomain :: rest) filtered =>
        some
          { resolver := (IsWildcard g.net s.resolver subdomain g.domain).2
            goroutines :=
              s.goroutines.set i
                { g with
                  pc := Pc.filtering rest
                    (if (IsWildcard g.net s.resolver subdomain g.domain).1 then filtered
                      else filtered ++ [subdomain]) } }
      | .filtering [] filtered =>
        some { s with goroutines := s.goroutines.set i { g with pc := Pc.filtered (filtered, none) } }
      | .detected _ => none
      | .filtered _ => none

/-- The state reached by a sequence of steps, if every step is enabled. -/
def sharedExec : Shared → List SharedEvent → Option Shared
  | s, [] => some s
  | s, e :: es =>
    match sharedStep s e with
    | some s1 => sharedExec s1 es
    | none => none

/-- A wildcard network that answers the first three lookups with one
address and every later lookup with another. -/
def rotatingNet : Net :=
  { lookupHost := fun n _ =>
      if n < 3 then LookupReply.ok ["1.1.1.1"] else LookupReply.ok ["2.2.2.2"]
    ctxDone := fun _ => false
    ctxErr := "context canceled" }

/-- Two goroutines call `DetectWildcard` for the same domain; both read the
table before either writes; the first then resolves its probes and writes. -/
def overlappingDetects : List SharedEvent :=
  [SharedEvent.go rotatingNet firstDraw "example.com" none,
    SharedEvent.go rotatingNet secondDraw "example.com" none,
    SharedEvent.advance 0, SharedEvent.advance 1,
    SharedEvent.advance 0, SharedEvent.advance 0, SharedEvent.advance 0,
    SharedEvent.advance 0]

/-- The second goroutine resolves its probes and writes; then a third
goroutine calls `DetectWildcard` for the domain. -/
def overlappingDetectsEnd : List SharedEvent :=
  [SharedEvent.advance 1, SharedEvent.advance 1, SharedEvent.advance 1,
    SharedEvent.advance 1,
    SharedEvent.go rotatingNet firstDraw "example.com" none, SharedEvent.advance 2]

/-- What is observed of a state: the wildcard table and where the goroutines
stand. -/
def Shared.view (s : Shared) : List (String × List String) × List Pc :=
  (s.resolver.wildcards, s.goroutines.map (fun g => g.pc))

/-- Steps taken after the record for `example.com` was made: calls of the
three other operations, a detection for another domain, a `FilterWildcard`
and a detection for the same domain. -/
def laterEvents : List SharedEvent :=
  [SharedEvent.call (Op.resolve deadNet "www.example.com"),
    SharedEvent.go wildNet secondDraw "example.org" none,
    SharedEvent.advance 0,
    SharedEvent.call (Op.isWildcard wildNet "api.example.com" "example.com"),
    SharedEvent.go deadNet secondDraw "example.com" (some ["www.example.com", "x.example.com"]),
    SharedEvent.advance 0, SharedEvent.advance 1,
    SharedEvent.call (Op.resolveMany flakyNet ["a", "b", "a"] 0 overlappingSchedule),
    SharedEvent.advance 0, SharedEvent.advance 1, SharedEvent.advance 0,
    SharedEvent.go deadNet secondDraw "example.com" none,
    SharedEvent.advance 0, SharedEvent.advance 2, SharedEvent.advance 1,
    SharedEvent.advance 1]

end resolve

namespace resolve

/-- The record of `domain` is `ips` and no goroutine is between the read and
the end of a `DetectWildcard` for `domain`. -/
def Shared.settled (domain : String) (ips : List String) (s : Shared) : Prop :=
  mapLookup s.resolver.wildcards domain = some ips
    ∧ ∀ g ∈ s.goroutines, g.domain = domain → g.pc.inProbeLoop = false

end resolve

end Subrecon

/-! # Theorems -/

namespace Subrecon

/-! ## Facts about the map model -/

theorem mapContains_iff {β : Type} (m : List (String × β)) (k : String) :
    mapContains m k = true ↔ k ∈ mapKeys m := by
  unfold mapContains mapKeys
  simp only [List.any_eq_true, List.mem_map, beq_iff_eq]

theorem mapKeys_insertIfAbsent {β : Type} (m : List (String × β)) (k : String) (v : β) :
    mapKeys (insertIfAbsent m k v) = if k ∈ mapKeys m then mapKeys m else mapKeys m ++ [k] := by
  unfold insertIfAbsent
  by_cases h : k ∈ mapKeys m
  · have hc : mapContains m k = true := (mapContains_iff m k).2 h
    simp [hc, h]
  · have hc : ¬ mapContains m k = true := fun hc => h ((mapContains_iff m k).1 hc)
    rw [if_neg hc, if_neg h]
    simp [mapKeys]

theorem mem_mapKeys_insertIfAbsent {β : Type} (m : List (String × β)) (k : String) (v : β)
    (x : String) :
    x ∈ mapKeys (insertIfAbsent m k v) ↔ x ∈ mapKeys m ∨ x = k := by
  rw [mapKeys_insertIfAbsent]
  by_cases h : k ∈ mapKeys m
  · simp only [h, if_true]
    constructor
    · exact Or.inl
    · rintro (hx | rfl)
      · exact hx
      · exact h
  · simp [h]

theorem nodup_mapKeys_insertIfAbsent {β : Type} (m : List (String × β)) (k : String) (v : β)
    (hm : (mapKeys m).Nodup) : (mapKeys (insertIfAbsent m k v)).Nodup := by
  rw [mapKeys_insertIfAbsent]
  by_cases h : k ∈ mapKeys m
  · simpa [h] using hm
  · simp only [h, if_false]
    rw [List.nodup_append]
    refine ⟨hm, List.nodup_singleton k, ?_⟩
    intro a ha hb
    rw [List.mem_singleton] at hb
    exact h (hb ▸ ha)

theorem mem_mapKeys_foldl_insert {β : Type} (f : List (String × β) → String → β)
    (subs : List String) (m : List (String × β)) (x : String) :
    x ∈ mapKeys (subs.foldl (fun acc s => insertIfAbsent acc s (f acc s)) m) ↔
      x ∈ mapKeys m ∨ x ∈ subs := by
  induction subs generalizing m with
  | nil => simp
  | cons s rest ih =>
    rw [List.foldl_cons, ih, mem_mapKeys_insertIfAbsent, List.mem_cons]
    tauto

theorem nodup_mapKeys_foldl_insert {β : Type} (f : List (String × β) → String → β)
    (subs : List String) (m : List (String × β)) (hm : (mapKeys m).Nodup) :
    (mapKeys (subs.foldl (fun acc s => insertIfAbsent acc s (f acc s)) m)).Nodup := by
  induction subs generalizing m with
  | nil => simpa using hm
  | cons s rest ih =>
    rw [List.foldl_cons]
    exact ih _ (nodup_mapKeys_insertIfAbsent m s _ hm)

/-! ## Facts about the order of strings -/

theorem strLE_iff (a b : String) : strLE a b ↔ a ≤ b :=
  String.le_iff_toList_le.symm

theorem strLT_iff (a b : String) : strLT a b ↔ a < b :=
  String.lt_iff_toList_lt.symm

instance strLE.isTotal : IsTotal String strLE :=
  ⟨fun a b => by rw [strLE_iff, strLE_iff]; exact le_total a b⟩

instance strLE.isTrans : IsTrans String strLE :=
  ⟨fun a b c => by rw [strLE_iff, strLE_iff, strLE_iff]; exact le_trans⟩

theorem sortStrings_perm (l : List String) : (sortStrings l).Perm l :=
  List.perm_insertionSort strLE l

theorem sortStrings_sorted (l : List String) : (sortStrings l).Sorted strLE :=
  List.sorted_insertionSort strLE l


theorem strLT_of_strLE_of_ne {a b : String} (h : strLE a b) (hne : a ≠ b) : strLT a b := by
  rw [strLE_iff] at h
  rw [strLT_iff]
  exact lt_of_le_of_ne h hne

theorem sortStrings_strict (l : List String) (hl : l.Nodup) :
    (sortStrings l).Sorted strLT := by
  have hs : (sortStrings l).Pairwise strLE := sortStrings_sorted l
  have hn : (sortStrings l).Pairwise (fun a b => a ≠ b) :=
    (sortStrings_perm l).nodup_iff.2 hl
  exact (hs.and hn).imp (fun h => strLT_of_strLE_of_ne h.1 h.2)

namespace runner

/-! ## Facts about the collection loops -/

theorem recordSubdomains_eq (source : String) (subs : List String)
    (m : List (String × String)) :
    recordSubdomains source subs m
      = subs.foldl (fun acc s => insertIfAbsent acc s ((fun _ _ => source) acc s)) m := rfl

theorem recordSubdomainsMeta_eq (source : String) (subs : List String)
    (m : List (String × SubdomainResult)) :
    recordSubdomainsMeta source subs m
      = subs.foldl
          (fun acc s => insertIfAbsent acc s
            ((fun (a : List (String × SubdomainResult)) (h : String) =>
              ({ Host := h, Source := source, Timestamp := a.length, IPs := [] } :
                SubdomainResult)) acc s)) m := rfl

theorem collectStep_keys (st : Collected) (r : Result) (x : String) :
    x ∈ mapKeys (collectStep st r).subdomainMap ↔
      x ∈ mapKeys st.subdomainMap ∨ Reports r x := by
  unfold collectStep Reports
  cases hE : r.Error with
  | some e => simp
  | none =>
    simp only [true_and]
    rw [recordSubdomains_eq, mem_mapKeys_foldl_insert]

theorem collectStep_nodup (st : Collected) (r : Result)
    (h : (mapKeys st.subdomainMap).Nodup) :
    (mapKeys (collectStep st r).subdomainMap).Nodup := by
  unfold collectStep
  cases hE : r.Error with
  | some e => simpa using h
  | none =>
    simp only
    rw [recordSubdomains_eq]
    exact nodup_mapKeys_foldl_insert _ _ _ h

theorem collectStep_errors (st : Collected) (r : Result) :
    (collectStep st r).errors.length
      = st.errors.length + (if r.Error = none then 0 else 1) := by
  unfold collectStep
  cases hE : r.Error with
  | some e => simp
  | none => simp

theorem foldl_collectStep_keys (outs : List Result) (st : Collected) (x : String) :
    x ∈ mapKeys (outs.foldl collectStep st).subdomainMap ↔
      x ∈ mapKeys st.subdomainMap ∨ ∃ r ∈ outs, Reports r x := by
  induction outs generalizing st with
  | nil => simp
  | cons r rest ih =>
    rw [List.foldl_cons, ih, collectStep_keys]
    simp only [List.mem_cons, exists_eq_or_imp]
    tauto

theorem foldl_collectStep_nodup (outs : List Result) (st : Collected)
    (h : (mapKeys st.subdomainMap).Nodup) :
    (mapKeys (outs.foldl collectStep st).subdomainMap).Nodup := by
  induction outs generalizing st with
  | nil => simpa using h
  | cons r rest ih =>
    rw [List.foldl_cons]
    exact ih _ (collectStep_nodup st r h)

theorem foldl_collectStep_errors (outs : List Result) (st : Collected) :
    (outs.foldl collectStep st).errors.length
      = st.errors.length + outs.countP (fun r => decide (r.Error ≠ none)) := by
  induction outs generalizing st with
  | nil => simp
  | cons r rest ih =>
    rw [List.foldl_cons, ih, collectStep_errors, List.countP_cons]
    by_cases h : r.Error = none
    · simp [h]
    · simp [h]; omega

theorem collect_keys (outs : List Result) (x : String) :
    x ∈ mapKeys (collect outs).subdomainMap ↔ ∃ r ∈ outs, Reports r x := by
  unfold collect
  rw [foldl_collectStep_keys]
  simp [mapKeys]

theorem collect_nodup (outs : List Result) :
    (mapKeys (collect outs).subdomainMap).Nodup := by
  unfold collect
  exact foldl_collectStep_nodup _ _ (by simp [mapKeys])

theorem collect_errors_pos (outs : List Result) :
    0 < (collect outs).errors.length ↔ ∃ r ∈ outs, r.Error ≠ none := by
  unfold collect
  rw [foldl_collectStep_errors]
  simp [List.countP_pos_iff]

/-- The hostnames `Run` returns are the sorted keys of the map, also when it
returns an error (the map is empty then). -/
theorem Run_fst (domain : String) (outs : List Result) (hd : domain ≠ "") :
    (Run domain outs).1 = sortStrings (mapKeys (collect outs).subdomainMap) := by
  unfold Run
  rw [if_neg hd]
  simp only
  split
  · next h => exact (List.length_eq_zero.1 h.1).symm
  · rfl

theorem sortStrings_eq_nil (l : List String) : sortStrings l = [] ↔ l = [] := by
  constructor
  · intro h
    have := (sortStrings_perm l).length_eq
    rw [h] at this
    exact List.length_eq_zero.1 this.symm
  · rintro rfl; rfl

theorem keys_eq_nil_iff (outs : List Result) :
    mapKeys (collect outs).subdomainMap = [] ↔
      ∀ r ∈ outs, r.Error = none → r.Subdomains = [] := by
  rw [List.eq_nil_iff_forall_not_mem]
  constructor
  · intro h r hr hE
    rw [List.eq_nil_iff_forall_not_mem]
    intro x hx
    exact h x ((collect_keys outs x).2 ⟨r, hr, hE, hx⟩)
  · intro h x hx
    obtain ⟨r, hr, hE, hxr⟩ := (collect_keys outs x).1 hx
    rw [h r hr hE] at hxr
    exact List.not_mem_nil _ hxr

/-- C1. For every non-empty domain and every sequence of received outcomes,
the list returned by `Run` holds exactly the hostnames reported by the
outcomes without error, and holds no hostname twice. -/
theorem run_returns_exactly_successful_hostnames (domain : String) (outcomes : List Result)
    (hd : domain ≠ "") :
    (∀ x, x ∈ (Run domain outcomes).1 ↔
        ∃ r ∈ outcomes, r.Error = none ∧ x ∈ r.Subdomains)
      ∧ (Run domain outcomes).1.Nodup := by
  rw [Run_fst domain outcomes hd]
  constructor
  · intro x
    rw [(sortStrings_perm _).mem_iff]
    exact collect_keys outcomes x
  · exact (sortStrings_perm _).nodup_iff.2 (collect_nodup outcomes)

/-- Witness of C1 on the scenario of the specification: providers A and B
overlapping in one hostname, consumed in either order. -/
theorem run_returns_exactly_successful_hostnames_witness :
    ((∀ x, x ∈ (Run "example.com"
          [⟨"A", ["x.example.com", "y.example.com"], none⟩,
           ⟨"B", ["y.example.com", "z.example.com"], none⟩]).1 ↔
        ∃ r ∈ [(⟨"A", ["x.example.com", "y.example.com"], none⟩ : Result),
               ⟨"B", ["y.example.com", "z.example.com"], none⟩],
          r.Error = none ∧ x ∈ r.Subdomains)
      ∧ (Run "example.com"
          [⟨"A", ["x.example.com", "y.example.com"], none⟩,
           ⟨"B", ["y.example.com", "z.example.com"], none⟩]).1.Nodup)
    ∧ Run "example.com"
          [⟨"A", ["x.example.com", "y.example.com"], none⟩,
           ⟨"B", ["y.example.com", "z.example.com"], none⟩]
        = (["x.example.com", "y.example.com", "z.example.com"], none)
    ∧ Run "example.com"
          [⟨"B", ["y.example.com", "z.example.com"], none⟩,
           ⟨"A", ["x.example.com", "y.example.com"], none⟩]
        = (["x.example.com", "y.example.com", "z.example.com"], none) :=
  ⟨run_returns_exactly_successful_hostnames "example.com" _ (by decide),
    by decide, by decide⟩

/-! ## Facts about the collection loop of `RunWithMetadata` -/

theorem collectStepMeta_keys (st : CollectedMeta) (r : Result) (x : String) :
    x ∈ mapKeys (collectStepMeta st r).subdomainMap ↔
      x ∈ mapKeys st.subdomainMap ∨ Reports r x := by
  unfold collectStepMeta Reports
  cases hE : r.Error with
  | some e => simp
  | none =>
    simp only [true_and]
    rw [recordSubdomainsMeta_eq, mem_mapKeys_foldl_insert]

theorem collectStepMeta_nodup (st : CollectedMeta) (r : Result)
    (h : (mapKeys st.subdomainMap).Nodup) :
    (mapKeys (collectStepMeta st r).subdomainMap).Nodup := by
  unfold collectStepMeta
  cases hE : r.Error with
  | some e => simpa using h
  | none =>
    simp only
    rw [recordSubdomainsMeta_eq]
    exact nodup_mapKeys_foldl_insert _ _ _ h

theorem collectStepMeta_errors (st : CollectedMeta) (r : Result) :
    (collectStepMeta st r).errors.length
      = st.errors.length + (if r.Error = none then 0 else 1) := by
  unfold collectStepMeta
  cases hE : r.Error with
  | some e => simp
  | none => simp

theorem foldl_collectStepMeta_keys (outs : List Result) (st : CollectedMeta) (x : String) :
    x ∈ mapKeys (outs.foldl collectStepMeta st).subdomainMap ↔
      x ∈ mapKeys st.subdomainMap ∨ ∃ r ∈ outs, Reports r x := by
  induction outs generalizing st with
  | nil => simp
  | cons r rest ih =>
    rw [List.foldl_cons, ih, collectStepMeta_keys]
    simp only [List.mem_cons, exists_eq_or_imp]
    tauto

theorem foldl_collectStepMeta_nodup (outs : List Result) (st : CollectedMeta)
    (h : (mapKeys st.subdomainMap).Nodup) :
    (mapKeys (outs.foldl collectStepMeta st).subdomainMap).Nodup := by
  induction outs generalizing st with
  | nil => simpa using h
  | cons r rest ih =>
    rw [List.foldl_cons]
    exact ih _ (collectStepMeta_nodup st r h)

theorem foldl_collectStepMeta_errors (outs : List Result) (st : CollectedMeta) :
    (outs.foldl collectStepMeta st).errors.length
      = st.errors.length + outs.countP (fun r => decide (r.Error ≠ none)) := by
  induction outs generalizing st with
  | nil => simp
  | cons r rest ih =>
    rw [List.foldl_cons, ih, collectStepMeta_errors, List.countP_cons]
    by_cases h : r.Error = none
    · simp [h]
    · simp [h]; omega

theorem collectMeta_keys (outs : List Result) (x : String) :
    x ∈ mapKeys (collectMeta outs).subdomainMap ↔ ∃ r ∈ outs, Reports r x := by
  unfold collectMeta
  rw [foldl_collectStepMeta_keys]
  simp [mapKeys]

theorem collectMeta_nodup (outs : List Result) :
    (mapKeys (collectMeta outs).subdomainMap).Nodup := by
  unfold collectMeta
  exact foldl_collectStepMeta_nodup _ _ (by simp [mapKeys])

theorem collectMeta_errors_pos (outs : List Result) :
    0 < (collectMeta outs).errors.length ↔ ∃ r ∈ outs, r.Error ≠ none := by
  unfold collectMeta
  rw [foldl_collectStepMeta_errors]
  simp [List.countP_pos_iff]

theorem metaKeys_eq_nil_iff (outs : List Result) :
    mapKeys (collectMeta outs).subdomainMap = [] ↔
      ∀ r ∈ outs, r.Error = none → r.Subdomains = [] := by
  rw [List.eq_nil_iff_forall_not_mem]
  constructor
  · intro h r hr hE
    rw [List.eq_nil_iff_forall_not_mem]
    intro x hx
    exact h x ((collectMeta_keys outs x).2 ⟨r, hr, hE, hx⟩)
  · intro h x hx
    obtain ⟨r, hr, hE, hxr⟩ := (collectMeta_keys outs x).1 hx
    rw [h r hr hE] at hxr
    exact List.not_mem_nil _ hxr

/-- The sorted slice of `RunWithMetadata` before the return policy. -/
theorem RunWithMetadata_fst (domain : String) (outs : List Result) (hd : domain ≠ "") :
    (RunWithMetadata domain outs).1
      = ((collectMeta outs).subdomainMap.map Prod.snd).insertionSort hostLE := by
  unfold RunWithMetadata
  rw [if_neg hd]
  simp only
  split
  · next h => exact (List.length_eq_zero.1 h.1).symm
  · rfl

theorem sorted_values_length (outs : List Result) :
    (((collectMeta outs).subdomainMap.map Prod.snd).insertionSort hostLE).length
      = (mapKeys (collectMeta outs).subdomainMap).length := by
  rw [(List.perm_insertionSort hostLE _).length_eq]
  simp [mapKeys]

/-- For a non-empty domain `Run` fails exactly when the map is empty and an
outcome failed. -/
theorem Run_error_iff_of_domain (domain : String) (outcomes : List Result)
    (hd : domain ≠ "") :
    (Run domain outcomes).2 ≠ none ↔
      ((∀ r ∈ outcomes, r.Error = none → r.Subdomains = [])
        ∧ ∃ r ∈ outcomes, r.Error ≠ none) := by
  rw [← keys_eq_nil_iff, ← collect_errors_pos, ← sortStrings_eq_nil,
    ← List.length_eq_zero]
  unfold Run
  rw [if_neg hd]
  simp only
  split
  · next h => simpa using h
  · next h => simpa using h

/-- For a non-empty domain `RunWithMetadata` fails exactly when the map is
empty and an outcome failed. -/
theorem RunWithMetadata_error_iff_of_domain (domain : String) (outcomes : List Result)
    (hd : domain ≠ "") :
    (RunWithMetadata domain outcomes).2 ≠ none ↔
      ((∀ r ∈ outcomes, r.Error = none → r.Subdomains = [])
        ∧ ∃ r ∈ outcomes, r.Error ≠ none) := by
  rw [← metaKeys_eq_nil_iff, ← collectMeta_errors_pos, ← List.length_eq_zero,
    ← sorted_values_length]
  unfold RunWithMetadata
  rw [if_neg hd]
  simp only
  split
  · next h => simpa using h
  · next h => simpa using h

/-- C2. `Run` and `RunWithMetadata` return an error exactly when the domain
is empty, or no successful outcome reported a hostname while some outcome
carried a failure; in every other case they return the sorted aggregate with
a nil error. -/
theorem run_error_iff (domain : String) (outcomes : List Result) :
    ((Run domain outcomes).2 ≠ none ↔
        domain = "" ∨ ((∀ r ∈ outcomes, r.Error = none → r.Subdomains = [])
          ∧ ∃ r ∈ outcomes, r.Error ≠ none))
      ∧ ((RunWithMetadata domain outcomes).2 ≠ none ↔
        domain = "" ∨ ((∀ r ∈ outcomes, r.Error = none → r.Subdomains = [])
          ∧ ∃ r ∈ outcomes, r.Error ≠ none))
      ∧ ((Run domain outcomes).2 = none →
          Run domain outcomes
            = (sortStrings (mapKeys (collect outcomes).subdomainMap), none))
      ∧ ((RunWithMetadata domain outcomes).2 = none →
          RunWithMetadata domain outcomes
            = (((collectMeta outcomes).subdomainMap.map Prod.snd).insertionSort hostLE,
                none)) := by
  by_cases hd : domain = ""
  · subst hd
    simp [Run, RunWithMetadata]
  · have hrun := Run_error_iff_of_domain domain outcomes hd
    have hmeta := RunWithMetadata_error_iff_of_domain domain outcomes hd
    refine ⟨?_, ?_, ?_, ?_⟩
    · rw [hrun]; simp [hd]
    · rw [hmeta]; simp [hd]
    · intro h
      unfold Run at h ⊢
      rw [if_neg hd] at h ⊢
      simp only at h ⊢
      split
      · next hc => rw [if_pos hc] at h; simp at h
      · rfl
    · intro h
      unfold RunWithMetadata at h ⊢
      rw [if_neg hd] at h ⊢
      simp only at h ⊢
      split
      · next hc => rw [if_pos hc] at h; simp at h
      · rfl

end runner

theorem mem_insertIfAbsent {β : Type} (m : List (String × β)) (k : String) (v : β)
    (e : String × β) (he : e ∈ insertIfAbsent m k v) :
    e ∈ m ∨ (e = (k, v) ∧ k ∉ mapKeys m) := by
  unfold insertIfAbsent at he
  by_cases hc : mapContains m k = true
  · rw [if_pos hc] at he
    exact Or.inl he
  · rw [if_neg hc] at he
    rw [List.mem_append, List.mem_singleton] at he
    rcases he with he | he
    · exact Or.inl he
    · exact Or.inr ⟨he, fun hk => hc ((mapContains_iff m k).2 hk)⟩

theorem subset_insertIfAbsent {β : Type} (m : List (String × β)) (k : String) (v : β)
    (e : String × β) (he : e ∈ m) : e ∈ insertIfAbsent m k v := by
  unfold insertIfAbsent
  split
  · exact he
  · exact List.mem_append_left _ he

theorem mem_foldl_insert {β : Type} (f : List (String × β) → String → β)
    (subs : List String) (m : List (String × β)) (e : String × β)
    (he : e ∈ subs.foldl (fun acc s => insertIfAbsent acc s (f acc s)) m) :
    e ∈ m ∨ (e.1 ∈ subs ∧ e.1 ∉ mapKeys m ∧ ∃ acc, e.2 = f acc e.1) := by
  induction subs generalizing m with
  | nil => exact Or.inl he
  | cons s rest ih =>
    rw [List.foldl_cons] at he
    rcases ih _ he with h | ⟨h1, h2, h3⟩
    · rcases mem_insertIfAbsent m s _ e h with h | ⟨rfl, hk⟩
      · exact Or.inl h
      · exact Or.inr ⟨List.mem_cons_self _ _, hk, m, rfl⟩
    · refine Or.inr ⟨List.mem_cons_of_mem _ h1, ?_, h3⟩
      intro hk
      exact h2 ((mem_mapKeys_insertIfAbsent m s _ e.1).2 (Or.inl hk))

theorem subset_foldl_insert {β : Type} (f : List (String × β) → String → β)
    (subs : List String) (m : List (String × β)) (e : String × β) (he : e ∈ m) :
    e ∈ subs.foldl (fun acc s => insertIfAbsent acc s (f acc s)) m := by
  induction subs generalizing m with
  | nil => exact he
  | cons s rest ih =>
    rw [List.foldl_cons]
    exact ih _ (subset_insertIfAbsent m s _ e he)

namespace runner

theorem collectStepMeta_subset (st : CollectedMeta) (r : Result)
    (e : String × SubdomainResult) (he : e ∈ st.subdomainMap) :
    e ∈ (collectStepMeta st r).subdomainMap := by
  unfold collectStepMeta
  cases hE : r.Error with
  | some msg => exact he
  | none =>
    simp only
    rw [recordSubdomainsMeta_eq]
    exact subset_foldl_insert _ _ _ e he

theorem foldl_collectStepMeta_subset (outs : List Result) (st : CollectedMeta)
    (e : String × SubdomainResult) (he : e ∈ st.subdomainMap) :
    e ∈ (outs.foldl collectStepMeta st).subdomainMap := by
  induction outs generalizing st with
  | nil => exact he
  | cons r rest ih =>
    rw [List.foldl_cons]
    exact ih _ (collectStepMeta_subset st r e he)

theorem collectMeta_append (outs later : List Result) :
    collectMeta (outs ++ later) = later.foldl collectStepMeta (collectMeta outs) := by
  unfold collectMeta
  rw [List.foldl_append]

theorem firstReporter_append_of_some (outs later : List Result) (h src : String)
    (hf : firstReporter outs h = some src) :
    firstReporter (outs ++ later) h = some src := by
  unfold firstReporter at hf ⊢
  rw [List.find?_append]
  cases hfind : List.find? (fun r => r.Error.isNone && r.Subdomains.contains h) outs with
  | none => rw [hfind] at hf; simp at hf
  | some r => rw [hfind] at hf; simpa using hf

theorem firstReporter_none_of_unreported (outs : List Result) (h : String)
    (hn : ¬ ∃ r ∈ outs, Reports r h) :
    List.find? (fun r => r.Error.isNone && r.Subdomains.contains h) outs = none := by
  rw [List.find?_eq_none]
  intro r hr hp
  apply hn
  refine ⟨r, hr, ?_, ?_⟩
  · simp only [Bool.and_eq_true, Option.isNone_iff_eq_none] at hp
    exact hp.1
  · simp only [Bool.and_eq_true] at hp
    simpa using hp.2

/-- Every entry of the metadata map is stored under its own host and names the
first successful outcome that reported this host. -/
theorem collectMeta_entries (outs : List Result) :
    ∀ e ∈ (collectMeta outs).subdomainMap,
      e.2.Host = e.1 ∧ firstReporter outs e.1 = some e.2.Source := by
  induction outs using List.reverseRecOn with
  | nil => intro e he; simp [collectMeta] at he
  | append_singleton outs r ih =>
    intro e he
    rw [collectMeta_append] at he
    simp only [List.foldl_cons, List.foldl_nil] at he
    unfold collectStepMeta at he
    cases hE : r.Error with
    | some msg =>
      rw [hE] at he
      obtain ⟨h1, h2⟩ := ih e he
      exact ⟨h1, firstReporter_append_of_some _ _ _ _ h2⟩
    | none =>
      rw [hE] at he
      simp only at he
      rw [recordSubdomainsMeta_eq] at he
      rcases mem_foldl_insert _ _ _ e he with h | ⟨h1, h2, acc, h3⟩
      · obtain ⟨h1, h2⟩ := ih e h
        exact ⟨h1, firstReporter_append_of_some _ _ _ _ h2⟩
      · rw [h3]
        refine ⟨rfl, ?_⟩
        have hn : ¬ ∃ q ∈ outs, Reports q e.1 := fun hq => h2 ((collectMeta_keys outs e.1).2 hq)
        unfold firstReporter
        rw [List.find?_append, firstReporter_none_of_unreported outs e.1 hn]
        simp [hE, h1]

instance hostLE.isTotal : IsTotal SubdomainResult hostLE :=
  ⟨fun a b => strLE.isTotal.total a.Host b.Host⟩

instance hostLE.isTrans : IsTrans SubdomainResult hostLE :=
  ⟨fun a b c => strLE.isTrans.trans a.Host b.Host c.Host⟩

theorem Run_nil_of_empty_domain (outs : List Result) : (Run "" outs).1 = [] := by
  simp [Run]

theorem RunWithMetadata_nil_of_empty_domain (outs : List Result) :
    (RunWithMetadata "" outs).1 = [] := by
  simp [RunWithMetadata]

/-- A returned record is the value of an entry of the metadata map. -/
theorem mem_RunWithMetadata (domain : String) (outs : List Result) (res : SubdomainResult)
    (h : res ∈ (RunWithMetadata domain outs).1) :
    domain ≠ "" ∧ ∃ e ∈ (collectMeta outs).subdomainMap, e.2 = res := by
  by_cases hd : domain = ""
  · subst hd
    rw [RunWithMetadata_nil_of_empty_domain] at h
    exact absurd h (List.not_mem_nil _)
  · refine ⟨hd, ?_⟩
    rw [RunWithMetadata_fst domain outs hd, (List.perm_insertionSort hostLE _).mem_iff,
      List.mem_map] at h
    exact h

theorem mem_RunWithMetadata_of_entry (domain : String) (outs : List Result)
    (hd : domain ≠ "") (e : String × SubdomainResult)
    (he : e ∈ (collectMeta outs).subdomainMap) :
    e.2 ∈ (RunWithMetadata domain outs).1 := by
  rw [RunWithMetadata_fst domain outs hd, (List.perm_insertionSort hostLE _).mem_iff]
  exact List.mem_map_of_mem _ he

theorem collectMeta_hosts (outs : List Result) :
    ((collectMeta outs).subdomainMap.map Prod.snd).map (fun v => v.Host)
      = mapKeys (collectMeta outs).subdomainMap := by
  unfold mapKeys
  rw [List.map_map]
  apply List.map_congr_left
  intro e he
  exact (collectMeta_entries outs e he).1

/-- The sorted values of the metadata map are strictly ascending by host. -/
theorem sorted_values_strict (outcomes : List Result) :
    (((collectMeta outcomes).subdomainMap.map Prod.snd).insertionSort hostLE).Sorted
      (fun a b => strLT a.Host b.Host) := by
  have hs : (((collectMeta outcomes).subdomainMap.map Prod.snd).insertionSort
      hostLE).Pairwise hostLE := List.sorted_insertionSort hostLE _
  have hn0 : ((collectMeta outcomes).subdomainMap.map Prod.snd).Pairwise
      (fun a b => a.Host ≠ b.Host) := by
    have := collectMeta_nodup outcomes
    rw [← collectMeta_hosts, List.Nodup, List.pairwise_map] at this
    exact this
  have hn : (((collectMeta outcomes).subdomainMap.map Prod.snd).insertionSort
      hostLE).Pairwise (fun a b => a.Host ≠ b.Host) :=
    ((List.perm_insertionSort hostLE _).pairwise_iff (fun h => Ne.symm h)).2 hn0
  exact (hs.and hn).imp (fun h => strLT_of_strLE_of_ne h.1 h.2)

/-- C4. Every record returned by `RunWithMetadata` names as its source the
first outcome, in the order of reception, that carries no error and lists the
host; the record survives unchanged whatever outcomes are received
afterwards; an outcome carrying an error leaves the map as it is. -/
theorem attribution_is_first_successful_reporter (domain : String)
    (outcomes : List Result) :
    (∀ res ∈ (RunWithMetadata domain outcomes).1,
        firstReporter outcomes res.Host = some res.Source)
      ∧ (∀ (later : List Result), ∀ res ∈ (RunWithMetadata domain outcomes).1,
          res ∈ (RunWithMetadata domain (outcomes ++ later)).1)
      ∧ (∀ (st : CollectedMeta) (r : Result), r.Error ≠ none →
          (collectStepMeta st r).subdomainMap = st.subdomainMap) := by
  refine ⟨?_, ?_, ?_⟩
  · intro res hres
    obtain ⟨_, e, he, rfl⟩ := mem_RunWithMetadata domain outcomes res hres
    have := collectMeta_entries outcomes e he
    rw [this.1]
    exact this.2
  · intro later res hres
    obtain ⟨hd, e, he, rfl⟩ := mem_RunWithMetadata domain outcomes res hres
    apply mem_RunWithMetadata_of_entry domain _ hd e
    rw [collectMeta_append]
    exact foldl_collectStepMeta_subset later _ e he
  · intro st r hr
    unfold collectStepMeta
    cases hE : r.Error with
    | some msg => rfl
    | none => exact absurd hE hr

/-- Witness of C4: B is received before C and both list `x`, the failed
outcome A lists it as well; `x` is attributed to B. -/
theorem attribution_is_first_successful_reporter_witness :
    (⟨"x", "B", 1, []⟩ : SubdomainResult) ∈
        (RunWithMetadata "example.com"
          [⟨"A", ["x"], some "boom"⟩, ⟨"B", ["y", "x"], none⟩,
            ⟨"C", ["x", "a"], none⟩]).1
      ∧ firstReporter
          [⟨"A", ["x"], some "boom"⟩, ⟨"B", ["y", "x"], none⟩, ⟨"C", ["x", "a"], none⟩]
          "x" = some "B" :=
  ⟨by decide,
    (attribution_is_first_successful_reporter "example.com"
      [⟨"A", ["x"], some "boom"⟩, ⟨"B", ["y", "x"], none⟩, ⟨"C", ["x", "a"], none⟩]).1
      ⟨"x", "B", 1, []⟩ (by decide)⟩

/-- C5. The slice returned by `Run` is strictly ascending, pairwise and
hence for every adjacent pair, and the slice returned by `RunWithMetadata`
is strictly ascending by `Host`. -/
theorem run_results_strictly_ascending (domain : String) (outcomes : List Result) :
    (Run domain outcomes).1.Sorted strLT
      ∧ (Run domain outcomes).1.Chain' strLT
      ∧ (RunWithMetadata domain outcomes).1.Sorted (fun a b => strLT a.Host b.Host)
      ∧ (RunWithMetadata domain outcomes).1.Chain' (fun a b => strLT a.Host b.Host) := by
  have h1 : (Run domain outcomes).1.Sorted strLT := by
    by_cases hd : domain = ""
    · subst hd
      rw [Run_nil_of_empty_domain]
      exact List.sorted_nil
    · rw [Run_fst domain outcomes hd]
      exact sortStrings_strict _ (collect_nodup outcomes)
  have h2 : (RunWithMetadata domain outcomes).1.Sorted (fun a b => strLT a.Host b.Host) := by
    by_cases hd : domain = ""
    · subst hd
      rw [RunWithMetadata_nil_of_empty_domain]
      exact List.sorted_nil
    · rw [RunWithMetadata_fst domain outcomes hd]
      exact sorted_values_strict outcomes
  exact ⟨h1, List.Pairwise.chain' h1, h2, List.Pairwise.chain' h2⟩

/-! ## Provider tasks and the rate limiter -/

theorem foldl_collectStep_map_congr (outs : List Result) (st st2 : Collected)
    (h : st.subdomainMap = st2.subdomainMap) :
    (outs.foldl collectStep st).subdomainMap = (outs.foldl collectStep st2).subdomainMap := by
  induction outs generalizing st st2 with
  | nil => exact h
  | cons r rest ih =>
    rw [List.foldl_cons, List.foldl_cons]
    apply ih
    unfold collectStep
    cases hE : r.Error with
    | some msg => exact h
    | none => simp only; rw [h]

theorem collectStep_failed (st : Collected) (r : Result) (msg : String)
    (h : r.Error = some msg) :
    collectStep st r
      = { subdomainMap := st.subdomainMap, errors := st.errors ++ [r.Source ++ ": " ++ msg] } := by
  unfold collectStep
  rw [h]

theorem collect_skip_failed (pre post : List Result) (r : Result) (hr : r.Error ≠ none) :
    (collect (pre ++ [r] ++ post)).subdomainMap = (collect (pre ++ post)).subdomainMap := by
  unfold collect
  rw [List.foldl_append, List.foldl_append, List.foldl_append]
  apply foldl_collectStep_map_congr
  simp only [List.foldl_cons, List.foldl_nil]
  cases hE : r.Error with
  | none => exact absurd hE hr
  | some msg => rw [collectStep_failed _ r msg hE]

/-- C7. When the source has a limiter and `limiter.Wait` fails, the task never
calls the provider and sends exactly one outcome, with a failure and without
hostnames; no schedule can start the provider; the collection loop handles the
outcome like any failure: the map is untouched, one error is recorded, the
returned hostnames are those of the other outcomes, and if no other outcome
brought a hostname the run ends with the all-sources-failed error. -/
theorem rate_limit_abort_is_a_failure (r : Runner) (ctx : Context) (domain : String)
    (src : Source) (err : String)
    (hlim : (mapLookup r.rateLimiters src.name).isSome = true) :
    (sourceTask r (some err) ctx domain src).invocations = 0
      ∧ (sourceTask r (some err) ctx domain src).sent = [abortOutcome src err]
      ∧ (abortOutcome src err).Subdomains = []
      ∧ (abortOutcome src err).Error ≠ none
      ∧ (∀ (waitErr : Nat → GoError) (i : Nat) (s : RunState),
          r.sources[i]? = some src → waitErr i = some err →
            step r waitErr ctx domain s (Event.start i) = none)
      ∧ (∀ st : Collected,
          collectStep st (abortOutcome src err)
            = { subdomainMap := st.subdomainMap
                errors := st.errors
                  ++ [src.name ++ ": " ++ ("rate limit wait failed: " ++ err)] })
      ∧ (∀ (pre post : List Result),
          (Run domain (pre ++ [abortOutcome src err] ++ post)).1
            = (Run domain (pre ++ post)).1)
      ∧ (∀ (pre post : List Result), domain ≠ "" →
          (∀ q ∈ pre ++ post, q.Error = none → q.Subdomains = []) →
            (Run domain (pre ++ [abortOutcome src err] ++ post)).2 ≠ none) := by
  have hchk : limiterCheck r (some err) src = some err := by
    unfold limiterCheck
    cases hl : mapLookup r.rateLimiters src.name with
    | none => rw [hl] at hlim; simp at hlim
    | some v => rfl
  refine ⟨?_, ?_, rfl, ?_, ?_, ?_, ?_, ?_⟩
  · unfold sourceTask; rw [hchk]
  · unfold sourceTask; rw [hchk]; rfl
  · simp [abortOutcome]
  · intro waitErr i s hsrc hw
    unfold step
    simp only [hsrc, hw, hchk]
    simp
  · intro st
    exact collectStep_failed st _ _ rfl
  · intro pre post
    by_cases hd : domain = ""
    · subst hd
      rw [Run_nil_of_empty_domain, Run_nil_of_empty_domain]
    · rw [Run_fst _ _ hd, Run_fst _ _ hd, collect_skip_failed]
      simp [abortOutcome]
  · intro pre post hd hempty
    rw [Run_error_iff_of_domain domain _ hd]
    refine ⟨?_, abortOutcome src err, by simp, by simp [abortOutcome]⟩
    intro q hq hE
    simp only [List.mem_append, List.mem_singleton] at hq
    rcases hq with (hq | rfl) | hq
    · exact hempty q (List.mem_append_left _ hq) hE
    · rfl
    · exact hempty q (List.mem_append_right _ hq) hE

/-- Witness of C7: the slow source with a limiter of 5 requests per second
whose wait is cut short by the deadline. -/
theorem rate_limit_abort_is_a_failure_witness :
    (mapLookup (timeoutTestRunner.SetRateLimit "slow" 5).rateLimiters
        slowSource.toSource.name).isSome = true
      ∧ (sourceTask (timeoutTestRunner.SetRateLimit "slow" 5)
          (some "context deadline exceeded") Context.background "example.com"
          slowSource.toSource).invocations = 0
      ∧ Run "example.com" [abortOutcome slowSource.toSource "context deadline exceeded"]
        = ([], some
            "all sources failed: [slow: rate limit wait failed: context deadline exceeded]") :=
  ⟨by decide,
    (rate_limit_abort_is_a_failure (timeoutTestRunner.SetRateLimit "slow" 5)
      Context.background "example.com" slowSource.toSource "context deadline exceeded"
      (by decide)).1,
    by decide⟩

end runner

theorem countP_set_balance {α : Type} (p : α → Bool) (l : List α) (i : Nat) (old new : α)
    (h : l[i]? = some old) :
    (l.set i new).countP p + (if p old then 1 else 0)
      = l.countP p + (if p new then 1 else 0) := by
  induction l generalizing i with
  | nil => simp at h
  | cons a rest ih =>
    cases i with
    | zero =>
      simp only [List.getElem?_cons_zero, Option.some.injEq] at h
      subst h
      simp only [List.set_cons_zero, List.countP_cons]
      omega
    | succ j =>
      simp only [List.getElem?_cons_succ] at h
      simp only [List.set_cons_succ, List.countP_cons]
      have := ih j h
      omega

namespace runner

/-! ## The semaphore bounds the running providers -/

theorem holders_set (phases : List Phase) (i : Nat) (old new : Phase)
    (h : phases[i]? = some old) :
    (phases.set i new).countP Phase.holdsSlot + (if old.holdsSlot then 1 else 0)
      = phases.countP Phase.holdsSlot + (if new.holdsSlot then 1 else 0) :=
  countP_set_balance Phase.holdsSlot phases i old new h

theorem runningCount_le_holders (s : RunState) : s.runningCount ≤ s.holders := by
  unfold RunState.runningCount RunState.holders
  apply List.countP_mono_left
  intro p _ hp
  have : p = Phase.running := by simpa using hp
  subst this
  rfl

/-- One step keeps the number of buffered semaphore values equal to the number
of slot holders, and within the capacity. -/
theorem step_keeps_semaphore (r : Runner) (waitErr : Nat → GoError) (ctx : Context)
    (domain : String) (s s2 : RunState) (e : Event)
    (hstep : step r waitErr ctx domain s e = some s2)
    (hinv : s.sem = s.holders ∧ (s.sem : Int) ≤ r.semCapacity) :
    s2.sem = s2.holders ∧ (s2.sem : Int) ≤ r.semCapacity := by
  obtain ⟨hsem, hcap⟩ := hinv
  unfold RunState.holders at hsem ⊢
  cases e with
  | acquire i =>
    simp only [step] at hstep
    split at hstep
    · next hc =>
      simp only [Option.some.injEq] at hstep
      subst hstep
      have := holders_set s.phases i Phase.waiting Phase.holding hc.1
      simp only [Phase.holdsSlot] at this
      simp only
      constructor
      · simp at this; omega
      · have := hc.2; omega
    · simp at hstep
  | abort i =>
    simp only [step] at hstep
    split at hstep
    · simp at hstep
    · split at hstep
      · next hc =>
        simp only [Option.some.injEq] at hstep
        subst hstep
        have := holders_set s.phases i Phase.holding Phase.sent hc.1
        simp only [Phase.holdsSlot] at this
        simp only
        constructor
        · simp at this; omega
        · exact hcap
      · simp at hstep
  | start i =>
    simp only [step] at hstep
    split at hstep
    · simp at hstep
    · split at hstep
      · next hc =>
        simp only [Option.some.injEq] at hstep
        subst hstep
        have := holders_set s.phases i Phase.holding Phase.running hc.1
        simp only [Phase.holdsSlot] at this
        simp only
        constructor
        · simp at this; omega
        · exact hcap
      · simp at hstep
  | finish i =>
    simp only [step] at hstep
    split at hstep
    · simp at hstep
    · split at hstep
      · next hc =>
        simp only [Option.some.injEq] at hstep
        subst hstep
        have := holders_set s.phases i Phase.running Phase.sent hc.1
        simp only [Phase.holdsSlot] at this
        simp only
        constructor
        · simp at this; omega
        · exact hcap
      · simp at hstep
  | release i =>
    simp only [step] at hstep
    split at hstep
    · next hc =>
      simp only [Option.some.injEq] at hstep
      subst hstep
      have := holders_set s.phases i Phase.sent Phase.done hc.1
      simp only [Phase.holdsSlot] at this
      simp only
      constructor
      · simp at this; omega
      · omega
    · simp at hstep
  | close =>
    simp only [step] at hstep
    split at hstep
    · simp only [Option.some.injEq] at hstep
      subst hstep
      exact ⟨hsem, hcap⟩
    · simp at hstep
  | receive =>
    simp only [step] at hstep
    split at hstep
    · simp at hstep
    · simp only [Option.some.injEq] at hstep
      subst hstep
      exact ⟨hsem, hcap⟩

theorem execFrom_keeps_semaphore (r : Runner) (waitErr : Nat → GoError) (ctx : Context)
    (domain : String) (schedule : List Event) (s s2 : RunState)
    (hexec : execFrom r waitErr ctx domain s schedule = some s2)
    (hinv : s.sem = s.holders ∧ (s.sem : Int) ≤ r.semCapacity) :
    s2.sem = s2.holders ∧ (s2.sem : Int) ≤ r.semCapacity := by
  induction schedule generalizing s with
  | nil =>
    simp only [execFrom, Option.some.injEq] at hexec
    subst hexec
    exact hinv
  | cons e es ih =>
    simp only [execFrom] at hexec
    cases hs : step r waitErr ctx domain s e with
    | none => rw [hs] at hexec; simp at hexec
    | some s1 =>
      rw [hs] at hexec
      exact ih s1 hexec (step_keeps_semaphore r waitErr ctx domain s s1 e hs hinv)

theorem initState_semaphore (r : Runner) (s : RunState) (h : initState r = some s) :
    s.sem = s.holders ∧ (s.sem : Int) ≤ r.semCapacity := by
  unfold initState at h
  split at h
  · simp at h
  · next hc =>
    simp only [Option.some.injEq] at h
    subst h
    unfold RunState.holders
    simp only
    constructor
    · symm
      rw [List.countP_eq_zero]
      intro p hp
      rw [List.mem_map] at hp
      obtain ⟨_, _, rfl⟩ := hp
      simp [Phase.holdsSlot]
    · simp only [Nat.cast_zero]; omega

/-- C8. In every state that a schedule of the goroutines of `Run` can reach,
the number of provider invocations that have started and not yet returned is
at most the worker-pool size, whatever the number of providers; the tasks
holding a slot are exactly counted by the semaphore. -/
theorem running_providers_bounded_by_workers (r : Runner) (waitErr : Nat → GoError)
    (ctx : Context) (domain : String) (schedule : List Event) (s : RunState)
    (hexec : exec r waitErr ctx domain schedule = some s) :
    (s.runningCount : Int) ≤ r.workers
      ∧ s.runningCount ≤ s.holders
      ∧ s.holders = s.sem
      ∧ (s.sem : Int) ≤ r.workers := by
  unfold exec at hexec
  cases hi : initState r with
  | none => rw [hi] at hexec; simp at hexec
  | some s0 =>
    rw [hi] at hexec
    simp only at hexec
    have hinv := execFrom_keeps_semaphore r waitErr ctx domain schedule s0 s hexec
      (initState_semaphore r s0 hi)
    have hle := runningCount_le_holders s
    unfold Runner.semCapacity at hinv
    refine ⟨?_, hle, hinv.1.symm, hinv.2⟩
    have h2 := hinv.2
    rw [hinv.1] at h2
    have : (s.runningCount : Int) ≤ (s.holders : Int) := by exact_mod_cast hle
    omega

/-- Witness of C8 on `TestRunnerConcurrency` (ten providers, five workers):
after five tasks have entered their provider five invocations are in flight,
and a sixth task cannot pass the semaphore. -/
theorem running_providers_bounded_by_workers_witness :
    (∃ s, exec concurrencyTestRunner (fun _ => none) Context.background "example.com"
          [Event.acquire 0, Event.start 0, Event.acquire 1, Event.start 1,
            Event.acquire 2, Event.start 2, Event.acquire 3, Event.start 3,
            Event.acquire 4, Event.start 4] = some s
        ∧ s.runningCount = 5
        ∧ (s.runningCount : Int) ≤ concurrencyTestRunner.workers
        ∧ step concurrencyTestRunner (fun _ => none) Context.background "example.com" s
            (Event.acquire 5) = none) := by
  refine ⟨_, rfl, by decide, ?_, by decide⟩
  exact (running_providers_bounded_by_workers concurrencyTestRunner (fun _ => none)
    Context.background "example.com"
    [Event.acquire 0, Event.start 0, Event.acquire 1, Event.start 1,
      Event.acquire 2, Event.start 2, Event.acquire 3, Event.start 3,
      Event.acquire 4, Event.start 4] _ rfl).1

end runner

theorem mapLookup_of_mapContains {β : Type} (m : List (String × β)) (k : String)
    (h : mapContains m k = true) :
    ∃ v, mapLookup m k = some v ∧ (k, v) ∈ m := by
  unfold mapContains at h
  unfold mapLookup
  cases hf : m.find? (fun e => e.1 == k) with
  | none =>
    rw [List.find?_eq_none] at hf
    rw [List.any_eq_true] at h
    obtain ⟨e, he, hk⟩ := h
    exact absurd hk (hf e he)
  | some e =>
    refine ⟨e.2, rfl, ?_⟩
    have hk := List.find?_some hf
    have hmem := List.mem_of_find?_eq_some hf
    have : e.1 = k := by simpa using hk
    rw [← this]
    exact hmem

namespace runner

/-- C9, evaluated on the code: `NewRunner` copies `Workers` into the capacity
of the semaphore whatever its sign and uses 10 only for a nil config. With
`Workers = 0` the capacity is 0 and no task can ever acquire a slot, with a
negative value creating the channel panics, while `ResolveMany` replaces any
`workers <= 0` by 10. -/
theorem newRunner_keeps_nonpositive_workers (srcs : List Source) (w timeout : Int)
    (verbose silent : Bool) :
    (NewRunner srcs (some ⟨w, timeout, verbose, silent⟩)).semCapacity = w
      ∧ (NewRunner srcs none).semCapacity = 10
      ∧ (NewRunner srcs (some ⟨0, timeout, verbose, silent⟩)).semCapacity = 0
      ∧ (∀ (waitErr : Nat → GoError) (ctx : Context) (domain : String) (s : RunState)
          (i : Nat),
          step (NewRunner srcs (some ⟨0, timeout, verbose, silent⟩)) waitErr ctx domain s
            (Event.acquire i) = none)
      ∧ initState (NewRunner srcs (some ⟨-1, timeout, verbose, silent⟩)) = none
      ∧ resolve.effectiveWorkers 0 = 10 := by
  refine ⟨rfl, rfl, rfl, ?_, rfl, rfl⟩
  intro waitErr ctx domain s i
  simp only [step, NewRunner, Runner.semCapacity]
  rw [if_neg]
  rintro ⟨_, h⟩
  omega

end runner

namespace resolve

/-! ## The resolution cache -/

/-- C10. If the cache has an entry for the hostname (`r.cache.Load` finds
`cached`), `Resolve` returns that entry with a nil error and leaves the
resolver as it was: the cache is unchanged and no lookup is issued. -/
theorem resolve_cache_hit (net : Net) (r : Resolver) (subdomain : String)
    (cached : Result) (hhit : mapLookup r.cache subdomain = some cached) :
    (Resolve net r subdomain).1 = (some cached, none)
      ∧ (Resolve net r subdomain).2 = r
      ∧ (Resolve net r subdomain).2.cache = r.cache
      ∧ (Resolve net r subdomain).2.issued = r.issued
      ∧ mapContains r.cache subdomain = true := by
  have hres : Resolve net r subdomain = ((some cached, none), r) := by
    unfold Resolve
    rw [hhit]
  refine ⟨?_, ?_, ?_, ?_, ?_⟩
  · rw [hres]
  · rw [hres]
  · rw [hres]
  · rw [hres]
  · unfold mapLookup at hhit
    unfold mapContains
    cases hf : r.cache.find? (fun e => e.1 == subdomain) with
    | none => rw [hf] at hhit; simp at hhit
    | some e =>
      rw [List.any_eq_true]
      have hk : (fun e : String × Result => e.1 == subdomain) e = true :=
        @List.find?_some _ (fun e : String × Result => e.1 == subdomain) e r.cache hf
      exact ⟨e, List.mem_of_find?_eq_some hf, hk⟩

/-- Witness of C10: a cached failure is served verbatim although the network
would now answer with an address. -/
theorem resolve_cache_hit_witness :
    mapLookup cachedFailureResolver.cache "dead.example.com"
        = some ⟨"dead.example.com", [], false, some "no such host"⟩
      ∧ (Resolve answeringNet cachedFailureResolver "dead.example.com").1
        = (some ⟨"dead.example.com", [], false, some "no such host"⟩, none)
      ∧ (Resolve answeringNet cachedFailureResolver "dead.example.com").2
        = cachedFailureResolver :=
  ⟨by decide,
    (resolve_cache_hit answeringNet cachedFailureResolver "dead.example.com"
      ⟨"dead.example.com", [], false, some "no such host"⟩ (by decide)).1,
    (resolve_cache_hit answeringNet cachedFailureResolver "dead.example.com"
      ⟨"dead.example.com", [], false, some "no such host"⟩ (by decide)).2.1⟩

end resolve

namespace runner

/-! ## Every outcome is delivered exactly once -/

theorem sentFrom_length (r : Runner) (waitErr : Nat → GoError) (ctx : Context)
    (domain : String) (k : Nat) (srcs : List Source) :
    (sentFrom r waitErr ctx domain k srcs).length = srcs.length := by
  induction srcs generalizing k with
  | nil => rfl
  | cons src rest ih => simp [sentFrom, ih]

theorem sentFrom_getElem? (r : Runner) (waitErr : Nat → GoError) (ctx : Context)
    (domain : String) (k j : Nat) (srcs : List Source) (src : Source)
    (h : srcs[j]? = some src) :
    (sentFrom r waitErr ctx domain k srcs)[j]?
      = some (sourceTask r (waitErr (k + j)) ctx domain src).sent := by
  induction srcs generalizing k j with
  | nil => simp at h
  | cons a rest ih =>
    cases j with
    | zero =>
      simp only [List.getElem?_cons_zero, Option.some.injEq] at h
      subst h
      simp [sentFrom]
    | succ j =>
      simp only [List.getElem?_cons_succ] at h
      simp only [sentFrom, List.getElem?_cons_succ]
      rw [ih (k + 1) j h]
      have hk : k + 1 + j = k + (j + 1) := by omega
      rw [hk]

theorem delivered_set_same (phases : List Phase) (outs : List (List Result)) (i : Nat)
    (old new : Phase) (h : phases[i]? = some old) (hs : new.hasSent = old.hasSent) :
    delivered (phases.set i new) outs = delivered phases outs := by
  induction phases generalizing outs i with
  | nil => simp at h
  | cons p ps ih =>
    cases outs with
    | nil => cases i <;> simp [delivered]
    | cons o os =>
      cases i with
      | zero =>
        simp only [List.getElem?_cons_zero, Option.some.injEq] at h
        subst h
        simp [delivered, hs]
      | succ j =>
        simp only [List.getElem?_cons_succ] at h
        simp only [List.set_cons_succ, delivered]
        rw [ih os j h]

theorem delivered_set_new (phases : List Phase) (outs : List (List Result)) (i : Nat)
    (old new : Phase) (o : List Result) (h : phases[i]? = some old)
    (ho : outs[i]? = some o) (hold : old.hasSent = false) (hnew : new.hasSent = true) :
    (delivered (phases.set i new) outs).Perm (delivered phases outs ++ o) := by
  induction phases generalizing outs i with
  | nil => simp at h
  | cons p ps ih =>
    cases outs with
    | nil => simp at ho
    | cons o1 os =>
      cases i with
      | zero =>
        simp only [List.getElem?_cons_zero, Option.some.injEq] at h ho
        subst h
        subst ho
        simp only [List.set_cons_zero, delivered, hold, hnew, if_true, List.nil_append]
        exact List.perm_append_comm
      | succ j =>
        simp only [List.getElem?_cons_succ] at h ho
        simp only [List.set_cons_succ, delivered]
        rw [List.append_assoc]
        exact List.Perm.append_left _ (ih os j h ho)

theorem delivered_all_done (phases : List Phase) (outs : List (List Result))
    (hlen : phases.length = outs.length) (hall : ∀ p ∈ phases, p = Phase.done) :
    delivered phases outs = outs.flatten := by
  induction phases generalizing outs with
  | nil =>
    cases outs with
    | nil => rfl
    | cons o os => simp at hlen
  | cons p ps ih =>
    cases outs with
    | nil => simp at hlen
    | cons o os =>
      have hp : p = Phase.done := hall p (List.mem_cons_self _ _)
      subst hp
      simp only [delivered, Phase.hasSent, if_true, List.flatten_cons]
      rw [ih os (by simpa using hlen) (fun q hq => hall q (List.mem_cons_of_mem _ hq))]

theorem delivered_all_waiting (srcs : List Source) (outs : List (List Result)) :
    delivered (srcs.map (fun _ => Phase.waiting)) outs = [] := by
  induction srcs generalizing outs with
  | nil => cases outs <;> rfl
  | cons a rest ih =>
    cases outs with
    | nil => rfl
    | cons o os =>
      simp only [List.map_cons, delivered, Phase.hasSent, List.nil_append]
      exact ih os

theorem not_all_done_of_getElem? (phases : List Phase) (i : Nat) (p : Phase)
    (h : phases[i]? = some p) (hp : p ≠ Phase.done) :
    ¬ ∀ q ∈ phases, q = Phase.done := by
  intro hall
  obtain ⟨hlt, hget⟩ := List.getElem?_eq_some_iff.1 h
  exact hp (hall p (hget ▸ List.getElem_mem hlt))

theorem step_keeps_consistent (r : Runner) (waitErr : Nat → GoError) (ctx : Context)
    (domain : String) (s s2 : RunState) (e : Event)
    (hstep : step r waitErr ctx domain s e = some s2)
    (hinv : s.consistent r waitErr ctx domain) :
    s2.consistent r waitErr ctx domain := by
  obtain ⟨hlen, hperm, hclosed⟩ := hinv
  unfold RunState.consistent
  cases e with
  | acquire i =>
    simp only [step] at hstep
    split at hstep
    · next hc =>
      simp only [Option.some.injEq] at hstep
      subst hstep
      refine ⟨by simpa using hlen, ?_, ?_⟩
      · simp only
        rw [delivered_set_same _ _ i Phase.waiting Phase.holding hc.1 rfl]
        exact hperm
      · intro hcl
        exact absurd (hclosed hcl)
          (not_all_done_of_getElem? s.phases i Phase.waiting hc.1 (by decide))
    · simp at hstep
  | abort i =>
    simp only [step] at hstep
    split at hstep
    · simp at hstep
    · next src hsrc =>
      split at hstep
      · next hc =>
        simp only [Option.some.injEq] at hstep
        subst hstep
        refine ⟨by simpa using hlen, ?_, ?_⟩
        · simp only
          have ho := sentFrom_getElem? r waitErr ctx domain 0 i r.sources src hsrc
          rw [Nat.zero_add] at ho
          have hd := delivered_set_new s.phases _ i Phase.holding Phase.sent _ hc.1 ho rfl rfl
          rw [← List.append_assoc]
          exact (List.Perm.append_right _ hperm).trans hd.symm
        · intro hcl
          exact absurd (hclosed hcl)
            (not_all_done_of_getElem? s.phases i Phase.holding hc.1 (by decide))
      · simp at hstep
  | start i =>
    simp only [step] at hstep
    split at hstep
    · simp at hstep
    · split at hstep
      · next hc =>
        simp only [Option.some.injEq] at hstep
        subst hstep
        refine ⟨by simpa using hlen, ?_, ?_⟩
        · simp only
          rw [delivered_set_same _ _ i Phase.holding Phase.running hc.1 rfl]
          exact hperm
        · intro hcl
          exact absurd (hclosed hcl)
            (not_all_done_of_getElem? s.phases i Phase.holding hc.1 (by decide))
      · simp at hstep
  | finish i =>
    simp only [step] at hstep
    split at hstep
    · simp at hstep
    · next src hsrc =>
      split at hstep
      · next hc =>
        simp only [Option.some.injEq] at hstep
        subst hstep
        refine ⟨by simpa using hlen, ?_, ?_⟩
        · simp only
          have ho := sentFrom_getElem? r waitErr ctx domain 0 i r.sources src hsrc
          rw [Nat.zero_add] at ho
          have hd := delivered_set_new s.phases _ i Phase.running Phase.sent _ hc.1 ho rfl rfl
          rw [← List.append_assoc]
          exact (List.Perm.append_right _ hperm).trans hd.symm
        · intro hcl
          exact absurd (hclosed hcl)
            (not_all_done_of_getElem? s.phases i Phase.running hc.1 (by decide))
      · simp at hstep
  | release i =>
    simp only [step] at hstep
    split at hstep
    · next hc =>
      simp only [Option.some.injEq] at hstep
      subst hstep
      refine ⟨by simpa using hlen, ?_, ?_⟩
      · simp only
        rw [delivered_set_same _ _ i Phase.sent Phase.done hc.1 rfl]
        exact hperm
      · intro hcl
        exact absurd (hclosed hcl)
          (not_all_done_of_getElem? s.phases i Phase.sent hc.1 (by decide))
    · simp at hstep
  | close =>
    simp only [step] at hstep
    split at hstep
    · next hc =>
      simp only [Option.some.injEq] at hstep
      subst hstep
      refine ⟨hlen, hperm, ?_⟩
      intro _ p hp
      have := hc.2
      rw [List.all_eq_true] at this
      simpa using this p hp
    · simp at hstep
  | receive =>
    simp only [step] at hstep
    split at hstep
    · simp at hstep
    · next x rest hchan =>
      simp only [Option.some.injEq] at hstep
      subst hstep
      refine ⟨hlen, ?_, hclosed⟩
      simp only
      rw [hchan] at hperm
      simpa using hperm

theorem execFrom_keeps_consistent (r : Runner) (waitErr : Nat → GoError) (ctx : Context)
    (domain : String) (schedule : List Event) (s s2 : RunState)
    (hexec : execFrom r waitErr ctx domain s schedule = some s2)
    (hinv : s.consistent r waitErr ctx domain) :
    s2.consistent r waitErr ctx domain := by
  induction schedule generalizing s with
  | nil =>
    simp only [execFrom, Option.some.injEq] at hexec
    subst hexec
    exact hinv
  | cons e es ih =>
    simp only [execFrom] at hexec
    cases hs : step r waitErr ctx domain s e with
    | none => rw [hs] at hexec; simp at hexec
    | some s1 =>
      rw [hs] at hexec
      exact ih s1 hexec (step_keeps_consistent r waitErr ctx domain s s1 e hs hinv)

theorem initState_consistent (r : Runner) (waitErr : Nat → GoError) (ctx : Context)
    (domain : String) (s : RunState) (h : initState r = some s) :
    s.consistent r waitErr ctx domain := by
  unfold initState at h
  split at h
  · simp at h
  · simp only [Option.some.injEq] at h
    subst h
    refine ⟨by simp, ?_, ?_⟩
    · simp only [List.append_nil]
      rw [delivered_all_waiting]
    · intro hcl
      simp at hcl

/-- When the collection loop of a run ends, the values it has received are
the outcomes of all provider tasks, each exactly once, in some order. -/
theorem received_all_outcomes (r : Runner) (waitErr : Nat → GoError) (ctx : Context)
    (domain : String) (schedule : List Event) (s : RunState)
    (hexec : exec r waitErr ctx domain schedule = some s) (hfin : s.finished = true) :
    s.received.Perm (taskOutcomes r waitErr ctx domain) := by
  unfold exec at hexec
  cases hi : initState r with
  | none => rw [hi] at hexec; simp at hexec
  | some s0 =>
    rw [hi] at hexec
    simp only at hexec
    obtain ⟨hlen, hperm, hclosed⟩ :=
      execFrom_keeps_consistent r waitErr ctx domain schedule s0 s hexec
        (initState_consistent r waitErr ctx domain s0 hi)
    unfold RunState.finished at hfin
    simp only [Bool.and_eq_true, List.isEmpty_iff] at hfin
    rw [hfin.2, List.append_nil] at hperm
    rw [delivered_all_done _ _ (by rw [hlen, sentFrom_length]) (hclosed hfin.1)] at hperm
    exact hperm

/-- C6, evaluated on the code with the setting of `TestRunnerTimeout`: the
only provider needs 5s, the timeout is 1s, the provider does not look at the
context and `Run` never does either. The sequential schedule takes `Run` to its
return statement, and under every schedule that does, `Run` returns the
hostname of the slow provider with a nil error. -/
theorem timeout_test_run_returns_no_error :
    timeoutTestRunner.timeout < slowSource.delay
      ∧ Runner.Run timeoutTestRunner (fun _ => none) Context.background "example.com"
          (sequentialSchedule timeoutTestRunner (fun _ => none))
        = some (["api.example.com"], none)
      ∧ (∀ (waitErr : Nat → GoError) (schedule : List Event) (res : List String × GoError),
          Runner.Run timeoutTestRunner waitErr Context.background "example.com" schedule
            = some res →
          res = (["api.example.com"], none)) := by
  refine ⟨by decide, by decide, ?_⟩
  intro waitErr schedule res hrun
  unfold Runner.Run at hrun
  rw [if_neg (by decide)] at hrun
  cases hexec : exec timeoutTestRunner waitErr
      (Context.background.withTimeout timeoutTestRunner.timeout) "example.com" schedule with
  | none => rw [hexec] at hrun; simp at hrun
  | some s =>
    rw [hexec] at hrun
    simp only at hrun
    split at hrun
    · next hfin =>
      have hperm := received_all_outcomes timeoutTestRunner waitErr _ "example.com"
        schedule s hexec hfin
      have hout : taskOutcomes timeoutTestRunner waitErr
          (Context.background.withTimeout timeoutTestRunner.timeout) "example.com"
          = [⟨"slow", ["api.example.com"], none⟩] := rfl
      rw [hout, List.perm_singleton] at hperm
      rw [hperm] at hrun
      simp only [Option.some.injEq] at hrun
      rw [← hrun]
      decide
    · simp at hrun

/-! ## The returned slices do not depend on the iteration order of the map -/

instance strLE.isAntisymm : IsAntisymm String strLE :=
  ⟨fun a b hab hba => by
    rw [strLE_iff] at hab hba
    exact le_antisymm hab hba⟩

/-- Whatever order the keys of the map are visited in, sorting them gives
the same slice. -/
theorem sortStrings_eq_of_perm (l l2 : List String) (hp : l.Perm l2) :
    sortStrings l = sortStrings l2 :=
  List.eq_of_perm_of_sorted
    (((sortStrings_perm l).trans hp).trans (sortStrings_perm l2).symm)
    (sortStrings_sorted l) (sortStrings_sorted l2)

/-- Any arrangement of the map values that is strictly ascending by host is
the slice `RunWithMetadata` returns: the unstable `sort.Slice` and the
iteration order of the map leave no freedom. -/
theorem sorted_by_host_unique (domain : String) (outcomes : List Result)
    (hd : domain ≠ "") (l : List SubdomainResult)
    (hp : l.Perm ((collectMeta outcomes).subdomainMap.map Prod.snd))
    (hs : l.Sorted (fun a b => strLT a.Host b.Host)) :
    l = (RunWithMetadata domain outcomes).1 := by
  have hanti : IsAntisymm SubdomainResult (fun a b => strLT a.Host b.Host) :=
    ⟨fun a b hab hba => by
      rw [strLT_iff] at hab hba
      exact absurd hab (not_lt_of_gt hba)⟩
  have h2 : (RunWithMetadata domain outcomes).1.Sorted (fun a b => strLT a.Host b.Host) := by
    rw [RunWithMetadata_fst domain outcomes hd]
    exact sorted_values_strict outcomes
  refine List.eq_of_perm_of_sorted ?_ hs h2
  rw [RunWithMetadata_fst domain outcomes hd]
  exact hp.trans (List.perm_insertionSort hostLE _).symm

end runner

/-! ## Facts about stores into a map -/

theorem find?_map_keep_key {β : Type} (f : String × β → String × β)
    (hf : ∀ e, (f e).1 = e.1) (m : List (String × β)) (k : String) :
    (m.map f).find? (fun e => e.1 == k) = (m.find? (fun e => e.1 == k)).map f := by
  induction m with
  | nil => rfl
  | cons a rest ih =>
    simp only [List.map_cons, List.find?_cons, hf]
    cases h : a.1 == k with
    | true => rfl
    | false => exact ih

theorem mapContains_eq_false_iff {β : Type} (m : List (String × β)) (k : String) :
    mapContains m k = false ↔ mapLookup m k = none := by
  unfold mapContains mapLookup
  rw [Option.map_eq_none', List.find?_eq_none, List.any_eq_false]

theorem mapLookup_mapStore_self {β : Type} (m : List (String × β)) (k : String) (v : β) :
    mapLookup (mapStore m k v) k = some v := by
  unfold mapStore
  cases hc : mapContains m k with
  | false =>
    have hn := (mapContains_eq_false_iff m k).1 hc
    unfold mapLookup at hn ⊢
    rw [Option.map_eq_none'] at hn
    simp [List.find?_append, hn]
  | true =>
    simp only [if_true]
    unfold mapLookup
    rw [find?_map_keep_key _ (by intro e; split <;> simp_all) m k]
    unfold mapContains at hc
    cases hf : m.find? (fun e => e.1 == k) with
    | none =>
      rw [List.find?_eq_none] at hf
      rw [List.any_eq_true] at hc
      obtain ⟨e, he, hk⟩ := hc
      exact absurd hk (hf e he)
    | some e =>
      have hk : (fun e : String × β => e.1 == k) e = true :=
        @List.find?_some _ (fun e : String × β => e.1 == k) e m hf
      have hk2 : e.1 = k := by simpa using hk
      simp [hk2]

theorem mapLookup_mapStore_ne {β : Type} (m : List (String × β)) (k k2 : String) (v : β)
    (hne : k2 ≠ k) : mapLookup (mapStore m k v) k2 = mapLookup m k2 := by
  unfold mapStore
  cases hc : mapContains m k with
  | false =>
    unfold mapLookup
    simp only [Bool.false_eq_true, if_false, List.find?_append]
    have : ([(k, v)] : List (String × β)).find? (fun e => e.1 == k2) = none := by
      simp [List.find?_cons, Ne.symm hne]
    rw [this, Option.or_none]
  | true =>
    simp only [if_true]
    unfold mapLookup
    rw [find?_map_keep_key _ (by intro e; split <;> simp_all) m k2]
    cases hf : m.find? (fun e => e.1 == k2) with
    | none => rfl
    | some e =>
      have hk : (fun e : String × β => e.1 == k2) e = true :=
        @List.find?_some _ (fun e : String × β => e.1 == k2) e m hf
      have hk2 : e.1 = k2 := by simpa using hk
      have : ¬ e.1 = k := by
        rw [hk2]
        exact hne
      simp [this]

namespace resolve

/-! ## The lookup policy of `Resolve` -/

theorem Resolve_of_miss (net : Net) (r : Resolver) (sub : String)
    (hmiss : mapLookup r.cache sub = none) :
    Resolve net r sub = resolveMiss net r sub := by
  unfold Resolve resolveMiss
  rw [hmiss]

theorem Resolve_of_hit (net : Net) (r : Resolver) (sub : String) (cached : Result)
    (hhit : mapLookup r.cache sub = some cached) :
    Resolve net r sub = ((some cached, none), r) := by
  unfold Resolve
  rw [hhit]

/-- What a call does on a cache miss: it makes `n` attempts with `1 ≤ n ≤ 3`,
every attempt but the last failed temporarily and was followed by a completed
backoff, and the last attempt either succeeded, or failed for good, or failed
temporarily and the backoff was cut by the context. -/
theorem resolveMiss_spec (net : Net) (r : Resolver) (sub : String) :
    ∃ n, 1 ≤ n ∧ n ≤ 3
      ∧ (resolveMiss net r sub).2.issued = r.issued + n
      ∧ (resolveMiss net r sub).2.slept = r.slept ++ backoffWaits n
      ∧ (resolveMiss net r sub).2.wildcards = r.wildcards
      ∧ (resolveMiss net r sub).2.servers = r.servers
      ∧ (resolveMiss net r sub).2.timeout = r.timeout
      ∧ (∀ k, k + 1 < n → ∃ msg, net.lookupHost (r.issued + k) sub = LookupReply.fail msg true
            ∧ net.ctxDone (r.issued + k) = false)
      ∧ ((∃ addrs res, net.lookupHost (r.issued + (n - 1)) sub = LookupReply.ok addrs
            ∧ res.Host = sub ∧ res.IPs = addrs ∧ res.Exists = decide (addrs.length > 0)
            ∧ (n = 1 → res.Error = none)
            ∧ (∀ k msg, k + 2 = n →
                net.lookupHost (r.issued + k) sub = LookupReply.fail msg true →
                res.Error = some msg)
            ∧ (resolveMiss net r sub).1 = (some res, none)
            ∧ (resolveMiss net r sub).2.cache = mapStore r.cache sub res)
        ∨ (∃ msg temp, net.lookupHost (r.issued + (n - 1)) sub = LookupReply.fail msg temp
            ∧ (temp = false ∨ n = 3)
            ∧ (resolveMiss net r sub).1 = (some ⟨sub, [], false, some msg⟩, none)
            ∧ (resolveMiss net r sub).2.cache
                = mapStore r.cache sub ⟨sub, [], false, some msg⟩)
        ∨ (∃ msg, net.lookupHost (r.issued + (n - 1)) sub = LookupReply.fail msg true
            ∧ n < 3 ∧ net.ctxDone (r.issued + (n - 1)) = true
            ∧ (resolveMiss net r sub).1 = (none, some net.ctxErr)
            ∧ (resolveMiss net r sub).2.cache = r.cache)) := by
  cases h0 : net.lookupHost r.issued sub with
  | ok a0 =>
    refine ⟨1, by omega, by omega, ?_, ?_, ?_, ?_, ?_, ?_,
      Or.inl ⟨a0, ⟨sub, a0, decide (a0.length > 0), none⟩, ?_⟩⟩
    all_goals simp [resolveMiss, retryLoop, h0, backoffWaits]
  | fail m0 t0 =>
    cases t0 with
    | false =>
      refine ⟨1, by omega, by omega, ?_, ?_, ?_, ?_, ?_, ?_, Or.inr (Or.inl ⟨m0, false, ?_⟩)⟩
      all_goals simp [resolveMiss, retryLoop, h0, backoffWaits]
    | true =>
      cases c0 : net.ctxDone r.issued with
      | true =>
        refine ⟨1, by omega, by omega, ?_, ?_, ?_, ?_, ?_, ?_, Or.inr (Or.inr ⟨m0, ?_⟩)⟩
        all_goals simp [resolveMiss, retryLoop, h0, c0, backoffWaits]
      | false =>
        have hk1 : ∀ k, k + 1 < 2 → ∃ msg,
            net.lookupHost (r.issued + k) sub = LookupReply.fail msg true
              ∧ net.ctxDone (r.issued + k) = false := by
          intro k hk
          have : k = 0 := by omega
          subst this
          exact ⟨m0, by simpa using h0, by simpa using c0⟩
        cases h1 : net.lookupHost (r.issued + 1) sub with
        | ok a1 =>
          refine ⟨2, by omega, by omega, ?_, ?_, ?_, ?_, ?_, hk1,
            Or.inl ⟨a1, ⟨sub, a1, decide (a1.length > 0), some m0⟩, ?_⟩⟩
          all_goals simp [resolveMiss, retryLoop, h0, c0, h1, backoffWaits, List.range_succ]
          intro k msg hk hl
          have : k = 0 := by omega
          subst this
          simp only [Nat.add_zero, h0, LookupReply.fail.injEq] at hl
          exact hl.1
        | fail m1 t1 =>
          cases t1 with
          | false =>
            refine ⟨2, by omega, by omega, ?_, ?_, ?_, ?_, ?_, hk1,
              Or.inr (Or.inl ⟨m1, false, ?_⟩)⟩
            all_goals simp [resolveMiss, retryLoop, h0, c0, h1, backoffWaits, List.range_succ]
          | true =>
            cases c1 : net.ctxDone (r.issued + 1) with
            | true =>
              refine ⟨2, by omega, by omega, ?_, ?_, ?_, ?_, ?_, hk1,
                Or.inr (Or.inr ⟨m1, ?_⟩)⟩
              all_goals simp [resolveMiss, retryLoop, h0, c0, h1, c1, backoffWaits,
                List.range_succ]
            | false =>
              have hk2 : ∀ k, k + 1 < 3 → ∃ msg,
                  net.lookupHost (r.issued + k) sub = LookupReply.fail msg true
                    ∧ net.ctxDone (r.issued + k) = false := by
                intro k hk
                have : k = 0 ∨ k = 1 := by omega
                rcases this with rfl | rfl
                · exact ⟨m0, by simpa using h0, by simpa using c0⟩
                · exact ⟨m1, h1, c1⟩
              cases h2 : net.lookupHost (r.issued + 1 + 1) sub with
              | ok a2 =>
                refine ⟨3, by omega, by omega, ?_, ?_, ?_, ?_, ?_, hk2,
                  Or.inl ⟨a2, ⟨sub, a2, decide (a2.length > 0), some m1⟩, ?_⟩⟩
                all_goals simp [resolveMiss, retryLoop, h0, c0, h1, c1, h2, backoffWaits,
                  List.range_succ]
                intro k msg hk hl
                have : k = 1 := by omega
                subst this
                simp only [h1, LookupReply.fail.injEq] at hl
                exact hl.1
              | fail m2 t2 =>
                refine ⟨3, by omega, by omega, ?_, ?_, ?_, ?_, ?_, hk2,
                  Or.inr (Or.inl ⟨m2, t2, ?_⟩)⟩
                all_goals simp [resolveMiss, retryLoop, h0, c0, h1, c1, h2, backoffWaits,
                  List.range_succ]

/-- A result returned by `Resolve` is the cache entry of the hostname
afterwards, and it comes with a nil error. -/
theorem Resolve_result_cached (net : Net) (r : Resolver) (sub : String) (res : Result)
    (hres : (Resolve net r sub).1.1 = some res) :
    mapLookup (Resolve net r sub).2.cache sub = some res
      ∧ (Resolve net r sub).1.2 = none := by
  cases hl : mapLookup r.cache sub with
  | some cached =>
    rw [Resolve_of_hit net r sub cached hl] at hres ⊢
    simp only [Option.some.injEq] at hres
    subst hres
    exact ⟨hl, rfl⟩
  | none =>
    rw [Resolve_of_miss net r sub hl] at hres ⊢
    obtain ⟨n, _, _, _, _, _, _, _, _, hlast⟩ := resolveMiss_spec net r sub
    rcases hlast with ⟨addrs, res2, _, _, _, _, _, _, hout, hcache⟩
      | ⟨msg, temp, _, _, hout, hcache⟩ | ⟨msg, _, _, _, hout, _⟩
    · rw [hout] at hres ⊢
      simp only [Option.some.injEq] at hres
      subst hres
      rw [hcache]
      exact ⟨mapLookup_mapStore_self _ _ _, rfl⟩
    · rw [hout] at hres ⊢
      simp only [Option.some.injEq] at hres
      subst hres
      rw [hcache]
      exact ⟨mapLookup_mapStore_self _ _ _, rfl⟩
    · rw [hout] at hres
      simp at hres

/-- C11, refuted as stated: the first call is cut by the context during its
backoff, returns no result and stores nothing; the second call through the
same resolver issues a lookup again. -/
theorem second_resolve_after_cancel_looks_up_again :
    (Resolve cancellingNet (NewResolver none) "a.example.com").1
        = (none, some "context canceled")
      ∧ (Resolve cancellingNet (NewResolver none) "a.example.com").2.issued = 1
      ∧ (Resolve cancellingNet
          (Resolve cancellingNet (NewResolver none) "a.example.com").2
          "a.example.com").2.issued = 2
      ∧ (Resolve answeringNet
          (Resolve cancellingNet (NewResolver none) "a.example.com").2
          "a.example.com").1
        = (some ⟨"a.example.com", ["10.0.0.1"], true, none⟩, none) := by
  decide

/-- C11, amended: whenever the first call returns a result (it was not cut
during a backoff), a second call for the same hostname through the resulting
resolver returns the identical result with a nil error, whatever the network
does by then, and leaves the resolver as it is: no lookup is issued. -/
theorem second_resolve_served_from_cache (net net2 : Net) (r : Resolver) (sub : String)
    (res : Result) (hres : (Resolve net r sub).1.1 = some res) :
    (Resolve net2 (Resolve net r sub).2 sub).1 = (Resolve net r sub).1
      ∧ (Resolve net2 (Resolve net r sub).2 sub).1 = (some res, none)
      ∧ (Resolve net2 (Resolve net r sub).2 sub).2 = (Resolve net r sub).2
      ∧ (Resolve net2 (Resolve net r sub).2 sub).2.issued = (Resolve net r sub).2.issued := by
  obtain ⟨hc, herr⟩ := Resolve_result_cached net r sub res hres
  have h2 := Resolve_of_hit net2 (Resolve net r sub).2 sub res hc
  have h1 : (Resolve net r sub).1 = (some res, none) := Prod.ext hres herr
  rw [h2, h1]
  exact ⟨rfl, rfl, rfl, rfl⟩

/-- Witness of the amended C11: a lookup that fails for good is cached, and
the second call returns the same failure although the network would answer. -/
theorem second_resolve_served_from_cache_witness :
    (Resolve ⟨fun _ _ => LookupReply.fail "no such host" false, fun _ => false, "canceled"⟩
        (NewResolver none) "nonexistent-xyz123.invalid").1.1
        = some ⟨"nonexistent-xyz123.invalid", [], false, some "no such host"⟩
      ∧ (Resolve answeringNet
          (Resolve ⟨fun _ _ => LookupReply.fail "no such host" false, fun _ => false,
            "canceled"⟩ (NewResolver none) "nonexistent-xyz123.invalid").2
          "nonexistent-xyz123.invalid").1
        = (some ⟨"nonexistent-xyz123.invalid", [], false, some "no such host"⟩, none) :=
  ⟨by decide,
    (second_resolve_served_from_cache
      ⟨fun _ _ => LookupReply.fail "no such host" false, fun _ => false, "canceled"⟩
      answeringNet (NewResolver none) "nonexistent-xyz123.invalid"
      ⟨"nonexistent-xyz123.invalid", [], false, some "no such host"⟩ (by decide)).2.1⟩

/-- C12, refuted as stated: a call that performed a lookup and was then cut
by the context returns with nothing stored for the hostname. -/
theorem cancelled_resolve_stores_nothing :
    mapLookup (NewResolver none).cache "a.example.com" = none
      ∧ (Resolve cancellingNet (NewResolver none) "a.example.com").2.issued = 1
      ∧ (Resolve cancellingNet (NewResolver none) "a.example.com").1
        = (none, some "context canceled")
      ∧ mapLookup (Resolve cancellingNet (NewResolver none) "a.example.com").2.cache
          "a.example.com" = none := by
  decide

/-- C12, amended: on a cache miss, a call that returns a result, successful
or failed, has stored exactly that result under the hostname before
returning, and has touched no other entry; a call cut by the context during
a backoff returns no result with `ctx.Err()` and leaves the cache as it was. -/
theorem resolve_stores_returned_result (net : Net) (r : Resolver) (sub : String)
    (hmiss : mapLookup r.cache sub = none) :
    (∀ res, (Resolve net r sub).1.1 = some res →
        mapLookup (Resolve net r sub).2.cache sub = some res
          ∧ res.Host = sub
          ∧ (Resolve net r sub).1.2 = none
          ∧ ∀ k, k ≠ sub →
              mapLookup (Resolve net r sub).2.cache k = mapLookup r.cache k)
      ∧ ((Resolve net r sub).1.1 = none →
          (Resolve net r sub).2.cache = r.cache
            ∧ (Resolve net r sub).1.2 = some net.ctxErr) := by
  rw [Resolve_of_miss net r sub hmiss]
  obtain ⟨n, _, _, _, _, _, _, _, _, hlast⟩ := resolveMiss_spec net r sub
  rcases hlast with ⟨addrs, res2, _, hhost, _, _, _, _, hout, hcache⟩
    | ⟨msg, temp, _, _, hout, hcache⟩ | ⟨msg, _, _, _, hout, hcache⟩
  · rw [hout, hcache]
    refine ⟨?_, by simp⟩
    intro res hres
    simp only [Option.some.injEq] at hres
    subst hres
    exact ⟨mapLookup_mapStore_self _ _ _, hhost, rfl,
      fun k hk => mapLookup_mapStore_ne _ _ _ _ hk⟩
  · rw [hout, hcache]
    refine ⟨?_, by simp⟩
    intro res hres
    simp only [Option.some.injEq] at hres
    subst hres
    exact ⟨mapLookup_mapStore_self _ _ _, rfl, rfl,
      fun k hk => mapLookup_mapStore_ne _ _ _ _ hk⟩
  · rw [hout, hcache]
    exact ⟨by simp, fun _ => ⟨rfl, rfl⟩⟩

/-- Witness of the amended C12: a failed lookup is stored. -/
theorem resolve_stores_returned_result_witness :
    mapLookup (NewResolver none).cache "nonexistent-xyz123.invalid" = none
      ∧ mapLookup
          (Resolve ⟨fun _ _ => LookupReply.fail "no such host" false, fun _ => false,
            "canceled"⟩ (NewResolver none) "nonexistent-xyz123.invalid").2.cache
          "nonexistent-xyz123.invalid"
        = some ⟨"nonexistent-xyz123.invalid", [], false, some "no such host"⟩ :=
  ⟨by decide,
    ((resolve_stores_returned_result
      ⟨fun _ _ => LookupReply.fail "no such host" false, fun _ => false, "canceled"⟩
      (NewResolver none) "nonexistent-xyz123.invalid" (by decide)).1
      ⟨"nonexistent-xyz123.invalid", [], false, some "no such host"⟩ (by decide)).1⟩

/-- C13. On a cache miss `Resolve` issues at least one and at most three
lookups; a further lookup follows lookup `k` only if that one failed with a
temporary error; the completed backoff waits are 1s after the first failure
and 2s after the second; a lookup that succeeds or fails with a
non-temporary error is the last one. -/
theorem resolve_retry_policy (net : Net) (r : Resolver) (sub : String)
    (hmiss : mapLookup r.cache sub = none) :
    r.issued < (Resolve net r sub).2.issued
      ∧ (Resolve net r sub).2.issued ≤ r.issued + 3
      ∧ (∀ k, r.issued + k + 1 < (Resolve net r sub).2.issued →
          ∃ msg, net.lookupHost (r.issued + k) sub = LookupReply.fail msg true)
      ∧ (Resolve net r sub).2.slept
          = r.slept ++ backoffWaits ((Resolve net r sub).2.issued - r.issued)
      ∧ backoffWaits 1 = [] ∧ backoffWaits 2 = [1] ∧ backoffWaits 3 = [1, 2]
      ∧ (∀ k, r.issued + k < (Resolve net r sub).2.issued →
          ((∃ addrs, net.lookupHost (r.issued + k) sub = LookupReply.ok addrs)
            ∨ ∃ msg, net.lookupHost (r.issued + k) sub = LookupReply.fail msg false) →
          (Resolve net r sub).2.issued = r.issued + k + 1) := by
  rw [Resolve_of_miss net r sub hmiss]
  obtain ⟨n, h1, h3, hissued, hslept, _, _, _, hprev, _⟩ := resolveMiss_spec net r sub
  rw [hissued, hslept]
  have hn : r.issued + n - r.issued = n := by omega
  rw [hn]
  have hprev2 : ∀ k, r.issued + k + 1 < r.issued + n →
      ∃ msg, net.lookupHost (r.issued + k) sub = LookupReply.fail msg true := by
    intro k hk
    obtain ⟨msg, hm, _⟩ := hprev k (by omega)
    exact ⟨msg, hm⟩
  refine ⟨by omega, by omega, hprev2, rfl, rfl, rfl, rfl, ?_⟩
  intro k hk hlast
  by_cases hlt : r.issued + k + 1 < r.issued + n
  · obtain ⟨msg, hm⟩ := hprev2 k hlt
    rcases hlast with ⟨addrs, ha⟩ | ⟨msg2, hf⟩
    · rw [hm] at ha
      exact absurd ha (by simp)
    · rw [hm] at hf
      simp at hf
  · omega

/-- Witness of C13: two temporary failures, then an answer: three lookups
with waits of 1s and 2s. -/
theorem resolve_retry_policy_witness :
    mapLookup (NewResolver none).cache "a.example.com" = none
      ∧ (Resolve flakyNet (NewResolver none) "a.example.com").2.issued = 3
      ∧ (Resolve flakyNet (NewResolver none) "a.example.com").2.slept = [1, 2]
      ∧ (Resolve flakyNet (NewResolver none) "a.example.com").2.issued
          ≤ (NewResolver none).issued + 3 :=
  ⟨by decide, by decide, by decide,
    (resolve_retry_policy flakyNet (NewResolver none) "a.example.com" (by decide)).2.1⟩

/-- C14. In a result that `Resolve` produces on a cache miss, `Exists` holds
exactly when the final lookup succeeded with at least one address; then `IPs`
is the address list of that lookup, and otherwise `IPs` is empty. -/
theorem resolve_exists_iff_final_attempt (net : Net) (r : Resolver) (sub : String)
    (res : Result) (hmiss : mapLookup r.cache sub = none)
    (hres : (Resolve net r sub).1.1 = some res) :
    (res.Exists = true ↔
        ∃ addrs, net.lookupHost ((Resolve net r sub).2.issued - 1) sub = LookupReply.ok addrs
          ∧ addrs ≠ [])
      ∧ (res.Exists = true →
          net.lookupHost ((Resolve net r sub).2.issued - 1) sub = LookupReply.ok res.IPs)
      ∧ (res.Exists = false → res.IPs = []) := by
  rw [Resolve_of_miss net r sub hmiss] at hres ⊢
  obtain ⟨n, h1, _, hissued, _, _, _, _, _, hlast⟩ := resolveMiss_spec net r sub
  have hidx : (resolveMiss net r sub).2.issued - 1 = r.issued + (n - 1) := by
    rw [hissued]; omega
  rw [hidx]
  rcases hlast with ⟨addrs, res2, hlook, _, hips, hex, _, _, hout, _⟩
    | ⟨msg, temp, hlook, _, hout, _⟩ | ⟨msg, _, _, _, hout, _⟩
  · rw [hout] at hres
    simp only [Option.some.injEq] at hres
    subst hres
    rw [hlook, hex, hips]
    refine ⟨?_, ?_, ?_⟩
    · constructor
      · intro h
        refine ⟨addrs, rfl, ?_⟩
        intro hnil
        rw [hnil] at h
        simp at h
      · rintro ⟨a, ha, hne⟩
        simp only [LookupReply.ok.injEq] at ha
        subst ha
        simpa [List.length_pos] using hne
    · intro _; rfl
    · intro h
      simpa using h
  · rw [hout] at hres
    simp only [Option.some.injEq] at hres
    subst hres
    rw [hlook]
    simp
  · rw [hout] at hres
    simp at hres

/-- Witness of C14: the third lookup answers, the earlier two failed. -/
theorem resolve_exists_iff_final_attempt_witness :
    (Resolve flakyNet (NewResolver none) "a.example.com").1.1
        = some ⟨"a.example.com", ["10.0.0.1"], true, some "i/o timeout"⟩
      ∧ flakyNet.lookupHost
          ((Resolve flakyNet (NewResolver none) "a.example.com").2.issued - 1)
          "a.example.com" = LookupReply.ok ["10.0.0.1"] :=
  ⟨by decide,
    (resolve_exists_iff_final_attempt flakyNet (NewResolver none) "a.example.com"
      ⟨"a.example.com", ["10.0.0.1"], true, some "i/o timeout"⟩ (by decide) (by decide)).2.1
      rfl⟩

/-! ## `ResolveMany` delivers one result per resolution that returns one -/

end resolve

theorem getElem?_mid {α : Type} (l1 l2 : List α) (a : α) (i : Nat) (h : l1.length = i) :
    (l1 ++ a :: l2)[i]? = some a := by
  subst h
  induction l1 with
  | nil => simp
  | cons x xs ih => simpa using ih

theorem set_mid {α : Type} (l1 l2 : List α) (a b : α) (i : Nat) (h : l1.length = i) :
    (l1 ++ a :: l2).set i b = l1 ++ b :: l2 := by
  subst h
  simp

namespace resolve

/-! ## `ResolveMany` returns: the sequential schedule runs to the end -/

end resolve

theorem mapKeys_mapStore {β : Type} (m : List (String × β)) (k : String) (v : β) :
    mapKeys (mapStore m k v) = if mapContains m k then mapKeys m else mapKeys m ++ [k] := by
  unfold mapStore
  cases hc : mapContains m k with
  | false => simp [mapKeys]
  | true =>
    simp only [if_true]
    unfold mapKeys
    rw [List.map_map]
    apply List.map_congr_left
    intro e _
    simp only [Function.comp]
    split
    · next h =>
      have hk : e.1 = k := by simpa using h
      exact hk.symm
    · rfl

theorem nodup_mapKeys_mapStore {β : Type} (m : List (String × β)) (k : String) (v : β)
    (hm : (mapKeys m).Nodup) : (mapKeys (mapStore m k v)).Nodup := by
  rw [mapKeys_mapStore]
  cases hc : mapContains m k with
  | true => simpa using hm
  | false =>
    simp only [Bool.false_eq_true, if_false]
    rw [List.nodup_append]
    refine ⟨hm, List.nodup_singleton k, ?_⟩
    intro a ha hb
    rw [List.mem_singleton] at hb
    subst hb
    have := (mapContains_iff m a).2 ha
    rw [hc] at this
    simp at this

theorem mem_iff_mapLookup_of_nodup {β : Type} (m : List (String × β)) (k : String) (v : β)
    (hm : (mapKeys m).Nodup) : (k, v) ∈ m ↔ mapLookup m k = some v := by
  induction m with
  | nil => simp [mapLookup]
  | cons e rest ih =>
    have hm2 : (mapKeys rest).Nodup := (List.nodup_cons.1 hm).2
    have hne : e.1 ∉ mapKeys rest := (List.nodup_cons.1 hm).1
    by_cases hk : e.1 = k
    · have hl : mapLookup (e :: rest) k = some e.2 := by
        simp [mapLookup, List.find?_cons, hk]
      rw [hl, List.mem_cons]
      constructor
      · rintro (h | h)
        · rw [← h]
        · exfalso
          apply hne
          rw [hk]
          exact List.mem_map_of_mem Prod.fst h
      · intro h
        left
        simp only [Option.some.injEq] at h
        rw [← h, ← hk]
    · have hl : mapLookup (e :: rest) k = mapLookup rest k := by
        simp [mapLookup, List.find?_cons, hk]
      rw [hl, List.mem_cons, ← ih hm2]
      constructor
      · rintro (h | h)
        · exact absurd (by rw [← h]) hk
        · exact h
      · exact Or.inr

namespace resolve

/-! ## Facts about `findCommonIPs` -/

theorem incrCount_lookup (c : List (String × Nat)) (ip0 ip : String) :
    (mapLookup (incrCount c ip0) ip).getD 0
      = (mapLookup c ip).getD 0 + (if ip = ip0 then 1 else 0) := by
  unfold incrCount
  by_cases h : ip = ip0
  · subst h
    rw [mapLookup_mapStore_self]
    simp
  · rw [mapLookup_mapStore_ne _ _ _ _ h]
    simp [h]

theorem countList_lookup (ips seen : List String) (c : List (String × Nat)) (ip : String) :
    (mapLookup (countList ips seen c) ip).getD 0
      = (mapLookup c ip).getD 0 + (if ip ∈ ips ∧ ip ∉ seen then 1 else 0) := by
  induction ips generalizing seen c with
  | nil => simp [countList]
  | cons ip0 rest ih =>
    unfold countList
    by_cases hs : seen.contains ip0 = true
    · rw [if_pos hs, ih]
      have hs2 : ip0 ∈ seen := by simpa using hs
      by_cases h : ip = ip0
      · subst h
        simp [hs2]
      · simp [h]
    · rw [if_neg hs, ih, incrCount_lookup]
      have hs2 : ip0 ∉ seen := by simpa using hs
      by_cases h : ip = ip0
      · subst h
        simp [hs2]
      · simp [h]

theorem countList_nodup (ips seen : List String) (c : List (String × Nat))
    (hc : (mapKeys c).Nodup) : (mapKeys (countList ips seen c)).Nodup := by
  induction ips generalizing seen c with
  | nil => simpa [countList] using hc
  | cons ip0 rest ih =>
    unfold countList
    split
    · exact ih seen c hc
    · exact ih _ _ (nodup_mapKeys_mapStore _ _ _ hc)

theorem foldl_countList_lookup (ipLists : List (List String)) (c : List (String × Nat))
    (ip : String) :
    (mapLookup (ipLists.foldl (fun ipCount ips => countList ips [] ipCount) c) ip).getD 0
      = (mapLookup c ip).getD 0 + ipLists.countP (fun ips => ips.contains ip) := by
  induction ipLists generalizing c with
  | nil => simp
  | cons ips rest ih =>
    rw [List.foldl_cons, ih, countList_lookup, List.countP_cons]
    by_cases h : ip ∈ ips
    · simp [h]; omega
    · simp [h]

theorem foldl_countList_nodup (ipLists : List (List String)) (c : List (String × Nat))
    (hc : (mapKeys c).Nodup) :
    (mapKeys (ipLists.foldl (fun ipCount ips => countList ips [] ipCount) c)).Nodup := by
  induction ipLists generalizing c with
  | nil => simpa using hc
  | cons ips rest ih =>
    rw [List.foldl_cons]
    exact ih _ (countList_nodup ips [] c hc)

theorem countAll_lookup (ipLists : List (List String)) (ip : String) :
    (mapLookup (countAll ipLists) ip).getD 0
      = ipLists.countP (fun ips => ips.contains ip) := by
  unfold countAll
  rw [foldl_countList_lookup]
  simp [mapLookup]

theorem countAll_nodup (ipLists : List (List String)) :
    (mapKeys (countAll ipLists)).Nodup := by
  unfold countAll
  exact foldl_countList_nodup _ _ (by simp [mapKeys])

/-- An address is returned by `findCommonIPs` exactly when at least two of
the lists contain it. -/
theorem mem_findCommonIPs (ipLists : List (List String)) (ip : String) :
    ip ∈ findCommonIPs ipLists ↔ 2 ≤ ipLists.countP (fun ips => ips.contains ip) := by
  unfold findCommonIPs
  rw [← countAll_lookup]
  simp only [List.mem_map, List.mem_filter, decide_eq_true_eq]
  constructor
  · rintro ⟨e, ⟨he, hn⟩, rfl⟩
    have := (mem_iff_mapLookup_of_nodup (countAll ipLists) e.1 e.2
      (countAll_nodup ipLists)).1 he
    rw [this]
    exact hn
  · intro h
    cases hl : mapLookup (countAll ipLists) ip with
    | none => rw [hl] at h; simp at h
    | some n =>
      rw [hl] at h
      refine ⟨(ip, n), ⟨?_, by simpa using h⟩, rfl⟩
      exact (mem_iff_mapLookup_of_nodup (countAll ipLists) ip n
        (countAll_nodup ipLists)).2 hl

theorem nodup_findCommonIPs (ipLists : List (List String)) :
    (findCommonIPs ipLists).Nodup := by
  unfold findCommonIPs
  have h := countAll_nodup ipLists
  unfold mapKeys at h
  exact (List.filter_sublist _).map Prod.fst |>.nodup h

/-! ## Wildcard detection -/

theorem resolveMiss_wildcards (net : Net) (r : Resolver) (sub : String) :
    (resolveMiss net r sub).2.wildcards = r.wildcards := by
  obtain ⟨n, _, _, _, _, hw, _⟩ := resolveMiss_spec net r sub
  exact hw

theorem Resolve_wildcards (net : Net) (r : Resolver) (sub : String) :
    (Resolve net r sub).2.wildcards = r.wildcards := by
  cases hl : mapLookup r.cache sub with
  | some cached => rw [Resolve_of_hit net r sub cached hl]
  | none => rw [Resolve_of_miss net r sub hl]; exact resolveMiss_wildcards net r sub

theorem resolveProbes_wildcards (net : Net) (names : List String) (r : Resolver)
    (acc : List (List String)) :
    (resolveProbes net names r acc).2.wildcards = r.wildcards := by
  induction names generalizing r acc with
  | nil => rfl
  | cons sub rest ih =>
    unfold resolveProbes
    split
    · split
      · rw [ih, Resolve_wildcards]
      · rw [ih, Resolve_wildcards]
    · rw [ih, Resolve_wildcards]

theorem resolveProbes_length (net : Net) (names : List String) (r : Resolver)
    (acc : List (List String)) :
    (resolveProbes net names r acc).1.length
      = acc.length + (probeOutcomes net names r).countP probeResolved := by
  induction names generalizing r acc with
  | nil => simp [resolveProbes, probeOutcomes]
  | cons sub rest ih =>
    unfold resolveProbes probeOutcomes
    rw [List.countP_cons]
    split
    · next result heq =>
      split
      · next hex =>
        rw [ih, heq]
        simp [probeResolved, hex]
        omega
      · next hex =>
        rw [ih, heq]
        simp [probeResolved, hex]
    · next hne =>
      rw [ih]
      have : probeResolved (Resolve net r sub).1 = false := by
        unfold probeResolved
        split
        · next result heq => exact absurd heq (hne result)
        · rfl
      simp [this]

theorem probeNames_length (rnd : Nat → Nat → Nat) (domain : String) :
    (probeNames rnd domain).length = 3 := by
  simp [probeNames]

/-- C16. When no record exists for the domain and fewer than 2 of the 3
probes resolve (`err == nil` and `Exists`), `DetectWildcard` returns false,
an empty address set and a nil error, and the wildcard table is unchanged. -/
theorem detect_not_wildcard_when_few_probes_resolve (net : Net) (rnd : Nat → Nat → Nat)
    (r : Resolver) (domain : String) (hnone : mapLookup r.wildcards domain = none)
    (hfew : (probeOutcomes net (probeNames rnd domain) r).countP probeResolved < 2) :
    (DetectWildcard net rnd r domain).1 = (false, [], none)
      ∧ (DetectWildcard net rnd r domain).2.wildcards = r.wildcards
      ∧ (probeNames rnd domain).length = 3 := by
  have hlen := resolveProbes_length net (probeNames rnd domain) r []
  simp only [List.length_nil, Nat.zero_add] at hlen
  unfold DetectWildcard
  rw [hnone]
  simp only
  rw [if_neg (by omega)]
  exact ⟨rfl, resolveProbes_wildcards net _ r [], probeNames_length rnd domain⟩

/-- Witness of C16: no probe resolves. -/
theorem detect_not_wildcard_when_few_probes_resolve_witness :
    mapLookup (NewResolver none).wildcards "example.com" = none
      ∧ (probeOutcomes deadNet (probeNames firstDraw "example.com")
          (NewResolver none)).countP probeResolved < 2
      ∧ (DetectWildcard deadNet firstDraw (NewResolver none) "example.com").1
        = (false, [], none) :=
  ⟨by decide, by decide,
    (detect_not_wildcard_when_few_probes_resolve deadNet firstDraw (NewResolver none)
      "example.com" (by decide) (by decide)).1⟩

theorem findCommonIPs_pair (a : String) : findCommonIPs [[a], [a]] = [a] := by
  simp [findCommonIPs, countAll, countList, incrCount, mapStore, mapLookup, mapContains]

theorem findCommonIPs_disjoint (l1 l2 l3 : List String) (h12 : l1.Disjoint l2)
    (h13 : l1.Disjoint l3) (h23 : l2.Disjoint l3) : findCommonIPs [l1, l2, l3] = [] := by
  rw [List.eq_nil_iff_forall_not_mem]
  intro ip hip
  rw [mem_findCommonIPs] at hip
  simp only [List.countP_cons, List.countP_nil, List.contains_eq_any_beq, List.any_eq_true,
    beq_iff_eq, exists_eq_right] at hip
  by_cases m1 : ip ∈ l1 <;> by_cases m2 : ip ∈ l2 <;> by_cases m3 : ip ∈ l3
  · exact h12 m1 m2
  · exact h12 m1 m2
  · exact h13 m1 m3
  · simp [m1, m2, m3] at hip
  · exact h23 m2 m3
  · simp [m1, m2, m3] at hip
  · simp [m1, m2, m3] at hip
  · simp [m1, m2, m3] at hip

/-- The verdict of `DetectWildcard` when no record exists and at least two
probes resolved. -/
theorem DetectWildcard_of_probed (net : Net) (rnd : Nat → Nat → Nat) (r : Resolver)
    (domain : String) (hnone : mapLookup r.wildcards domain = none)
    (hmany : 2 ≤ (resolveProbes net (probeNames rnd domain) r []).1.length) :
    (DetectWildcard net rnd r domain).1
        = (decide (findCommonIPs (resolveProbes net (probeNames rnd domain) r []).1 ≠ []),
            findCommonIPs (resolveProbes net (probeNames rnd domain) r []).1, none) := by
  unfold DetectWildcard
  rw [hnone]
  simp only
  rw [if_pos hmany]
  split
  · next hpos =>
    have : findCommonIPs (resolveProbes net (probeNames rnd domain) r []).1 ≠ [] := by
      intro h
      rw [h] at hpos
      simp at hpos
    simp [this]
  · next hzero =>
    have : findCommonIPs (resolveProbes net (probeNames rnd domain) r []).1 = [] := by
      apply List.eq_nil_of_length_eq_zero
      omega
    simp [this]

/-- The lists handed to `findCommonIPs` by the probe loop are the address
lists of the probes that resolved, in the order of the probes. -/
theorem resolveProbes_eq (net : Net) (names : List String) (r : Resolver)
    (acc : List (List String)) :
    (resolveProbes net names r acc).1
      = acc ++ ((probeOutcomes net names r).filter probeResolved).map addressesOf := by
  induction names generalizing r acc with
  | nil => simp [resolveProbes, probeOutcomes]
  | cons sub rest ih =>
    unfold resolveProbes probeOutcomes
    split
    · next result heq =>
      split
      · next hex =>
        rw [ih, heq]
        simp [probeResolved, hex, addressesOf]
      · next hex =>
        rw [ih, heq]
        simp [probeResolved, hex]
    · next hne =>
      rw [ih]
      have : probeResolved (Resolve net r sub).1 = false := by
        unfold probeResolved
        split
        · next result heq => exact absurd heq (hne result)
        · rfl
      simp [this]

theorem countP_resolved_addresses (outs : List (Option Result × GoError)) (ip : String) :
    ((outs.filter probeResolved).map addressesOf).countP (fun ips => ips.contains ip)
      = outs.countP (fun o => probeResolved o && (addressesOf o).contains ip) := by
  induction outs with
  | nil => rfl
  | cons o rest ih =>
    by_cases hp : probeResolved o = true
    · rw [List.filter_cons_of_pos hp, List.map_cons, List.countP_cons, List.countP_cons, ih]
      simp [hp]
    · rw [List.filter_cons_of_neg hp, List.countP_cons, ih]
      simp [hp]

/-- C17. When no record exists and at least 2 probes resolved, the lists
handed to `findCommonIPs` are the address lists of the resolved probes, and
the set `DetectWildcard` returns holds, without duplicates, exactly the
addresses that occur in the address lists of at least two resolved probes, an
address repeated inside one list counting once; the verdict is true exactly
when that set is non-empty, and the error is nil. If the resolved probes are
two and both returned the single address `a`, the verdict is true with `[a]`;
if three probes resolved to pairwise disjoint lists, the verdict is false. -/
theorem detect_wildcard_iff_shared_address (net : Net) (rnd : Nat → Nat → Nat)
    (r : Resolver) (domain : String) (hnone : mapLookup r.wildcards domain = none)
    (hmany : 2 ≤ (probeOutcomes net (probeNames rnd domain) r).countP probeResolved) :
    (resolveProbes net (probeNames rnd domain) r []).1
        = ((probeOutcomes net (probeNames rnd domain) r).filter probeResolved).map addressesOf
      ∧ (∀ (ipLists : List (List String)) (ip : String),
        ip ∈ findCommonIPs ipLists ↔ 2 ≤ ipLists.countP (fun ips => ips.contains ip))
      ∧ (∀ ipLists : List (List String), (findCommonIPs ipLists).Nodup)
      ∧ (DetectWildcard net rnd r domain).1.2.1
        = findCommonIPs
            (((probeOutcomes net (probeNames rnd domain) r).filter probeResolved).map
              addressesOf)
      ∧ (∀ ip : String, ip ∈ (DetectWildcard net rnd r domain).1.2.1 ↔
          2 ≤ (probeOutcomes net (probeNames rnd domain) r).countP
                (fun o => probeResolved o && (addressesOf o).contains ip))
      ∧ (DetectWildcard net rnd r domain).1.2.1.Nodup
      ∧ ((DetectWildcard net rnd r domain).1.1 = true ↔
          (DetectWildcard net rnd r domain).1.2.1 ≠ [])
      ∧ (DetectWildcard net rnd r domain).1.2.2 = none
      ∧ (∀ a : String,
          ((probeOutcomes net (probeNames rnd domain) r).filter probeResolved).map addressesOf
              = [[a], [a]] →
          (DetectWildcard net rnd r domain).1 = (true, [a], none))
      ∧ (∀ l1 l2 l3 : List String,
          ((probeOutcomes net (probeNames rnd domain) r).filter probeResolved).map addressesOf
              = [l1, l2, l3] →
          l1.Disjoint l2 → l1.Disjoint l3 → l2.Disjoint l3 →
          (DetectWildcard net rnd r domain).1 = (false, [], none)) := by
  have hlen := resolveProbes_length net (probeNames rnd domain) r []
  simp only [List.length_nil, Nat.zero_add] at hlen
  have heq := resolveProbes_eq net (probeNames rnd domain) r []
  simp only [List.nil_append] at heq
  have hv := DetectWildcard_of_probed net rnd r domain hnone (by omega)
  rw [heq] at hv
  refine ⟨heq, mem_findCommonIPs, nodup_findCommonIPs, ?_, ?_, ?_, ?_, ?_, ?_, ?_⟩
  · rw [hv]
  · intro ip
    rw [hv]
    simp only
    rw [mem_findCommonIPs, countP_resolved_addresses]
  · rw [hv]
    exact nodup_findCommonIPs _
  · rw [hv]
    simp
  · rw [hv]
  · intro a ha
    rw [hv, ha, findCommonIPs_pair]
    simp
  · intro l1 l2 l3 hl h12 h13 h23
    rw [hv, hl, findCommonIPs_disjoint l1 l2 l3 h12 h13 h23]
    simp

/-- Witness of C17: the three probes resolve to two addresses each; the set
returned holds the two addresses that two probes share, and not the
addresses seen by one probe only. -/
theorem detect_wildcard_iff_shared_address_witness :
    mapLookup (NewResolver none).wildcards "example.com" = none
      ∧ (probeOutcomes overlapNet (probeNames firstDraw "example.com")
          (NewResolver none)).countP probeResolved = 3
      ∧ (DetectWildcard overlapNet firstDraw (NewResolver none) "example.com").1
        = (true, ["2.2.2.2", "3.3.3.3"], none)
      ∧ (resolveProbes overlapNet (probeNames firstDraw "example.com")
          (NewResolver none) []).1
        = [["1.1.1.1", "2.2.2.2"], ["2.2.2.2", "3.3.3.3"], ["3.3.3.3", "4.4.4.4"]]
      ∧ (DetectWildcard overlapNet firstDraw (NewResolver none) "example.com").1.2.1
        = findCommonIPs
            (((probeOutcomes overlapNet (probeNames firstDraw "example.com")
              (NewResolver none)).filter probeResolved).map addressesOf) :=
  ⟨by decide, by decide, by decide, by decide,
    (detect_wildcard_iff_shared_address overlapNet firstDraw (NewResolver none)
      "example.com" (by decide) (by decide)).2.2.2.1⟩

/-- C18, refuted as stated: the first call finds no resolving probe and
judges the domain not wildcard, which is recorded nowhere; the second call
draws and resolves three probes again (three more lookups), also when the
network is unchanged, and on a network that has changed it returns another
verdict. -/
theorem detect_twice_probes_again_after_negative :
    (DetectWildcard deadThenWildNet firstDraw (NewResolver none) "example.com").1
        = (false, [], none)
      ∧ (DetectWildcard deadThenWildNet firstDraw (NewResolver none) "example.com").2.issued
        = 3
      ∧ (DetectWildcard deadThenWildNet secondDraw
          (DetectWildcard deadThenWildNet firstDraw (NewResolver none) "example.com").2
          "example.com").2.issued = 6
      ∧ (DetectWildcard deadThenWildNet secondDraw
          (DetectWildcard deadThenWildNet firstDraw (NewResolver none) "example.com").2
          "example.com").1 = (true, ["6.6.6.6"], none)
      ∧ (DetectWildcard deadNet secondDraw
          (DetectWildcard deadNet firstDraw (NewResolver none) "example.com").2
          "example.com").2.issued = 6 := by
  decide

/-- C18, amended: when the first call judges the domain wildcard, a second
call for the same domain returns the same verdict, whatever the network and
the random source do by then, and leaves the resolver as it is: no probe is
generated or resolved. -/
theorem detect_twice_after_positive (net net2 : Net) (rnd rnd2 : Nat → Nat → Nat)
    (r : Resolver) (domain : String)
    (hpos : (DetectWildcard net rnd r domain).1.1 = true) :
    (DetectWildcard net2 rnd2 (DetectWildcard net rnd r domain).2 domain).1
        = (DetectWildcard net rnd r domain).1
      ∧ (DetectWildcard net2 rnd2 (DetectWildcard net rnd r domain).2 domain).2
        = (DetectWildcard net rnd r domain).2
      ∧ (DetectWildcard net2 rnd2 (DetectWildcard net rnd r domain).2 domain).2.issued
        = (DetectWildcard net rnd r domain).2.issued := by
  have key : DetectWildcard net2 rnd2 (DetectWildcard net rnd r domain).2 domain
      = ((DetectWildcard net rnd r domain).1, (DetectWildcard net rnd r domain).2) := by
    cases hl : mapLookup r.wildcards domain with
    | some ips =>
      have h1 : DetectWildcard net rnd r domain = ((true, ips, none), r) := by
        unfold DetectWildcard
        rw [hl]
      rw [h1]
      unfold DetectWildcard
      rw [hl]
    | none =>
      unfold DetectWildcard at hpos
      rw [hl] at hpos
      simp only at hpos
      split at hpos
      · next hmany =>
        split at hpos
        · next hcommon =>
          have h1 : DetectWildcard net rnd r domain
              = ((true, findCommonIPs (resolveProbes net (probeNames rnd domain) r []).1,
                    none),
                  { (resolveProbes net (probeNames rnd domain) r []).2 with
                    wildcards := mapStore
                      (resolveProbes net (probeNames rnd domain) r []).2.wildcards domain
                      (findCommonIPs (resolveProbes net (probeNames rnd domain) r []).1) }) := by
            unfold DetectWildcard
            rw [hl]
            simp only
            rw [if_pos hmany, if_pos hcommon]
          rw [h1]
          unfold DetectWildcard
          simp only
          rw [mapLookup_mapStore_self]
        · simp at hpos
      · simp at hpos
  rw [key]
  exact ⟨rfl, rfl, rfl⟩

/-- Witness of the amended C18: a wildcard verdict is served again although
no lookup would succeed any more. -/
theorem detect_twice_after_positive_witness :
    (DetectWildcard wildNet firstDraw (NewResolver none) "example.com").1.1 = true
      ∧ (DetectWildcard deadNet secondDraw
          (DetectWildcard wildNet firstDraw (NewResolver none) "example.com").2
          "example.com").1
        = (DetectWildcard wildNet firstDraw (NewResolver none) "example.com").1 :=
  ⟨by decide,
    (detect_twice_after_positive wildNet deadNet firstDraw secondDraw (NewResolver none)
      "example.com" (by decide)).1⟩

/-! ## The wildcard table only grows -/

theorem DetectWildcard_keeps_records (net : Net) (rnd : Nat → Nat → Nat) (r : Resolver)
    (domain d : String) (ips : List String) (h : mapLookup r.wildcards d = some ips) :
    mapLookup (DetectWildcard net rnd r domain).2.wildcards d = some ips := by
  unfold DetectWildcard
  cases hl : mapLookup r.wildcards domain with
  | some found => exact h
  | none =>
    simp only
    have hne : d ≠ domain := by
      intro heq
      rw [heq, hl] at h
      simp at h
    split
    · split
      · simp only
        rw [mapLookup_mapStore_ne _ _ _ _ hne, resolveProbes_wildcards]
        exact h
      · rw [resolveProbes_wildcards]
        exact h
    · rw [resolveProbes_wildcards]
      exact h

theorem IsWildcard_wildcards (net : Net) (r : Resolver) (sub domain : String) :
    (IsWildcard net r sub domain).2.wildcards = r.wildcards := by
  unfold IsWildcard
  split
  · rfl
  · split
    · split
      · exact Resolve_wildcards _ r sub
      · exact Resolve_wildcards _ r sub
    · exact Resolve_wildcards _ r sub

theorem filterLoop_wildcards (net : Net) (domain : String) (subs : List String)
    (r : Resolver) (acc : List String) :
    (filterLoop net domain subs r acc).2.wildcards = r.wildcards := by
  induction subs generalizing r acc with
  | nil => rfl
  | cons sub rest ih =>
    unfold filterLoop
    split
    · rw [ih, IsWildcard_wildcards]
    · rw [ih, IsWildcard_wildcards]

theorem FilterWildcard_keeps_records (net : Net) (rnd : Nat → Nat → Nat) (r : Resolver)
    (subs : List String) (domain d : String) (ips : List String)
    (h : mapLookup r.wildcards d = some ips) :
    mapLookup (FilterWildcard net rnd r subs domain).2.wildcards d = some ips := by
  have hd := DetectWildcard_keeps_records net rnd r domain d ips h
  unfold FilterWildcard
  split
  · exact hd
  · exact hd
  · simp only
    rw [filterLoop_wildcards]
    exact hd

theorem manyStep_wildcards (net : Net) (subs : List String) (workers : Int)
    (s s2 : ManyState) (e : ManyEvent)
    (hstep : manyStep net subs workers s e = some s2) :
    s2.resolver.wildcards = s.resolver.wildcards := by
  cases e with
  | acquire i =>
    simp only [manyStep] at hstep
    split at hstep
    · simp only [Option.some.injEq] at hstep
      subst hstep
      rfl
    · simp at hstep
  | load i =>
    simp only [manyStep] at hstep
    split at hstep
    · simp at hstep
    · split at hstep
      · split at hstep
        · split at hstep
          · simp only [Option.some.injEq] at hstep
            subst hstep
            rfl
          · simp at hstep
        · simp only [Option.some.injEq] at hstep
          subst hstep
          rfl
      · simp at hstep
  | complete i =>
    simp only [manyStep] at hstep
    split at hstep
    · simp at hstep
    · split at hstep
      · split at hstep
        · split at hstep
          · simp only [Option.some.injEq] at hstep
            subst hstep
            exact resolveMiss_wildcards net _ _
          · simp at hstep
        · simp only [Option.some.injEq] at hstep
          subst hstep
          exact resolveMiss_wildcards net _ _
      · simp at hstep
  | release i =>
    simp only [manyStep] at hstep
    split at hstep
    · simp only [Option.some.injEq] at hstep
      subst hstep
      rfl
    · simp at hstep
  | close =>
    simp only [manyStep] at hstep
    split at hstep
    · simp only [Option.some.injEq] at hstep
      subst hstep
      rfl
    · simp at hstep
  | receive =>
    simp only [manyStep] at hstep
    split at hstep
    · simp at hstep
    · simp only [Option.some.injEq] at hstep
      subst hstep
      rfl

theorem manyExecFrom_wildcards (net : Net) (subs : List String) (workers : Int)
    (schedule : List ManyEvent) (s s2 : ManyState)
    (hexec : manyExecFrom net subs workers s schedule = some s2) :
    s2.resolver.wildcards = s.resolver.wildcards := by
  induction schedule generalizing s with
  | nil =>
    simp only [manyExecFrom, Option.some.injEq] at hexec
    subst hexec
    rfl
  | cons e es ih =>
    simp only [manyExecFrom] at hexec
    cases hs : manyStep net subs workers s e with
    | none => rw [hs] at hexec; simp at hexec
    | some s1 =>
      rw [hs] at hexec
      rw [ih s1 hexec, manyStep_wildcards net subs workers s s1 e hs]

/-- C20. `IsWildcard` answers true exactly when a wildcard address set is
recorded for the domain, the hostname resolves (`Resolve` under the
background context returns a result with a nil error and `Exists`), and one
of its addresses belongs to that set. Without a record, or for a hostname
that does not resolve, the answer is false. -/
theorem isWildcard_iff (net : Net) (r : Resolver) (sub domain : String) :
    ((IsWildcard net r sub domain).1 = true ↔
        ∃ wildcardIPs result, mapLookup r.wildcards domain = some wildcardIPs
          ∧ (Resolve net.background r sub).1 = (some result, none)
          ∧ result.Exists = true
          ∧ ∃ ip, ip ∈ result.IPs ∧ ip ∈ wildcardIPs)
      ∧ (mapLookup r.wildcards domain = none → (IsWildcard net r sub domain).1 = false)
      ∧ (probeResolved (Resolve net.background r sub).1 = false →
          (IsWildcard net r sub domain).1 = false) := by
  unfold IsWildcard
  cases hl : mapLookup r.wildcards domain with
  | none => simp
  | some wips =>
    simp only
    split
    · next result heq =>
      split
      · next hex =>
        simp only [heq, probeResolved, hex]
        refine ⟨?_, by simp, by simp⟩
        constructor
        · intro h
          rw [List.any_eq_true] at h
          obtain ⟨ip, hip, hw⟩ := h
          rw [List.any_eq_true] at hw
          obtain ⟨w, hwm, hweq⟩ := hw
          have : ip = w := by simpa using hweq
          subst this
          exact ⟨wips, result, rfl, rfl, hex, ip, hip, hwm⟩
        · rintro ⟨w2, res2, hw2, hres2, _, ip, hip, hwm⟩
          simp only [Option.some.injEq] at hw2
          subst hw2
          simp only [Prod.mk.injEq, Option.some.injEq, and_true] at hres2
          subst hres2
          rw [List.any_eq_true]
          refine ⟨ip, hip, ?_⟩
          rw [List.any_eq_true]
          exact ⟨ip, hwm, by simp⟩
      · next hex =>
        simp only [heq, probeResolved]
        refine ⟨?_, by simp, by simp⟩
        constructor
        · intro h
          simp at h
        · rintro ⟨w2, res2, _, hres2, hex2, _⟩
          simp only [Prod.mk.injEq, Option.some.injEq, and_true] at hres2
          subst hres2
          exact absurd hex2 hex
    · next hne =>
      refine ⟨?_, by simp, by simp⟩
      constructor
      · intro h
        simp at h
      · rintro ⟨w2, res2, _, hres2, _⟩
        exact absurd hres2 (hne res2)

/-! ## Failures reported by the resolving engine -/

/-- C27, evaluated on the code: two temporary failures followed by an answer
give a result, returned and cached, with `Exists = true` and the second
failure as `Error`, because `lastErr` is not reset when a retried lookup
succeeds; the same answer given to the first lookup leaves `Error` nil. -/
theorem success_after_retry_keeps_error :
    (Resolve flakyNet (NewResolver none) "a.example.com").1
        = (some ⟨"a.example.com", ["10.0.0.1"], true, some "i/o timeout"⟩, none)
      ∧ mapLookup (Resolve flakyNet (NewResolver none) "a.example.com").2.cache
          "a.example.com"
        = some ⟨"a.example.com", ["10.0.0.1"], true, some "i/o timeout"⟩
      ∧ (Resolve flakyNet (NewResolver none) "a.example.com").2.issued = 3
      ∧ (Resolve answeringNet (NewResolver none) "a.example.com").1
        = (some ⟨"a.example.com", ["10.0.0.1"], true, none⟩, none) := by
  decide

/-- What the code leaves in `Error` of a result that `Resolve` builds on a
cache miss and that reports `Exists`: nil when the first lookup succeeded;
when the successful lookup came after retried ones, the temporary failure of
the lookup just before it. -/
theorem success_error_is_last_failure (net : Net) (r : Resolver) (sub : String)
    (res : Result) (hmiss : mapLookup r.cache sub = none)
    (hres : (Resolve net r sub).1.1 = some res) (hex : res.Exists = true) :
    ((Resolve net r sub).2.issued = r.issued + 1 → res.Error = none)
      ∧ (r.issued + 1 < (Resolve net r sub).2.issued →
          ∃ msg, net.lookupHost ((Resolve net r sub).2.issued - 2) sub
              = LookupReply.fail msg true
            ∧ res.Error = some msg) := by
  rw [Resolve_of_miss net r sub hmiss] at hres ⊢
  obtain ⟨n, h1, _, hissued, _, _, _, _, hprev, hlast⟩ := resolveMiss_spec net r sub
  rw [hissued]
  rcases hlast with ⟨addrs, res2, _, _, _, _, hfirst, hlater, hout, _⟩
    | ⟨msg, temp, _, _, hout, _⟩ | ⟨msg, _, _, _, hout, _⟩
  · rw [hout] at hres
    simp only [Option.some.injEq] at hres
    subst hres
    constructor
    · intro hn
      exact hfirst (by omega)
    · intro hn
      obtain ⟨msg, hm, _⟩ := hprev (n - 2) (by omega)
      have hidx : r.issued + n - 2 = r.issued + (n - 2) := by omega
      rw [hidx]
      exact ⟨msg, hm, hlater (n - 2) msg (by omega) hm⟩
  · rw [hout] at hres
    simp only [Option.some.injEq] at hres
    subst hres
    simp at hex
  · rw [hout] at hres
    simp at hres

/-- The stale failure on the retried success of `flakyNet`. -/
theorem success_error_is_last_failure_witness :
    (NewResolver none).issued + 1
        < (Resolve flakyNet (NewResolver none) "a.example.com").2.issued
      ∧ ∃ msg, flakyNet.lookupHost
            ((Resolve flakyNet (NewResolver none) "a.example.com").2.issued - 2)
            "a.example.com" = LookupReply.fail msg true
          ∧ (⟨"a.example.com", ["10.0.0.1"], true, some "i/o timeout"⟩ : Result).Error
            = some msg :=
  ⟨by decide,
    (success_error_is_last_failure flakyNet (NewResolver none) "a.example.com"
      ⟨"a.example.com", ["10.0.0.1"], true, some "i/o timeout"⟩ (by decide) (by decide)
      rfl).2 (by decide)⟩

theorem DetectWildcard_error (net : Net) (rnd : Nat → Nat → Nat) (r : Resolver)
    (domain : String) : (DetectWildcard net rnd r domain).1.2.2 = none := by
  unfold DetectWildcard
  split
  · rfl
  · simp only
    split
    · split <;> rfl
    · rfl

/-- C28. `DetectWildcard` returns a nil error for every domain, resolver
state, random source and behaviour of the lookups and of the context; a probe
whose `Resolve` returns an error or no result only counts as not resolved,
and `FilterWildcard`, which passes that error on, returns a nil error too. -/
theorem detect_never_fails (net : Net) (rnd : Nat → Nat → Nat) (r : Resolver)
    (domain : String) :
    (DetectWildcard net rnd r domain).1.2.2 = none
      ∧ (∀ o : Option Result × GoError, o.2 ≠ none ∨ o.1 = none → probeResolved o = false)
      ∧ (∀ subdomains : List String,
          (FilterWildcard net rnd r subdomains domain).1.2 = none) := by
  refine ⟨DetectWildcard_error net rnd r domain, ?_, ?_⟩
  · rintro ⟨res, err⟩ h
    unfold probeResolved
    split
    · next result heq =>
      simp only [Prod.mk.injEq] at heq
      rcases h with h | h
      · exact absurd heq.2 h
      · simp only at h
        rw [h] at heq
        simp at heq
    · rfl
  · intro subdomains
    have herr := DetectWildcard_error net rnd r domain
    unfold FilterWildcard
    split
    · next heq =>
      rw [heq] at herr
      simp at herr
    · rfl
    · rfl

/-! ## Probe hostnames -/

theorem charset_length : charset.length = 36 := by decide

theorem generateRandomString_data (rnd : Nat → Nat) (n : Nat) :
    (generateRandomString rnd n).data
      = (List.range n).map
          (fun i => charset.data.getD ((rnd i % 256) % charset.length) 'a') := rfl

theorem charset_getD_mem (k : Nat) :
    charset.data.getD (k % charset.length) 'a' ∈ charset.data := by
  have hlt : k % charset.length < charset.data.length := by
    have : charset.data.length = 36 := by decide
    rw [charset_length, this]
    exact Nat.mod_lt _ (by omega)
  rw [List.getD_eq_getElem _ _ hlt]
  exact List.getElem_mem hlt

/-- C24. For every length `n` and every random source, `generateRandomString`
returns exactly `n` characters, each taken from the 36 characters `a-z0-9` of
`charset`, the index `byte % 36` always lying inside `charset`; and
`DetectWildcard` builds exactly 3 probe hostnames, each a label of 16 such
characters followed by a dot and the domain. -/
theorem probe_labels_well_formed (rnd : Nat → Nat) (n : Nat) (rnds : Nat → Nat → Nat)
    (domain : String) :
    (generateRandomString rnd n).length = n
      ∧ (∀ c ∈ (generateRandomString rnd n).data, c ∈ charset.data)
      ∧ (∀ c ∈ charset.data, c.isLower = true ∨ c.isDigit = true)
      ∧ charset.length = 36
      ∧ (∀ i, (rnd i % 256) % charset.length < 36)
      ∧ (probeNames rnds domain).length = 3
      ∧ (∀ name ∈ probeNames rnds domain,
          ∃ i, i < 3 ∧ name = generateRandomString (rnds i) 16 ++ "." ++ domain
            ∧ (generateRandomString (rnds i) 16).length = 16
            ∧ ∀ c ∈ (generateRandomString (rnds i) 16).data, c ∈ charset.data) := by
  have hlen : ∀ (f : Nat → Nat) (m : Nat), (generateRandomString f m).length = m := by
    intro f m
    show (generateRandomString f m).data.length = m
    rw [generateRandomString_data]
    simp
  have hmem : ∀ (f : Nat → Nat) (m : Nat), ∀ c ∈ (generateRandomString f m).data,
      c ∈ charset.data := by
    intro f m c hc
    rw [generateRandomString_data, List.mem_map] at hc
    obtain ⟨i, _, rfl⟩ := hc
    exact charset_getD_mem _
  refine ⟨hlen rnd n, hmem rnd n, by decide, charset_length, ?_, probeNames_length rnds domain,
    ?_⟩
  · intro i
    rw [charset_length]
    exact Nat.mod_lt _ (by omega)
  · intro name hname
    unfold probeNames at hname
    rw [List.mem_map] at hname
    obtain ⟨i, hi, rfl⟩ := hname
    rw [List.mem_range] at hi
    exact ⟨i, hi, rfl, hlen _ _, hmem _ _⟩

/-! ## `FilterWildcard` -/

theorem FilterWildcard_eq (net : Net) (rnd : Nat → Nat → Nat) (r : Resolver)
    (subs : List String) (domain : String) :
    FilterWildcard net rnd r subs domain
      = filterAfterDetect net (DetectWildcard net rnd r domain) subs domain := rfl

/-- With a record for the domain, `IsWildcard` answers whether the hostname
resolves and one of its addresses is in the recorded set. -/
theorem IsWildcard_of_record (net : Net) (r : Resolver) (sub domain : String)
    (wips : List String) (hrec : mapLookup r.wildcards domain = some wips) :
    IsWildcard net r sub domain
      = (probeResolved (Resolve net.background r sub).1
            && intersects (addressesOf (Resolve net.background r sub).1) wips,
          (Resolve net.background r sub).2) := by
  unfold IsWildcard
  rw [hrec]
  simp only
  split
  · next result heq =>
    split
    · next hex =>
      simp only [heq, probeResolved, hex, addressesOf, intersects, Bool.true_and,
        List.contains_eq_any_beq]
    · next hex =>
      simp [heq, probeResolved, hex]
  · next hne =>
    have : probeResolved (Resolve net.background r sub).1 = false := by
      unfold probeResolved
      split
      · next result heq => exact absurd heq (hne result)
      · rfl
    simp [this]

theorem filterLoop_eq_keep (net : Net) (domain : String) (wips : List String)
    (subs : List String) (r : Resolver) (acc : List String)
    (hrec : mapLookup r.wildcards domain = some wips) :
    (filterLoop net domain subs r acc).1 = acc ++ keepNonWildcard net wips subs r := by
  induction subs generalizing r acc with
  | nil => simp [filterLoop, keepNonWildcard]
  | cons sub rest ih =>
    have hw := IsWildcard_of_record net r sub domain wips hrec
    have hrec2 : mapLookup (Resolve net.background r sub).2.wildcards domain = some wips := by
      rw [Resolve_wildcards]
      exact hrec
    unfold filterLoop keepNonWildcard
    rw [hw]
    simp only
    split
    · rw [ih _ _ hrec2]
      simp
    · rw [ih _ _ hrec2]
      simp

theorem keepNonWildcard_sublist (net : Net) (wips : List String) (subs : List String)
    (r : Resolver) : (keepNonWildcard net wips subs r).Sublist subs := by
  induction subs generalizing r with
  | nil => exact List.Sublist.slnil
  | cons sub rest ih =>
    unfold keepNonWildcard
    split
    · simp only [List.nil_append]
      exact (ih _).cons sub
    · simp only [List.singleton_append]
      exact (ih _).cons₂ sub

theorem DetectWildcard_positive_record (net : Net) (rnd : Nat → Nat → Nat) (r : Resolver)
    (domain : String) (hpos : (DetectWildcard net rnd r domain).1.1 = true) :
    mapLookup (DetectWildcard net rnd r domain).2.wildcards domain
      = some (DetectWildcard net rnd r domain).1.2.1 := by
  unfold DetectWildcard at hpos ⊢
  cases hl : mapLookup r.wildcards domain with
  | some ips => exact hl
  | none =>
    rw [hl] at hpos
    simp only at hpos ⊢
    split
    · split
      · simp only
        exact mapLookup_mapStore_self _ _ _
      · next hz =>
        rw [if_pos (by assumption), if_neg hz] at hpos
        simp at hpos
    · next hz =>
      rw [if_neg hz] at hpos
      simp at hpos

/-- C21. On a domain judged wildcard, `FilterWildcard` returns with a nil
error the input hostnames in their order, a hostname being removed exactly
when it resolves and its addresses intersect the recorded wildcard address
set; a hostname that does not resolve is kept; on a domain judged not
wildcard the input list comes back unchanged. -/
theorem filterWildcard_removes_wildcard_matches (net : Net) (rnd : Nat → Nat → Nat)
    (r : Resolver) (subs : List String) (domain : String) :
    ((DetectWildcard net rnd r domain).1.1 = false →
        (FilterWildcard net rnd r subs domain).1 = (subs, none))
      ∧ ((DetectWildcard net rnd r domain).1.1 = true →
          mapLookup (DetectWildcard net rnd r domain).2.wildcards domain
              = some (DetectWildcard net rnd r domain).1.2.1
            ∧ (FilterWildcard net rnd r subs domain).1
              = (keepNonWildcard net (DetectWildcard net rnd r domain).1.2.1 subs
                  (DetectWildcard net rnd r domain).2, none))
      ∧ (∀ (wips : List String) (r2 : Resolver),
          (keepNonWildcard net wips subs r2).Sublist subs)
      ∧ (∀ (wips : List String) (r2 : Resolver) (sub : String) (rest : List String),
          probeResolved (Resolve net.background r2 sub).1 = false →
          keepNonWildcard net wips (sub :: rest) r2
            = sub :: keepNonWildcard net wips rest (Resolve net.background r2 sub).2) := by
  have herr := DetectWildcard_error net rnd r domain
  refine ⟨?_, ?_, fun wips r2 => keepNonWildcard_sublist net wips subs r2, ?_⟩
  · intro hneg
    rw [FilterWildcard_eq]
    unfold filterAfterDetect
    split
    · next heq => rw [heq] at herr; simp at herr
    · rfl
    · next heq => rw [heq] at hneg; simp at hneg
  · intro hpos
    have hrec := DetectWildcard_positive_record net rnd r domain hpos
    refine ⟨hrec, ?_⟩
    rw [FilterWildcard_eq]
    unfold filterAfterDetect
    split
    · next heq => rw [heq] at herr; simp at herr
    · next heq => rw [heq] at hpos; simp at hpos
    · simp only
      rw [filterLoop_eq_keep net domain _ subs _ [] hrec]
      simp
  · intro wips r2 sub rest hnot
    simp [keepNonWildcard, hnot]

/-- Witness of C21: under a wildcard record `a` and `b` resolve to the
wildcard address and are removed, `www` has an address of its own and `gone`
does not resolve; both are kept, in their order. -/
theorem filterWildcard_removes_wildcard_matches_witness :
    (DetectWildcard mixedNet firstDraw (NewResolver none) "example.com").1.1 = true
      ∧ (FilterWildcard mixedNet firstDraw (NewResolver none)
          ["a.example.com", "www.example.com", "gone.example.com", "b.example.com"]
          "example.com").1
        = (["www.example.com", "gone.example.com"], none)
      ∧ (FilterWildcard mixedNet firstDraw (NewResolver none)
          ["a.example.com", "www.example.com", "gone.example.com", "b.example.com"]
          "example.com").1
        = (keepNonWildcard mixedNet
            (DetectWildcard mixedNet firstDraw (NewResolver none) "example.com").1.2.1
            ["a.example.com", "www.example.com", "gone.example.com", "b.example.com"]
            (DetectWildcard mixedNet firstDraw (NewResolver none) "example.com").2, none) :=
  ⟨by decide, by decide,
    ((filterWildcard_removes_wildcard_matches mixedNet firstDraw (NewResolver none)
      ["a.example.com", "www.example.com", "gone.example.com", "b.example.com"]
      "example.com").2.1 (by decide)).2⟩

/-- C22. If the detection returns a failure, `FilterWildcard` returns the
input list as it is together with that failure, whatever verdict and address
set came with it, and resolves no hostname. -/
theorem filterWildcard_fails_open (net : Net) (rnd : Nat → Nat → Nat) (r : Resolver)
    (subs : List String) (domain : String)
    (detected : (Bool × List String × GoError) × Resolver) (err : String)
    (hfail : detected.1.2.2 = some err) :
    filterAfterDetect net detected subs domain = ((subs, some err), detected.2)
      ∧ FilterWildcard net rnd r subs domain
        = filterAfterDetect net (DetectWildcard net rnd r domain) subs domain := by
  refine ⟨?_, rfl⟩
  obtain ⟨⟨verdict, ips, e⟩, r2⟩ := detected
  simp only at hfail
  subst hfail
  unfold filterAfterDetect
  cases verdict <;> rfl

/-- Witness of C22: a detection that reports a failure together with a
positive verdict still leaves the list unfiltered. -/
theorem filterWildcard_fails_open_witness :
    filterAfterDetect wildNet ((true, ["6.6.6.6"], some "detection failed"), NewResolver none)
        ["a.example.com", "b.example.com"] "example.com"
      = ((["a.example.com", "b.example.com"], some "detection failed"), NewResolver none) :=
  (filterWildcard_fails_open wildNet firstDraw (NewResolver none)
    ["a.example.com", "b.example.com"] "example.com"
    ((true, ["6.6.6.6"], some "detection failed"), NewResolver none) "detection failed"
    rfl).1

end resolve

theorem mapKeys_foldl_insert_congr {β γ : Type} (f : List (String × β) → String → β)
    (g : List (String × γ) → String → γ) (subs : List String) (m : List (String × β))
    (m2 : List (String × γ)) (h : mapKeys m = mapKeys m2) :
    mapKeys (subs.foldl (fun acc s => insertIfAbsent acc s (f acc s)) m)
      = mapKeys (subs.foldl (fun acc s => insertIfAbsent acc s (g acc s)) m2) := by
  induction subs generalizing m m2 with
  | nil => exact h
  | cons s rest ih =>
    rw [List.foldl_cons, List.foldl_cons]
    apply ih
    rw [mapKeys_insertIfAbsent, mapKeys_insertIfAbsent, h]

namespace runner

/-! ## `Run` and `RunWithMetadata` agree -/

theorem collectStep_agree (st : Collected) (st2 : CollectedMeta) (r : Result)
    (hk : mapKeys st.subdomainMap = mapKeys st2.subdomainMap) (he : st.errors = st2.errors) :
    mapKeys (collectStep st r).subdomainMap = mapKeys (collectStepMeta st2 r).subdomainMap
      ∧ (collectStep st r).errors = (collectStepMeta st2 r).errors := by
  unfold collectStep collectStepMeta
  cases hE : r.Error with
  | some msg => exact ⟨hk, by simp [he]⟩
  | none =>
    refine ⟨?_, he⟩
    simp only
    rw [recordSubdomains_eq, recordSubdomainsMeta_eq]
    exact mapKeys_foldl_insert_congr _ _ _ _ _ hk

theorem foldl_collect_agree (outs : List Result) (st : Collected) (st2 : CollectedMeta)
    (hk : mapKeys st.subdomainMap = mapKeys st2.subdomainMap) (he : st.errors = st2.errors) :
    mapKeys (outs.foldl collectStep st).subdomainMap
        = mapKeys (outs.foldl collectStepMeta st2).subdomainMap
      ∧ (outs.foldl collectStep st).errors = (outs.foldl collectStepMeta st2).errors := by
  induction outs generalizing st st2 with
  | nil => exact ⟨hk, he⟩
  | cons r rest ih =>
    rw [List.foldl_cons, List.foldl_cons]
    obtain ⟨h1, h2⟩ := collectStep_agree st st2 r hk he
    exact ih _ _ h1 h2

theorem collect_agree (outs : List Result) :
    mapKeys (collect outs).subdomainMap = mapKeys (collectMeta outs).subdomainMap
      ∧ (collect outs).errors = (collectMeta outs).errors :=
  foldl_collect_agree outs _ _ rfl rfl

theorem map_host_orderedInsert (a : SubdomainResult) (l : List SubdomainResult) :
    (l.orderedInsert hostLE a).map (fun v => v.Host)
      = (l.map (fun v => v.Host)).orderedInsert strLE a.Host := by
  induction l with
  | nil => rfl
  | cons b rest ih =>
    simp only [List.orderedInsert, List.map_cons]
    by_cases h : hostLE a b
    · have h2 : strLE a.Host b.Host := h
      rw [if_pos h, if_pos h2]
      rfl
    · have h2 : ¬ strLE a.Host b.Host := h
      rw [if_neg h, if_neg h2, List.map_cons, ih]

theorem map_host_insertionSort (l : List SubdomainResult) :
    (l.insertionSort hostLE).map (fun v => v.Host)
      = sortStrings (l.map (fun v => v.Host)) := by
  unfold sortStrings
  induction l with
  | nil => rfl
  | cons a rest ih =>
    simp only [List.insertionSort, List.map_cons]
    rw [map_host_orderedInsert, ih]

/-- C26. For every domain and every sequence of received outcomes, `Run` and
`RunWithMetadata` return the same error (nil in the same cases, and the same
message otherwise), and the `Host` fields of the records of
`RunWithMetadata` are, element by element, the list returned by `Run`. -/
theorem run_and_metadata_agree (domain : String) (outcomes : List Result) :
    (RunWithMetadata domain outcomes).2 = (Run domain outcomes).2
      ∧ ((RunWithMetadata domain outcomes).2 ≠ none ↔ (Run domain outcomes).2 ≠ none)
      ∧ (RunWithMetadata domain outcomes).1.map (fun v => v.Host)
        = (Run domain outcomes).1 := by
  obtain ⟨hk, he⟩ := collect_agree outcomes
  have hsorted : (((collectMeta outcomes).subdomainMap.map Prod.snd).insertionSort
        hostLE).map (fun v => v.Host)
      = sortStrings (mapKeys (collect outcomes).subdomainMap) := by
    rw [map_host_insertionSort, collectMeta_hosts, hk]
  have herr : (RunWithMetadata domain outcomes).2 = (Run domain outcomes).2 := by
    unfold RunWithMetadata Run
    by_cases hd : domain = ""
    · rw [if_pos hd, if_pos hd]
    · rw [if_neg hd, if_neg hd]
      simp only
      have hlen : (((collectMeta outcomes).subdomainMap.map Prod.snd).insertionSort
          hostLE).length = (sortStrings (mapKeys (collect outcomes).subdomainMap)).length := by
        rw [← hsorted, List.length_map]
      rw [hlen, he]
      split <;> rfl
  refine ⟨herr, by rw [herr], ?_⟩
  by_cases hd : domain = ""
  · subst hd
    rw [RunWithMetadata_nil_of_empty_domain, Run_nil_of_empty_domain]
    rfl
  · rw [RunWithMetadata_fst domain outcomes hd, Run_fst domain outcomes hd]
    exact hsorted

end runner

namespace resolve

/-! ## `ValidateDomain` -/

theorem splitOnDot_length (l : List Char) : (splitOnDot l).length = l.count '.' + 1 := by
  induction l with
  | nil => rfl
  | cons c rest ih =>
    unfold splitOnDot
    by_cases hc : c = '.'
    · subst hc
      simp [ih]
    · rw [if_neg hc, List.count_cons_of_ne (Ne.symm hc)]
      cases hs : splitOnDot rest with
      | nil => rw [hs] at ih; simp at ih
      | cons p ps =>
        rw [hs] at ih
        simpa using ih

/-- C23. For every case table of `unicode.ToLower`, `ValidateDomain` returns
an error exactly when the domain, trimmed of its Unicode white space and
lower-cased, is empty, contains a space, starts or ends with a dot, or
contains no dot (fewer than two dot-separated parts); the eight cases of
`TestValidateDomain` come out as the test expects, and a no-break space
before the leading dot is trimmed like any other white space. -/
theorem validateDomain_error_iff (lower : Char → Char) (d : String) :
    (ValidateDomain lower d ≠ none ↔
        toLower lower (trimSpace d) = ""
          ∨ ' ' ∈ (toLower lower (trimSpace d)).data
          ∨ (toLower lower (trimSpace d)).data.head? = some '.'
          ∨ (toLower lower (trimSpace d)).data.getLast? = some '.'
          ∨ '.' ∉ (toLower lower (trimSpace d)).data)
      ∧ ((splitOnDot (toLower lower (trimSpace d)).data).length < 2 ↔
          '.' ∉ (toLower lower (trimSpace d)).data)
      ∧ ValidateDomain lower "example.com" = none
      ∧ ValidateDomain lower "sub.example.com" = none
      ∧ ValidateDomain lower "test.co.uk" = none
      ∧ ValidateDomain lower "" ≠ none
      ∧ ValidateDomain lower "invalid domain" ≠ none
      ∧ ValidateDomain lower ".example.com" ≠ none
      ∧ ValidateDomain lower "example.com." ≠ none
      ∧ ValidateDomain lower "example" ≠ none
      ∧ ValidateDomain lower (String.mk (Char.ofNat 0xA0 :: ".example.com".data))
        = some "domain cannot start or end with a dot"
      ∧ ValidateDomain lower (String.mk ("Example.COM".data ++ [Char.ofNat 0x3000]))
        = none := by
  have hsplit : (splitOnDot (toLower lower (trimSpace d)).data).length < 2 ↔
      '.' ∉ (toLower lower (trimSpace d)).data := by
    rw [splitOnDot_length, ← List.count_eq_zero]
    omega
  have e1 : ValidateDomain lower "example.com" = none := rfl
  have e2 : ValidateDomain lower "sub.example.com" = none := rfl
  have e3 : ValidateDomain lower "test.co.uk" = none := rfl
  have e4 : ValidateDomain lower "" = some "domain cannot be empty" := rfl
  have e5 : ValidateDomain lower "invalid domain" = some "domain cannot contain spaces" :=
    rfl
  have e6 : ValidateDomain lower ".example.com"
      = some "domain cannot start or end with a dot" := rfl
  have e7 : ValidateDomain lower "example.com."
      = some "domain cannot start or end with a dot" := rfl
  have e8 : ValidateDomain lower "example" = some "domain must have at least two parts" :=
    rfl
  refine ⟨?_, hsplit, e1, e2, e3, by rw [e4]; simp, by rw [e5]; simp, by rw [e6]; simp,
    by rw [e7]; simp, by rw [e8]; simp, rfl, rfl⟩
  unfold ValidateDomain
  simp only
  by_cases h1 : toLower lower (trimSpace d) = ""
  · simp [h1]
  · rw [if_neg h1]
    by_cases h2 : (toLower lower (trimSpace d)).data.contains ' ' = true
    · rw [if_pos h2]
      have : ' ' ∈ (toLower lower (trimSpace d)).data := by simpa using h2
      simp [this]
    · rw [if_neg h2]
      have hn2 : ' ' ∉ (toLower lower (trimSpace d)).data := by simpa using h2
      by_cases h3 : (toLower lower (trimSpace d)).data.head? = some '.'
          ∨ (toLower lower (trimSpace d)).data.getLast? = some '.'
      · rw [if_pos h3]
        simp only [ne_eq, reduceCtorEq, not_false_eq_true, true_iff]
        rcases h3 with h3 | h3
        · exact Or.inr (Or.inr (Or.inl h3))
        · exact Or.inr (Or.inr (Or.inr (Or.inl h3)))
      · rw [if_neg h3]
        have h3a : ¬ (toLower lower (trimSpace d)).data.head? = some '.' :=
          fun h => h3 (Or.inl h)
        have h3b : ¬ (toLower lower (trimSpace d)).data.getLast? = some '.' :=
          fun h => h3 (Or.inr h)
        by_cases h4 : (splitOnDot (toLower lower (trimSpace d)).data).length < 2
        · rw [if_pos h4]
          simp only [ne_eq, reduceCtorEq, not_false_eq_true, true_iff]
          exact Or.inr (Or.inr (Or.inr (Or.inr (hsplit.1 h4))))
        · rw [if_neg h4]
          simp only [ne_eq, not_true_eq_false, false_iff]
          rintro (h | h | h | h | h)
          · exact h1 h
          · exact hn2 h
          · exact h3a h
          · exact h3b h
          · exact h4 (hsplit.2 h)

end resolve

namespace filter

/-! ## `Filter.Apply` -/

theorem anyMatch_eq_any (ps : List Regexp) (s : String) :
    anyMatch ps s = ps.any (fun p => p.MatchString s) := by
  induction ps with
  | nil => rfl
  | cons p rest ih =>
    unfold anyMatch
    cases h : p.MatchString s with
    | true => simp [h]
    | false => simp [h, ih]

theorem applyLoop_eq_filter (f : Filter) (subs acc : List String) :
    applyLoop f subs acc = acc ++ subs.filter f.keeps := by
  induction subs generalizing acc with
  | nil => simp [applyLoop]
  | cons s rest ih =>
    unfold applyLoop
    rw [anyMatch_eq_any, anyMatch_eq_any]
    cases hm : f.matchPatterns with
    | nil =>
      cases he : f.excludePatterns.any (fun p => p.MatchString s) with
      | true =>
        have hk : f.keeps s = false := by simp [Filter.keeps, hm, he]
        simp [ih, List.filter_cons, hk]
      | false =>
        have hk : f.keeps s = true := by simp [Filter.keeps, hm, he]
        simp [ih, List.filter_cons, hk]
    | cons p ps =>
      cases hany : (p :: ps).any (fun q => q.MatchString s) with
      | false =>
        have hk : f.keeps s = false := by simp [Filter.keeps, hm, hany]
        simp [ih, List.filter_cons, hk]
      | true =>
        cases he : f.excludePatterns.any (fun p => p.MatchString s) with
        | true =>
          have hk : f.keeps s = false := by simp [Filter.keeps, hm, he]
          simp [ih, List.filter_cons, hk]
        | false =>
          have hk : f.keeps s = true := by simp [Filter.keeps, hm, hany, he]
          simp [ih, List.filter_cons, hk]

theorem Apply_eq_filter (f : Filter) (subs : List String) :
    f.Apply subs = subs.filter f.keeps := by
  unfold Filter.Apply
  split
  · next h =>
    have hm : f.matchPatterns = [] := List.length_eq_zero.1 h.1
    have he : f.excludePatterns = [] := List.length_eq_zero.1 h.2
    symm
    rw [List.filter_eq_self]
    intro s _
    simp [Filter.keeps, hm, he]
  · rw [applyLoop_eq_filter]
    simp

/-- C29. `Filter.Apply` keeps a hostname exactly when no match pattern is
configured or one of them matches it, and no exclude pattern matches it: the
output is the input filtered by that rule, hence a subsequence of the input
in its order, and without any pattern the input comes back unchanged. -/
theorem apply_keeps_iff (f : Filter) (subs : List String) :
    f.Apply subs = subs.filter f.keeps
      ∧ (∀ s, s ∈ f.Apply subs ↔ s ∈ subs ∧ f.keeps s = true)
      ∧ (∀ s, f.keeps s = true ↔
          (f.matchPatterns = [] ∨ ∃ p ∈ f.matchPatterns, p.MatchString s = true)
            ∧ ¬ ∃ p ∈ f.excludePatterns, p.MatchString s = true)
      ∧ (f.Apply subs).Sublist subs
      ∧ (f.matchPatterns = [] → f.excludePatterns = [] → f.Apply subs = subs)
      ∧ NewFilter.Apply subs = subs := by
  have h := Apply_eq_filter f subs
  refine ⟨h, ?_, ?_, ?_, ?_, rfl⟩
  · intro s
    rw [h, List.mem_filter]
  · intro s
    simp only [Filter.keeps, Bool.and_eq_true, Bool.or_eq_true, List.isEmpty_iff,
      List.any_eq_true, Bool.not_eq_true', Bool.eq_false_iff, ne_eq]
  · rw [h]
    exact List.filter_sublist subs
  · intro hm he
    unfold Filter.Apply
    rw [if_pos]
    simp [hm, he]

/-- Witness of C29: with the match pattern `api.` and the exclude pattern
`api.dev`, only the first of three hostnames is kept; without patterns the
input comes back unchanged. -/
theorem apply_keeps_iff_witness :
    Filter.Apply ⟨[startsWith "api."], [startsWith "api.dev"]⟩
        ["api.a.com", "www.a.com", "api.dev.a.com"] = ["api.a.com"]
      ∧ NewFilter.Apply ["api.a.com", "www.a.com"] = ["api.a.com", "www.a.com"] :=
  ⟨(apply_keeps_iff ⟨[startsWith "api."], [startsWith "api.dev"]⟩
      ["api.a.com", "www.a.com", "api.dev.a.com"]).1.trans (by decide),
    (apply_keeps_iff NewFilter ["api.a.com", "www.a.com"]).2.2.2.2.1 rfl rfl⟩

end filter

namespace config

/-! ## `toUpperSnakeCase` -/

theorem snakeLoop_keeps_chars (first : Bool) (l : List Char) (c : Char) (hc : c ∈ l) :
    c ∈ snakeLoop first l := by
  induction l generalizing first with
  | nil => exact absurd hc (List.not_mem_nil _)
  | cons r rest ih =>
    unfold snakeLoop
    rw [List.mem_append]
    rcases List.mem_cons.1 hc with h | h
    · left
      subst h
      split <;> simp
    · exact Or.inr (ih false h)

/-- C30, evaluated on the code: `toUpperSnakeCase` copies every character of
its input unchanged and only puts an underscore before an upper-case letter
that is not the first character, so `alienvault` stays `alienvault` and the
environment variables consulted are `alienvault_API_KEY` and
`SUBFINDER_alienvault_API_KEY`. -/
theorem toUpperSnakeCase_keeps_lower_case :
    toUpperSnakeCase "alienvault" = "alienvault"
      ∧ envVars "alienvault" = ["alienvault_API_KEY", "SUBFINDER_alienvault_API_KEY"]
      ∧ toUpperSnakeCase "virusTotal" = "virus_Total"
      ∧ (∀ (s : String) (c : Char), c ∈ s.data → c ∈ (toUpperSnakeCase s).data)
      ∧ getEnvAPIKey (fun name => if name = "ALIENVAULT_API_KEY" then "secret" else "")
          "alienvault" = "" := by
  refine ⟨by decide, by decide, by decide, ?_, by decide⟩
  intro s c hc
  exact snakeLoop_keeps_chars true s.data c hc

end config

namespace runner

/-! ## Every task is drained before `Run` returns -/

theorem sourceTask_of_abort (r : Runner) (waitErr : GoError) (ctx : Context)
    (domain : String) (src : Source) (err : String)
    (h : limiterCheck r waitErr src = some err) :
    (sourceTask r waitErr ctx domain src).invocations = 0
      ∧ (sourceTask r waitErr ctx domain src).sent = [abortOutcome src err] := by
  unfold sourceTask
  rw [h]
  exact ⟨rfl, rfl⟩

theorem sourceTask_of_pass (r : Runner) (waitErr : GoError) (ctx : Context)
    (domain : String) (src : Source) (h : limiterCheck r waitErr src = none) :
    (sourceTask r waitErr ctx domain src).invocations = 1
      ∧ (sourceTask r waitErr ctx domain src).sent
        = [⟨src.name, (src.run ctx domain).1, (src.run ctx domain).2⟩] := by
  unfold sourceTask
  rw [h]
  exact ⟨rfl, rfl⟩

theorem sourceTask_sent_length (r : Runner) (waitErr : GoError) (ctx : Context)
    (domain : String) (src : Source) :
    (sourceTask r waitErr ctx domain src).sent.length = 1 := by
  unfold sourceTask
  split <;> rfl

theorem taskOutcomes_length (r : Runner) (waitErr : Nat → GoError) (ctx : Context)
    (domain : String) : (taskOutcomes r waitErr ctx domain).length = r.sources.length := by
  unfold taskOutcomes
  generalize r.sources = srcs
  generalize 0 = k
  induction srcs generalizing k with
  | nil => rfl
  | cons src rest ih =>
    simp only [sentFrom, List.flatten_cons, List.length_append, List.length_cons]
    rw [ih (k + 1), sourceTask_sent_length]
    omega

/-- The invocation log stays consistent when the phase of task `i0` changes
and the log changes accordingly. -/
theorem logged_set (r : Runner) (waitErr : Nat → GoError) (ctx : Context) (domain : String)
    (s : RunState) (i0 : Nat) (old new : Phase) (inv2 : List Nat)
    (hold : s.phases[i0]? = some old)
    (hlog : s.invocationsLogged r waitErr ctx domain)
    (hother : ∀ i, i ≠ i0 → inv2.count i = s.invoked.count i)
    (hself : ∀ src, r.sources[i0]? = some src →
      inv2.count i0
        = if new.pastStart then (sourceTask r (waitErr i0) ctx domain src).invocations
          else 0) :
    ∀ i src p, r.sources[i]? = some src → (s.phases.set i0 new)[i]? = some p →
      inv2.count i
        = if p.pastStart then (sourceTask r (waitErr i) ctx domain src).invocations
          else 0 := by
  intro i src p hsrc hp
  by_cases hi : i = i0
  · subst hi
    obtain ⟨hlt, _⟩ := List.getElem?_eq_some_iff.1 hold
    rw [List.getElem?_set_self hlt] at hp
    simp only [Option.some.injEq] at hp
    subst hp
    exact hself src hsrc
  · rw [List.getElem?_set_ne (Ne.symm hi)] at hp
    rw [hother i hi]
    exact hlog i src p hsrc hp

theorem step_keeps_logged (r : Runner) (waitErr : Nat → GoError) (ctx : Context)
    (domain : String) (s s2 : RunState) (e : Event)
    (hstep : step r waitErr ctx domain s e = some s2)
    (hlog : s.invocationsLogged r waitErr ctx domain) :
    s2.invocationsLogged r waitErr ctx domain := by
  unfold RunState.invocationsLogged
  cases e with
  | acquire i =>
    simp only [step] at hstep
    split at hstep
    · next hc =>
      simp only [Option.some.injEq] at hstep
      subst hstep
      refine logged_set r waitErr ctx domain s i Phase.waiting Phase.holding s.invoked hc.1
        hlog (fun _ _ => rfl) ?_
      intro src hsrc
      exact hlog i src Phase.waiting hsrc hc.1
    · simp at hstep
  | abort i =>
    simp only [step] at hstep
    split at hstep
    · simp at hstep
    · next src0 hsrc0 =>
      split at hstep
      · next hc =>
        simp only [Option.some.injEq] at hstep
        subst hstep
        refine logged_set r waitErr ctx domain s i Phase.holding Phase.sent s.invoked hc.1
          hlog (fun _ _ => rfl) ?_
        intro src hsrc
        rw [hsrc0] at hsrc
        simp only [Option.some.injEq] at hsrc
        subst hsrc
        have h0 := hlog i src0 Phase.holding hsrc0 hc.1
        simp only [Phase.pastStart] at h0 ⊢
        obtain ⟨err, herr⟩ := Option.isSome_iff_exists.1 hc.2.1
        rw [h0, (sourceTask_of_abort r (waitErr i) ctx domain src0 err herr).1]
        rfl
      · simp at hstep
  | start i =>
    simp only [step] at hstep
    split at hstep
    · simp at hstep
    · next src0 hsrc0 =>
      split at hstep
      · next hc =>
        simp only [Option.some.injEq] at hstep
        subst hstep
        refine logged_set r waitErr ctx domain s i Phase.holding Phase.running
          (s.invoked ++ [i]) hc.1 hlog ?_ ?_
        · intro j hj
          rw [List.count_append, List.count_singleton]
          simp [Ne.symm hj]
        · intro src hsrc
          rw [hsrc0] at hsrc
          simp only [Option.some.injEq] at hsrc
          subst hsrc
          have h0 := hlog i src0 Phase.holding hsrc0 hc.1
          simp only [Phase.pastStart] at h0 ⊢
          have hnone : limiterCheck r (waitErr i) src0 = none := by
            simpa using hc.2
          rw [List.count_append, List.count_singleton, h0,
            (sourceTask_of_pass r (waitErr i) ctx domain src0 hnone).1]
          simp
      · simp at hstep
  | finish i =>
    simp only [step] at hstep
    split at hstep
    · simp at hstep
    · next src0 hsrc0 =>
      split at hstep
      · next hc =>
        simp only [Option.some.injEq] at hstep
        subst hstep
        refine logged_set r waitErr ctx domain s i Phase.running Phase.sent s.invoked hc.1
          hlog (fun _ _ => rfl) ?_
        intro src hsrc
        exact hlog i src Phase.running hsrc hc.1
      · simp at hstep
  | release i =>
    simp only [step] at hstep
    split at hstep
    · next hc =>
      simp only [Option.some.injEq] at hstep
      subst hstep
      refine logged_set r waitErr ctx domain s i Phase.sent Phase.done s.invoked hc.1
        hlog (fun _ _ => rfl) ?_
      intro src hsrc
      exact hlog i src Phase.sent hsrc hc.1
    · simp at hstep
  | close =>
    simp only [step] at hstep
    split at hstep
    · simp only [Option.some.injEq] at hstep
      subst hstep
      exact hlog
    · simp at hstep
  | receive =>
    simp only [step] at hstep
    split at hstep
    · simp at hstep
    · simp only [Option.some.injEq] at hstep
      subst hstep
      exact hlog

theorem execFrom_keeps_logged (r : Runner) (waitErr : Nat → GoError) (ctx : Context)
    (domain : String) (schedule : List Event) (s s2 : RunState)
    (hexec : execFrom r waitErr ctx domain s schedule = some s2)
    (hlog : s.invocationsLogged r waitErr ctx domain) :
    s2.invocationsLogged r waitErr ctx domain := by
  induction schedule generalizing s with
  | nil =>
    simp only [execFrom, Option.some.injEq] at hexec
    subst hexec
    exact hlog
  | cons e es ih =>
    simp only [execFrom] at hexec
    cases hs : step r waitErr ctx domain s e with
    | none => rw [hs] at hexec; simp at hexec
    | some s1 =>
      rw [hs] at hexec
      exact ih s1 hexec (step_keeps_logged r waitErr ctx domain s s1 e hs hlog)

theorem initState_logged (r : Runner) (waitErr : Nat → GoError) (ctx : Context)
    (domain : String) (s : RunState) (h : initState r = some s) :
    s.invocationsLogged r waitErr ctx domain := by
  unfold initState at h
  split at h
  · simp at h
  · simp only [Option.some.injEq] at h
    subst h
    intro i src p _ hp
    simp only [List.getElem?_map, Option.map_eq_some'] at hp
    obtain ⟨_, _, rfl⟩ := hp
    rfl

theorem execFrom_append (r : Runner) (waitErr : Nat → GoError) (ctx : Context)
    (domain : String) (es1 es2 : List Event) (s s1 : RunState)
    (h : execFrom r waitErr ctx domain s es1 = some s1) :
    execFrom r waitErr ctx domain s (es1 ++ es2) = execFrom r waitErr ctx domain s1 es2 := by
  induction es1 generalizing s with
  | nil =>
    simp only [execFrom, Option.some.injEq] at h
    subst h
    rfl
  | cons e es ih =>
    simp only [execFrom, List.cons_append] at h ⊢
    cases hs : step r waitErr ctx domain s e with
    | none => rw [hs] at h; simp at h
    | some s2 =>
      rw [hs] at h
      exact ih s2 h

/-- Run alone from a quiescent state, task `i` goes from waiting to done and
its outcome is received; the semaphore and the channel are empty again. -/
theorem sourceTaskEvents_run (r : Runner) (waitErr : Nat → GoError) (ctx : Context)
    (domain : String) (hw : 0 < r.workers) (i : Nat) (src : Source)
    (hsrc : r.sources[i]? = some src) (doneL rest : List Phase) (hlen : doneL.length = i)
    (inv : List Nat) (rec : List Result) :
    ∃ inv2 rec2,
      execFrom r waitErr ctx domain
          ⟨doneL ++ Phase.waiting :: rest, 0, inv, [], false, rec⟩
          (taskEvents r waitErr i src)
        = some ⟨doneL ++ Phase.done :: rest, 0, inv2, [], false, rec2⟩ := by
  have hcap : (0 : Int) < r.semCapacity := hw
  have hn : 0 < r.sources.length := by
    obtain ⟨hlt, _⟩ := List.getElem?_eq_some_iff.1 hsrc
    omega
  unfold taskEvents
  cases hl : limiterCheck r (waitErr i) src with
  | some err =>
    refine ⟨inv, rec ++ (sourceTask r (waitErr i) ctx domain src).sent, ?_⟩
    have hsent := (sourceTask_of_abort r (waitErr i) ctx domain src err hl).2
    simp [execFrom, step, getElem?_mid _ _ _ i hlen, set_mid _ _ _ _ i hlen, hsrc, hl,
      hcap, hn, hsent]
  | none =>
    refine ⟨inv ++ [i], rec ++ (sourceTask r (waitErr i) ctx domain src).sent, ?_⟩
    have hsent := (sourceTask_of_pass r (waitErr i) ctx domain src hl).2
    simp [execFrom, step, getElem?_mid _ _ _ i hlen, set_mid _ _ _ _ i hlen, hsrc, hl,
      hcap, hn, hsent]

theorem sequentialFrom_run (r : Runner) (waitErr : Nat → GoError) (ctx : Context)
    (domain : String) (hw : 0 < r.workers) (pre rest : List Source)
    (hsrcs : r.sources = pre ++ rest) (doneL : List Phase)
    (hlen : doneL.length = pre.length) (hdone : ∀ p ∈ doneL, p = Phase.done)
    (inv : List Nat) (rec : List Result) :
    ∃ s, execFrom r waitErr ctx domain
          ⟨doneL ++ rest.map (fun _ => Phase.waiting), 0, inv, [], false, rec⟩
          (sequentialFrom r waitErr pre.length rest) = some s
        ∧ s.finished = true := by
  induction rest generalizing pre doneL inv rec with
  | nil =>
    refine ⟨⟨doneL, 0, inv, [], true, rec⟩, ?_, rfl⟩
    have hall : doneL.all (fun p => p == Phase.done) = true := by
      rw [List.all_eq_true]
      intro p hp
      simp [hdone p hp]
    simp [sequentialFrom, execFrom, step, hall]
  | cons src rest ih =>
    have hsrc : r.sources[pre.length]? = some src := by
      rw [hsrcs]
      exact getElem?_mid _ _ _ _ rfl
    obtain ⟨inv2, rec2, hrun⟩ := sourceTaskEvents_run r waitErr ctx domain hw pre.length src hsrc
      doneL (rest.map (fun _ => Phase.waiting)) hlen inv rec
    have hih := ih (pre ++ [src]) (by rw [hsrcs]; simp) (doneL ++ [Phase.done])
      (by simp [hlen])
      (by
        intro p hp
        rw [List.mem_append, List.mem_singleton] at hp
        rcases hp with hp | hp
        · exact hdone p hp
        · exact hp)
      inv2 rec2
    simp only [List.append_assoc, List.singleton_append, List.length_append,
      List.length_singleton] at hih
    obtain ⟨s, hs, hfin⟩ := hih
    refine ⟨s, ?_, hfin⟩
    simp only [sequentialFrom, List.map_cons]
    rw [execFrom_append r waitErr ctx domain _ _ _ _ hrun]
    exact hs

/-- With a positive worker count the sequential schedule takes `Run` to the
end of its collection loop. -/
theorem sequentialFrom_finishes (r : Runner) (waitErr : Nat → GoError) (ctx : Context)
    (domain : String) (hw : 0 < r.workers) :
    ∃ s, exec r waitErr ctx domain (sequentialFrom r waitErr 0 r.sources) = some s
      ∧ s.finished = true := by
  obtain ⟨s, hs, hfin⟩ := sequentialFrom_run r waitErr ctx domain hw [] r.sources rfl [] rfl
    (by intro p hp; simp at hp) [] []
  simp only [List.nil_append, List.length_nil] at hs
  refine ⟨s, ?_, hfin⟩
  unfold exec initState
  have hcap : ¬ r.semCapacity < 0 := by
    unfold Runner.semCapacity
    omega
  rw [if_neg hcap]
  exact hs

/-- C25. When `Run` leaves its collection loop, every provider task is done,
the channel is empty, and the values received are exactly the outcomes of
the tasks, one per provider; each provider was invoked as often as its task
says: not at all when its limiter wait failed, its single outcome being the
abort outcome, and once otherwise, its outcome being what that invocation
returned. This holds for every context and limiter behaviour. With a
positive worker count the sequential schedule reaches that point, so `Run`
does return. -/
theorem run_drains_every_task (r : Runner) (waitErr : Nat → GoError) (ctx : Context)
    (domain : String) (schedule : List Event) (s : RunState)
    (hexec : exec r waitErr ctx domain schedule = some s) (hfin : s.finished = true) :
    (∀ p ∈ s.phases, p = Phase.done)
      ∧ s.phases.length = r.sources.length
      ∧ s.resultsChan = []
      ∧ s.received.Perm (taskOutcomes r waitErr ctx domain)
      ∧ s.received.length = r.sources.length
      ∧ (∀ i src, r.sources[i]? = some src →
          s.invoked.count i = (sourceTask r (waitErr i) ctx domain src).invocations
            ∧ (sourceTask r (waitErr i) ctx domain src).sent.length = 1
            ∧ ((∃ err, limiterCheck r (waitErr i) src = some err
                  ∧ (sourceTask r (waitErr i) ctx domain src).invocations = 0
                  ∧ (sourceTask r (waitErr i) ctx domain src).sent = [abortOutcome src err])
              ∨ (limiterCheck r (waitErr i) src = none
                  ∧ (sourceTask r (waitErr i) ctx domain src).invocations = 1
                  ∧ (sourceTask r (waitErr i) ctx domain src).sent
                    = [⟨src.name, (src.run ctx domain).1, (src.run ctx domain).2⟩])))
      ∧ (0 < r.workers →
          ∃ s2, exec r waitErr ctx domain (sequentialFrom r waitErr 0 r.sources) = some s2
            ∧ s2.finished = true) := by
  have hperm := received_all_outcomes r waitErr ctx domain schedule s hexec hfin
  unfold exec at hexec
  cases hi : initState r with
  | none => rw [hi] at hexec; simp at hexec
  | some s0 =>
    rw [hi] at hexec
    simp only at hexec
    obtain ⟨hlen, _, hclosed⟩ := execFrom_keeps_consistent r waitErr ctx domain schedule s0 s
      hexec (initState_consistent r waitErr ctx domain s0 hi)
    have hlog := execFrom_keeps_logged r waitErr ctx domain schedule s0 s hexec
      (initState_logged r waitErr ctx domain s0 hi)
    have hfin2 := hfin
    unfold RunState.finished at hfin2
    simp only [Bool.and_eq_true, List.isEmpty_iff] at hfin2
    have hall := hclosed hfin2.1
    refine ⟨hall, hlen, hfin2.2, hperm, ?_, ?_,
      fun hw => sequentialFrom_finishes r waitErr ctx domain hw⟩
    · rw [hperm.length_eq, taskOutcomes_length]
    · intro i src hsrc
      obtain ⟨hlt, _⟩ := List.getElem?_eq_some_iff.1 hsrc
      have hp : s.phases[i]? = some Phase.done := by
        have hlt2 : i < s.phases.length := by omega
        rw [List.getElem?_eq_getElem hlt2]
        exact congrArg some (hall _ (List.getElem_mem hlt2))
      have hcount := hlog i src Phase.done hsrc hp
      simp only [Phase.pastStart, if_true] at hcount
      refine ⟨hcount, sourceTask_sent_length r (waitErr i) ctx domain src, ?_⟩
      cases hl : limiterCheck r (waitErr i) src with
      | some err =>
        exact Or.inl ⟨err, rfl, sourceTask_of_abort r (waitErr i) ctx domain src err hl⟩
      | none =>
        exact Or.inr ⟨rfl, sourceTask_of_pass r (waitErr i) ctx domain src hl⟩

/-- Witness of C25 on the run of `TestRunnerTimeout`: the slow provider is
invoked once and its outcome is received before `Run` returns. -/
theorem run_drains_every_task_witness :
    exec timeoutTestRunner (fun _ => none) Context.background "example.com"
        [Event.acquire 0, Event.start 0, Event.finish 0, Event.release 0, Event.receive,
          Event.close]
      = some ⟨[Phase.done], 0, [0], [], true, [⟨"slow", ["api.example.com"], none⟩]⟩
      ∧ sequentialFrom timeoutTestRunner (fun _ => none) 0 timeoutTestRunner.sources
        = [Event.acquire 0, Event.start 0, Event.finish 0, Event.release 0, Event.receive,
            Event.close]
      ∧ ([⟨"slow", ["api.example.com"], none⟩] : List Result).length
        = timeoutTestRunner.sources.length :=
  have h : exec timeoutTestRunner (fun _ => none) Context.background "example.com"
      [Event.acquire 0, Event.start 0, Event.finish 0, Event.release 0, Event.receive,
        Event.close]
      = some ⟨[Phase.done], 0, [0], [], true, [⟨"slow", ["api.example.com"], none⟩]⟩ := rfl
  ⟨h, rfl, (run_drains_every_task timeoutTestRunner (fun _ => none) Context.background
    "example.com" _ _ h rfl).2.2.2.2.1⟩

end runner

namespace runner

/-! ## The orchestrator returns the hostnames as they were reported -/

theorem RunWithMetadata_hosts (domain : String) (outs : List Result) (hd : domain ≠ "") :
    (RunWithMetadata domain outs).1.map (fun v => v.Host) = (Run domain outs).1 := by
  rw [RunWithMetadata_fst domain outs hd, Run_fst domain outs hd, map_host_insertionSort,
    collectMeta_hosts, (collect_agree outs).1]

theorem mem_Run_iff (domain : String) (outs : List Result) (hd : domain ≠ "") (x : String) :
    x ∈ (Run domain outs).1 ↔ ∃ r ∈ outs, r.Error = none ∧ x ∈ r.Subdomains := by
  rw [Run_fst domain outs hd, (sortStrings_perm _).mem_iff, collect_keys]
  rfl

/-- C3, refuted as stated: `Run` and `RunWithMetadata` return a reported
hostname with its upper-case letters and trailing blank, and keep it apart
from the string that differs from it only in case and white space. -/
theorem run_does_not_normalize :
    Run "example.com" [⟨"A", ["www.example.com", "WWW.Example.com "], none⟩]
        = (["WWW.Example.com ", "www.example.com"], none)
      ∧ (RunWithMetadata "example.com"
          [⟨"A", ["www.example.com", "WWW.Example.com "], none⟩]).1.map (fun v => v.Host)
        = ["WWW.Example.com ", "www.example.com"]
      ∧ (∀ lower : Char → Char, ¬ isNormalized lower "WWW.Example.com ")
      ∧ (∀ lower : Char → Char,
          normalizeHost lower "WWW.Example.com " = normalizeHost lower "www.example.com") := by
  refine ⟨by decide, by decide, ?_, fun lower => rfl⟩
  intro lower h
  have h2 : normalizeHost lower "WWW.Example.com " = "www.example.com" := rfl
  unfold isNormalized at h
  rw [h2] at h
  exact absurd h (by decide)

/-- C3, amended: for a non-empty domain the hostnames returned by `Run` and by
`RunWithMetadata` are exactly the strings reported by the outcomes that carry
no error, unchanged; they are all lower-cased and trimmed exactly when all
the reported strings are; and two different reported strings, also when they
differ only in letter case or surrounding white space, give two entries. -/
theorem returned_hostnames_are_verbatim (lower : Char → Char) (domain : String)
    (outcomes : List Result) (hd : domain ≠ "") :
    (∀ x, x ∈ (Run domain outcomes).1 ↔
        ∃ r ∈ outcomes, r.Error = none ∧ x ∈ r.Subdomains)
      ∧ (∀ x, x ∈ (RunWithMetadata domain outcomes).1.map (fun v => v.Host) ↔
        ∃ r ∈ outcomes, r.Error = none ∧ x ∈ r.Subdomains)
      ∧ ((∀ x ∈ (Run domain outcomes).1, isNormalized lower x) ↔
        ∀ r ∈ outcomes, r.Error = none → ∀ x ∈ r.Subdomains, isNormalized lower x)
      ∧ ((∀ res ∈ (RunWithMetadata domain outcomes).1, isNormalized lower res.Host) ↔
        ∀ r ∈ outcomes, r.Error = none → ∀ x ∈ r.Subdomains, isNormalized lower x)
      ∧ (∀ x y, x ≠ y →
          (∃ r ∈ outcomes, r.Error = none ∧ x ∈ r.Subdomains) →
          (∃ r ∈ outcomes, r.Error = none ∧ y ∈ r.Subdomains) →
          [x, y].Subperm (Run domain outcomes).1
            ∧ [x, y].Subperm ((RunWithMetadata domain outcomes).1.map (fun v => v.Host))) := by
  have hmem := mem_Run_iff domain outcomes hd
  have hhosts := RunWithMetadata_hosts domain outcomes hd
  have hnorm : (∀ x ∈ (Run domain outcomes).1, isNormalized lower x) ↔
      ∀ r ∈ outcomes, r.Error = none → ∀ x ∈ r.Subdomains, isNormalized lower x := by
    constructor
    · intro h r hr hE x hx
      exact h x ((hmem x).2 ⟨r, hr, hE, hx⟩)
    · intro h x hx
      obtain ⟨r, hr, hE, hxr⟩ := (hmem x).1 hx
      exact h r hr hE x hxr
  refine ⟨hmem, ?_, hnorm, ?_, ?_⟩
  · intro x
    rw [hhosts]
    exact hmem x
  · rw [← hnorm, ← hhosts]
    simp only [List.mem_map, forall_exists_index, and_imp, forall_apply_eq_imp_iff₂]
  · intro x y hxy hx hy
    have hsub : [x, y].Subperm (Run domain outcomes).1 := by
      apply List.subperm_of_subset
      · simp [hxy]
      · intro z hz
        rw [List.mem_cons, List.mem_singleton] at hz
        rcases hz with hz | hz
        · rw [hz]; exact (hmem x).2 hx
        · rw [hz]; exact (hmem y).2 hy
    refine ⟨hsub, ?_⟩
    rw [hhosts]
    exact hsub

/-- Witness of the amended C3: the two spellings of one hostname are both
returned. -/
theorem returned_hostnames_are_verbatim_witness :
    "example.com" ≠ ""
      ∧ ["www.example.com", "WWW.Example.com "].Subperm
          (Run "example.com" [⟨"A", ["www.example.com", "WWW.Example.com "], none⟩]).1
      ∧ ["www.example.com", "WWW.Example.com "].Subperm
          ((RunWithMetadata "example.com"
            [⟨"A", ["www.example.com", "WWW.Example.com "], none⟩]).1.map
              (fun v => v.Host)) :=
  ⟨by decide,
    (returned_hostnames_are_verbatim (fun c => c) "example.com"
      [⟨"A", ["www.example.com", "WWW.Example.com "], none⟩] (by decide)).2.2.2.2
      "www.example.com" "WWW.Example.com " (by decide)
      ⟨⟨"A", ["www.example.com", "WWW.Example.com "], none⟩, by simp, rfl, by simp⟩
      ⟨⟨"A", ["www.example.com", "WWW.Example.com "], none⟩, by simp, rfl, by simp⟩⟩

end runner

namespace resolve

/-! ## The wildcard table under overlapping calls -/

theorem Op_apply_wildcards (op : Op) (r : Resolver) :
    (op.apply r).wildcards = r.wildcards := by
  cases op with
  | resolve net sub =>
    simp only [Op.apply]
    exact Resolve_wildcards net r sub
  | isWildcard net sub domain =>
    simp only [Op.apply]
    exact IsWildcard_wildcards net r sub domain
  | resolveMany net subs workers schedule =>
    simp only [Op.apply]
    cases hexec : manyExecFrom net subs workers (manyInit r subs) schedule with
    | none => rfl
    | some s =>
      simp only
      exact manyExecFrom_wildcards net subs workers schedule _ s hexec

theorem afterDetect_not_probing (g : Goroutine) (out : Bool × List String × GoError) :
    (g.afterDetect out).inProbeLoop = false := by
  unfold Goroutine.afterDetect
  split
  · rfl
  · split <;> rfl

/-- What one step does to the wildcard table: nothing, or it is the last
section of a `DetectWildcard` whose probes shared an address, which stores
the shared addresses under the domain of the call. -/
theorem sharedStep_wildcards (s s2 : Shared) (e : SharedEvent)
    (hstep : sharedStep s e = some s2) :
    s2.resolver.wildcards = s.resolver.wildcards
      ∨ ∃ i g resolvedIPs, e = SharedEvent.advance i ∧ s.goroutines[i]? = some g
          ∧ g.pc = Pc.probing [] resolvedIPs ∧ findCommonIPs resolvedIPs ≠ []
          ∧ s2.resolver.wildcards
            = mapStore s.resolver.wildcards g.domain (findCommonIPs resolvedIPs) := by
  cases e with
  | go net rnd domain filter =>
    simp only [sharedStep, Option.some.injEq] at hstep
    subst hstep
    exact Or.inl rfl
  | call op =>
    simp only [sharedStep, Option.some.injEq] at hstep
    subst hstep
    exact Or.inl (Op_apply_wildcards op s.resolver)
  | advance i =>
    simp only [sharedStep] at hstep
    cases hg : s.goroutines[i]? with
    | none => rw [hg] at hstep; simp at hstep
    | some g =>
      rw [hg] at hstep
      simp only at hstep
      cases hpc : g.pc with
      | check =>
        rw [hpc] at hstep
        simp only at hstep
        split at hstep
        · simp only [Option.some.injEq] at hstep
          subst hstep
          exact Or.inl rfl
        · simp only [Option.some.injEq] at hstep
          subst hstep
          exact Or.inl rfl
      | probing rest resolvedIPs =>
        rw [hpc] at hstep
        cases rest with
        | nil =>
          simp only at hstep
          split at hstep
          · split at hstep
            · next hpos =>
              simp only [Option.some.injEq] at hstep
              subst hstep
              refine Or.inr ⟨i, g, resolvedIPs, rfl, hg, hpc, ?_, rfl⟩
              intro h
              rw [h] at hpos
              simp at hpos
            · simp only [Option.some.injEq] at hstep
              subst hstep
              exact Or.inl rfl
          · simp only [Option.some.injEq] at hstep
            subst hstep
            exact Or.inl rfl
        | cons sub rest =>
          simp only [Option.some.injEq] at hstep
          subst hstep
          exact Or.inl (Resolve_wildcards _ _ _)
      | detected out =>
        rw [hpc] at hstep
        simp at hstep
      | filtering rest filtered =>
        rw [hpc] at hstep
        cases rest with
        | nil =>
          simp only [Option.some.injEq] at hstep
          subst hstep
          exact Or.inl rfl
        | cons sub rest =>
          simp only [Option.some.injEq] at hstep
          subst hstep
          exact Or.inl (IsWildcard_wildcards _ _ _ _)
      | filtered out =>
        rw [hpc] at hstep
        simp at hstep

/-- A step never removes a record, and it changes the record of a domain only
as the last section of a `DetectWildcard` for that domain. -/
theorem sharedStep_record (s s2 : Shared) (e : SharedEvent) (d : String)
    (ips : List String) (hstep : sharedStep s e = some s2)
    (hrec : mapLookup s.resolver.wildcards d = some ips) :
    mapLookup s2.resolver.wildcards d = some ips
      ∨ ∃ i g resolvedIPs, e = SharedEvent.advance i ∧ s.goroutines[i]? = some g
          ∧ g.domain = d ∧ g.pc = Pc.probing [] resolvedIPs
          ∧ findCommonIPs resolvedIPs ≠ []
          ∧ mapLookup s2.resolver.wildcards d = some (findCommonIPs resolvedIPs) := by
  rcases sharedStep_wildcards s s2 e hstep with h | ⟨i, g, acc, he, hg, hpc, hne, hw⟩
  · rw [h]
    exact Or.inl hrec
  · by_cases hd : g.domain = d
    · refine Or.inr ⟨i, g, acc, he, hg, hd, hpc, hne, ?_⟩
      rw [hw, hd, mapLookup_mapStore_self]
    · rw [hw, mapLookup_mapStore_ne _ _ _ _ (Ne.symm hd)]
      exact Or.inl hrec

/-- A goroutine enters the probe loop only from a read of the table that
found no record for its domain. -/
theorem sharedStep_enters_probe_loop (s s2 : Shared) (i : Nat) (g g2 : Goroutine)
    (hstep : sharedStep s (SharedEvent.advance i) = some s2)
    (hg : s.goroutines[i]? = some g) (hpc : g.pc.inProbeLoop = false)
    (hg2 : s2.goroutines[i]? = some g2) (hpc2 : g2.pc.inProbeLoop = true) :
    g.pc = Pc.check ∧ mapLookup s.resolver.wildcards g.domain = none
      ∧ g2.domain = g.domain := by
  have hlt : i < s.goroutines.length := (List.getElem?_eq_some_iff.1 hg).1
  simp only [sharedStep, hg] at hstep
  cases hp : g.pc with
  | check =>
    rw [hp] at hstep
    simp only at hstep
    split at hstep
    · simp only [Option.some.injEq] at hstep
      subst hstep
      simp only [List.getElem?_set_self hlt, Option.some.injEq] at hg2
      subst hg2
      rw [afterDetect_not_probing] at hpc2
      exact absurd hpc2 (by decide)
    · next hnone =>
      simp only [Option.some.injEq] at hstep
      subst hstep
      simp only [List.getElem?_set_self hlt, Option.some.injEq] at hg2
      subst hg2
      exact ⟨rfl, hnone, rfl⟩
  | probing rest acc =>
    rw [hp] at hpc
    simp [Pc.inProbeLoop] at hpc
  | detected out =>
    rw [hp] at hstep
    simp at hstep
  | filtering rest acc =>
    rw [hp] at hstep
    cases rest with
    | nil =>
      simp only [Option.some.injEq] at hstep
      subst hstep
      simp only [List.getElem?_set_self hlt, Option.some.injEq] at hg2
      subst hg2
      simp [Pc.inProbeLoop] at hpc2
    | cons sub rest =>
      simp only [Option.some.injEq] at hstep
      subst hstep
      simp only [List.getElem?_set_self hlt, Option.some.injEq] at hg2
      subst hg2
      simp [Pc.inProbeLoop] at hpc2
  | filtered out =>
    rw [hp] at hstep
    simp at hstep

end resolve

namespace resolve

theorem mem_set_cases {α : Type} (l : List α) (i : Nat) (a b : α) (h : b ∈ l.set i a) :
    b = a ∨ b ∈ l := by
  induction l generalizing i with
  | nil => simp at h
  | cons x xs ih =>
    cases i with
    | zero =>
      simp only [List.set_cons_zero, List.mem_cons] at h
      rcases h with h | h
      · exact Or.inl h
      · exact Or.inr (List.mem_cons_of_mem _ h)
    | succ n =>
      simp only [List.set_cons_succ, List.mem_cons] at h
      rcases h with h | h
      · exact Or.inr (by rw [h]; exact List.mem_cons_self _ _)
      · rcases ih n h with h2 | h2
        · exact Or.inl h2
        · exact Or.inr (List.mem_cons_of_mem _ h2)

theorem settled_set (domain : String) (gs : List Goroutine) (i : Nat) (g2 : Goroutine)
    (hq : ∀ x ∈ gs, x.domain = domain → x.pc.inProbeLoop = false)
    (hnew : g2.domain = domain → g2.pc.inProbeLoop = false) :
    ∀ x ∈ gs.set i g2, x.domain = domain → x.pc.inProbeLoop = false := by
  intro x hx hd
  rcases mem_set_cases gs i g2 x hx with h | h
  · rw [h] at hd ⊢
    exact hnew hd
  · exact hq x h hd

/-- Every step keeps a settled record. -/
theorem sharedStep_keeps_settled (domain : String) (ips : List String) (s s2 : Shared)
    (e : SharedEvent) (hstep : sharedStep s e = some s2) (hs : s.settled domain ips) :
    s2.settled domain ips := by
  obtain ⟨hrec, hq⟩ := hs
  cases e with
  | go net rnd d filter =>
    simp only [sharedStep, Option.some.injEq] at hstep
    subst hstep
    refine ⟨hrec, ?_⟩
    intro x hx hd
    rw [List.mem_append, List.mem_singleton] at hx
    rcases hx with hx | hx
    · exact hq x hx hd
    · rw [hx]
      rfl
  | call op =>
    simp only [sharedStep, Option.some.injEq] at hstep
    subst hstep
    refine ⟨?_, hq⟩
    show mapLookup (op.apply s.resolver).wildcards domain = some ips
    rw [Op_apply_wildcards]
    exact hrec
  | advance i =>
    simp only [sharedStep] at hstep
    cases hg : s.goroutines[i]? with
    | none => rw [hg] at hstep; simp at hstep
    | some g =>
      rw [hg] at hstep
      simp only at hstep
      have hmem : g ∈ s.goroutines := by
        obtain ⟨hlt, heq⟩ := List.getElem?_eq_some_iff.1 hg
        rw [← heq]
        exact List.getElem_mem hlt
      cases hpc : g.pc with
      | check =>
        rw [hpc] at hstep
        simp only at hstep
        split at hstep
        · simp only [Option.some.injEq] at hstep
          subst hstep
          exact ⟨hrec, settled_set domain _ i _ hq
            (fun _ => afterDetect_not_probing g _)⟩
        · next hnone =>
          simp only [Option.some.injEq] at hstep
          subst hstep
          refine ⟨hrec, settled_set domain _ i _ hq ?_⟩
          intro hd
          simp only at hd
          rw [hd, hrec] at hnone
          simp at hnone
      | probing rest resolvedIPs =>
        have hne : g.domain ≠ domain := by
          intro hd
          have := hq g hmem hd
          rw [hpc] at this
          simp [Pc.inProbeLoop] at this
        rw [hpc] at hstep
        cases rest with
        | nil =>
          simp only at hstep
          split at hstep
          · split at hstep
            · simp only [Option.some.injEq] at hstep
              subst hstep
              refine ⟨?_, settled_set domain _ i _ hq (fun hd => absurd hd hne)⟩
              show mapLookup (mapStore s.resolver.wildcards g.domain _) domain = some ips
              rw [mapLookup_mapStore_ne _ _ _ _ (Ne.symm hne)]
              exact hrec
            · simp only [Option.some.injEq] at hstep
              subst hstep
              exact ⟨hrec, settled_set domain _ i _ hq (fun hd => absurd hd hne)⟩
          · simp only [Option.some.injEq] at hstep
            subst hstep
            exact ⟨hrec, settled_set domain _ i _ hq (fun hd => absurd hd hne)⟩
        | cons sub rest =>
          simp only [Option.some.injEq] at hstep
          subst hstep
          refine ⟨?_, settled_set domain _ i _ hq (fun hd => absurd hd hne)⟩
          show mapLookup (Resolve g.net s.resolver sub).2.wildcards domain = some ips
          rw [Resolve_wildcards]
          exact hrec
      | detected out =>
        rw [hpc] at hstep
        simp at hstep
      | filtering rest filtered =>
        rw [hpc] at hstep
        cases rest with
        | nil =>
          simp only [Option.some.injEq] at hstep
          subst hstep
          exact ⟨hrec, settled_set domain _ i _ hq (fun _ => rfl)⟩
        | cons sub rest =>
          simp only [Option.some.injEq] at hstep
          subst hstep
          refine ⟨?_, settled_set domain _ i _ hq (fun _ => rfl)⟩
          show mapLookup (IsWildcard g.net s.resolver sub g.domain).2.wildcards domain
            = some ips
          rw [IsWildcard_wildcards]
          exact hrec
      | filtered out =>
        rw [hpc] at hstep
        simp at hstep

theorem sharedExec_keeps_settled (domain : String) (ips : List String)
    (schedule : List SharedEvent) (s s2 : Shared)
    (hexec : sharedExec s schedule = some s2) (hs : s.settled domain ips) :
    s2.settled domain ips := by
  induction schedule generalizing s with
  | nil =>
    simp only [sharedExec, Option.some.injEq] at hexec
    subst hexec
    exact hs
  | cons e es ih =>
    simp only [sharedExec] at hexec
    cases hstep : sharedStep s e with
    | none => rw [hstep] at hexec; simp at hexec
    | some s1 =>
      rw [hstep] at hexec
      exact ih s1 hexec (sharedStep_keeps_settled domain ips s s1 e hstep hs)

theorem sharedExec_append (es1 es2 : List SharedEvent) (s s1 : Shared)
    (h : sharedExec s es1 = some s1) :
    sharedExec s (es1 ++ es2) = sharedExec s1 es2 := by
  induction es1 generalizing s with
  | nil =>
    simp only [sharedExec, Option.some.injEq] at h
    subst h
    rfl
  | cons e es ih =>
    simp only [sharedExec, List.cons_append] at h ⊢
    cases hs : sharedStep s e with
    | none => rw [hs] at h; simp at h
    | some s2 =>
      rw [hs] at h
      exact ih s2 h

/-! ### A goroutine that runs alone computes `DetectWildcard` -/

theorem resolveProbes_cons (net : Net) (sub : String) (rest : List String) (r : Resolver)
    (acc : List (List String)) :
    resolveProbes net (sub :: rest) r acc
      = resolveProbes net rest (Resolve net r sub).2
          (appendResolved acc (Resolve net r sub).1) := by
  rw [resolveProbes]
  unfold appendResolved
  split
  · split <;> rfl
  · rfl

/-- The probe loop of a goroutine, run without a step of another goroutine in
between, is the loop of `resolveProbes`. -/
theorem probes_run_alone (net : Net) (rnd : Nat → Nat → Nat) (domain : String)
    (filter : Option (List String)) (pre post : List Goroutine) (names : List String)
    (r : Resolver) (acc : List (List String)) :
    sharedExec
        ⟨r, pre ++ ⟨net, rnd, domain, filter, Pc.probing names acc⟩ :: post⟩
        (List.replicate names.length (SharedEvent.advance pre.length))
      = some ⟨(resolveProbes net names r acc).2,
          pre ++ ⟨net, rnd, domain, filter,
            Pc.probing [] (resolveProbes net names r acc).1⟩ :: post⟩ := by
  induction names generalizing r acc with
  | nil => rfl
  | cons sub rest ih =>
    rw [resolveProbes_cons]
    simp only [List.length_cons, List.replicate_succ, sharedExec, sharedStep,
      getElem?_mid _ _ _ pre.length rfl, set_mid _ _ _ _ pre.length rfl]
    exact ih _ _

/-- A goroutine that runs `DetectWildcard` with no step of another goroutine
in between returns what the function `DetectWildcard` returns and leaves the
resolver that it leaves: one step when a record exists, five otherwise. -/
theorem detect_run_alone (net : Net) (rnd : Nat → Nat → Nat) (domain : String)
    (s : Shared) :
    ∃ k, (k = 1 ∨ k = 5)
      ∧ sharedExec s
          (SharedEvent.go net rnd domain none
            :: List.replicate k (SharedEvent.advance s.goroutines.length))
        = some ⟨(DetectWildcard net rnd s.resolver domain).2,
            s.goroutines ++ [⟨net, rnd, domain, none,
              Pc.detected (DetectWildcard net rnd s.resolver domain).1⟩]⟩ := by
  cases hl : mapLookup s.resolver.wildcards domain with
  | some ips =>
    refine ⟨1, Or.inl rfl, ?_⟩
    simp only [List.replicate_succ, List.replicate_zero, sharedExec, sharedStep,
      getElem?_mid _ _ _ s.goroutines.length rfl, set_mid _ _ _ _ s.goroutines.length rfl,
      hl, DetectWildcard, Goroutine.afterDetect]
  | none =>
    refine ⟨5, Or.inr rfl, ?_⟩
    have h3 : (probeNames rnd domain).length = 3 := probeNames_length rnd domain
    have hrun := probes_run_alone net rnd domain none s.goroutines [] (probeNames rnd domain)
      s.resolver []
    rw [h3] at hrun
    have hsplit : SharedEvent.go net rnd domain none
          :: List.replicate 5 (SharedEvent.advance s.goroutines.length)
        = [SharedEvent.go net rnd domain none, SharedEvent.advance s.goroutines.length]
          ++ (List.replicate 3 (SharedEvent.advance s.goroutines.length)
            ++ [SharedEvent.advance s.goroutines.length]) := rfl
    have hfirst : sharedExec s
          [SharedEvent.go net rnd domain none, SharedEvent.advance s.goroutines.length]
        = some ⟨s.resolver, s.goroutines ++ [⟨net, rnd, domain, none,
            Pc.probing (probeNames rnd domain) []⟩]⟩ := by
      simp only [sharedExec, sharedStep,
        getElem?_mid _ _ _ s.goroutines.length rfl, set_mid _ _ _ _ s.goroutines.length rfl,
        hl]
    rw [hsplit, sharedExec_append _ _ _ _ hfirst, sharedExec_append _ _ _ _ hrun]
    by_cases h2 : (resolveProbes net (probeNames rnd domain) s.resolver []).1.length ≥ 2
    · by_cases hc :
          (findCommonIPs (resolveProbes net (probeNames rnd domain) s.resolver []).1).length > 0
      · simp only [sharedExec, sharedStep,
          getElem?_mid _ _ _ s.goroutines.length rfl,
          set_mid _ _ _ _ s.goroutines.length rfl,
          DetectWildcard, hl, Goroutine.afterDetect, if_pos h2, if_pos hc]
      · simp only [sharedExec, sharedStep,
          getElem?_mid _ _ _ s.goroutines.length rfl,
          set_mid _ _ _ _ s.goroutines.length rfl,
          DetectWildcard, hl, Goroutine.afterDetect, if_pos h2, if_neg hc]
    · simp only [sharedExec, sharedStep,
        getElem?_mid _ _ _ s.goroutines.length rfl,
        set_mid _ _ _ _ s.goroutines.length rfl,
        DetectWildcard, hl, Goroutine.afterDetect, if_neg h2]

end resolve

namespace resolve

/-- C19, refuted as stated: two goroutines call `DetectWildcard` for the same
domain and both read the table before either writes. The first records the
address its probes shared; the second, whose probes got another address,
then replaces that record, and a call made afterwards returns the second
set. -/
theorem overlapping_detects_replace_record :
    (sharedExec ⟨NewResolver none, []⟩ overlappingDetects).map Shared.view
        = some ([("example.com", ["1.1.1.1"])],
            [Pc.detected (true, ["1.1.1.1"], none),
              Pc.probing (probeNames secondDraw "example.com") []])
      ∧ (sharedExec ⟨NewResolver none, []⟩
          (overlappingDetects ++ overlappingDetectsEnd)).map Shared.view
        = some ([("example.com", ["2.2.2.2"])],
            [Pc.detected (true, ["1.1.1.1"], none), Pc.detected (true, ["2.2.2.2"], none),
              Pc.detected (true, ["2.2.2.2"], none)]) := by
  decide

/-- C19, amended: once the table holds an address set for a domain and no
goroutine is between the read and the end of a `DetectWildcard` for that
domain, every sequence of steps of the goroutines and of calls of `Resolve`,
`IsWildcard` and `ResolveMany` leaves that set in the table, every
`DetectWildcard` for the domain returns true with that set and a nil error
without touching the resolver, and no goroutine enters the probe loop for
the domain again. In every state, a step never removes a record and changes
the record of a domain only as the last section of a `DetectWildcard` for
that domain, which a goroutine reaches only from a read of the table that
found no record. -/
theorem wildcard_record_is_permanent (s : Shared) (domain : String) (ips : List String)
    (hrec : mapLookup s.resolver.wildcards domain = some ips)
    (hquiet : ∀ g ∈ s.goroutines, g.domain = domain → g.pc.inProbeLoop = false)
    (schedule : List SharedEvent) (s2 : Shared)
    (hexec : sharedExec s schedule = some s2) :
    mapLookup s2.resolver.wildcards domain = some ips
      ∧ (∀ g ∈ s2.goroutines, g.domain = domain → g.pc.inProbeLoop = false)
      ∧ (∀ (net : Net) (rnd : Nat → Nat → Nat),
          DetectWildcard net rnd s2.resolver domain = ((true, ips, none), s2.resolver))
      ∧ (∀ (i : Nat) (g : Goroutine), s2.goroutines[i]? = some g → g.domain = domain →
          g.pc = Pc.check →
          sharedStep s2 (SharedEvent.advance i)
            = some { s2 with
                goroutines :=
                  s2.goroutines.set i { g with pc := g.afterDetect (true, ips, none) } })
      ∧ (∀ op : Op, (op.apply s2.resolver).wildcards = s2.resolver.wildcards)
      ∧ (∀ (t t2 : Shared) (e : SharedEvent) (d : String) (old : List String),
          sharedStep t e = some t2 → mapLookup t.resolver.wildcards d = some old →
          mapLookup t2.resolver.wildcards d = some old
            ∨ ∃ i g resolvedIPs, e = SharedEvent.advance i ∧ t.goroutines[i]? = some g
                ∧ g.domain = d ∧ g.pc = Pc.probing [] resolvedIPs
                ∧ findCommonIPs resolvedIPs ≠ []
                ∧ mapLookup t2.resolver.wildcards d = some (findCommonIPs resolvedIPs))
      ∧ (∀ (t t2 : Shared) (i : Nat) (g g2 : Goroutine),
          sharedStep t (SharedEvent.advance i) = some t2 → t.goroutines[i]? = some g →
          g.pc.inProbeLoop = false → t2.goroutines[i]? = some g2 →
          g2.pc.inProbeLoop = true →
          g.pc = Pc.check ∧ mapLookup t.resolver.wildcards g.domain = none
            ∧ g2.domain = g.domain) := by
  obtain ⟨hrec2, hquiet2⟩ :=
    sharedExec_keeps_settled domain ips schedule s s2 hexec ⟨hrec, hquiet⟩
  refine ⟨hrec2, hquiet2, ?_, ?_, fun op => Op_apply_wildcards op _, ?_, ?_⟩
  · intro net rnd
    unfold DetectWildcard
    rw [hrec2]
  · intro i g hg hd hpc
    simp only [sharedStep, hg, hpc, hd, hrec2]
  · intro t t2 e d old hstep hold
    exact sharedStep_record t t2 e d old hstep hold
  · intro t t2 i g g2 hstep hg hpc hg2 hpc2
    exact sharedStep_enters_probe_loop t t2 i g g2 hstep hg hpc hg2 hpc2

/-- Witness of the amended C19: the record made for `example.com` is still
the same after calls of the other operations, a detection for another
domain, which makes a record of its own, a `FilterWildcard` and a detection
for the same domain, their steps interleaved; both calls for `example.com`
were served from the record. -/
theorem wildcard_record_is_permanent_witness :
    mapLookup wildcardResolver.wildcards "example.com" = some ["6.6.6.6"]
      ∧ ∃ s2, sharedExec ⟨wildcardResolver, []⟩ laterEvents = some s2
          ∧ mapLookup s2.resolver.wildcards "example.com" = some ["6.6.6.6"]
          ∧ s2.goroutines.map (fun g => g.pc)
            = [Pc.detected (true, ["6.6.6.6"], none),
                Pc.filtered (["www.example.com", "x.example.com"], none),
                Pc.detected (true, ["6.6.6.6"], none)]
          ∧ mapLookup s2.resolver.wildcards "example.org" = some ["6.6.6.6"] := by
  refine ⟨by decide, ?_⟩
  have hview : (sharedExec ⟨wildcardResolver, []⟩ laterEvents).map
      (fun s => s.goroutines.map (fun g => g.pc))
      = some [Pc.detected (true, ["6.6.6.6"], none),
          Pc.filtered (["www.example.com", "x.example.com"], none),
          Pc.detected (true, ["6.6.6.6"], none)] := by
    decide
  have horg : (sharedExec ⟨wildcardResolver, []⟩ laterEvents).map
      (fun s => mapLookup s.resolver.wildcards "example.org") = some (some ["6.6.6.6"]) := by
    decide
  cases h : sharedExec ⟨wildcardResolver, []⟩ laterEvents with
  | none =>
    rw [h] at hview
    simp at hview
  | some s2 =>
    rw [h] at hview horg
    simp only [Option.map_some', Option.some.injEq] at hview horg
    exact ⟨s2, rfl,
      (wildcard_record_is_permanent ⟨wildcardResolver, []⟩ "example.com" ["6.6.6.6"]
        (by decide) (by simp) laterEvents s2 h).1, hview, horg⟩

end resolve

end Subrecon
